import Mathlib

/-!
Verification of the GMS2 MCP server project parser (`gms2_parser.py`,
`mcp_server.py`).

The Python code is shallowly embedded: strings are `List Char`, every
`os.*` call becomes an oracle parameter, and each mutation returns the list
of file-system actions it would perform, so that "performs no write" is the
statement `actions = []`.  Regular-expression operations are modelled by
dedicated scanning functions that mirror the concrete patterns used by the
source (`",\s*([]}])"`, the layer anchor of `add_room_instance`, the
resource anchor of `_register_resource_in_yyp`).
-/

namespace GMS2

/-! ## Basic character classes and Python string primitives -/

/-- The characters matched by Python's `\s` in an ASCII document
(`re` also matches some further Unicode spaces; the documents modelled
here are ASCII). -/
def isPyWs (c : Char) : Bool :=
  c = ' ' || c = '\t' || c = '\n' || c = '\r' || c = '\x0c' || c = '\x0b'

/-- JSON whitespace accepted between tokens by `json.loads`. -/
def isJsonWs (c : Char) : Bool :=
  c = ' ' || c = '\t' || c = '\n' || c = '\r'

/-- Python string comparison (`<` on `str`): lexicographic by code point. -/
def pyStrLtB : List Char → List Char → Bool
  | [], [] => false
  | [], _ :: _ => true
  | _ :: _, [] => false
  | a :: as, b :: bs => if a = b then pyStrLtB as bs else decide (a < b)

/-- Python `<=` on strings. -/
def pyStrLeB (a b : List Char) : Bool := !(pyStrLtB b a)

/-- Insert into a `pyStrLeB`-sorted list (kept in order). -/
def pyInsert (x : List Char) : List (List Char) → List (List Char)
  | [] => [x]
  | y :: ys => if pyStrLeB x y then x :: y :: ys else y :: pyInsert x ys

/-- Model of Python `sorted` on a list of strings.  `sorted` is a stable
sort by `<`; directory listings never contain duplicate names, so the
stable sort result coincides with this insertion sort. -/
def pySorted : List (List Char) → List (List Char)
  | [] => []
  | x :: xs => pyInsert x (pySorted xs)

/-- Python `str.endswith`. -/
def pyEndsWith (suffix s : List Char) : Bool :=
  decide (suffix = List.drop (s.length - suffix.length) s) && decide (suffix.length ≤ s.length)

/-- Python `str.startswith`. -/
def pyStartsWith : List Char → List Char → Bool
  | [], _ => true
  | _ :: _, [] => false
  | a :: as, b :: bs => a = b && pyStartsWith as bs

/-- Python `str.replace(pat, rep)` for a non-empty `pat`: leftmost,
non-overlapping. -/
def pyReplaceF (pat rep : List Char) : Nat → List Char → List Char
  | 0, _ => []
  | fuel + 1, s =>
    match s with
    | [] => []
    | c :: rest =>
      if pyStartsWith pat (c :: rest) = true ∧ pat ≠ [] then
        rep ++ pyReplaceF pat rep fuel (List.drop (pat.length - 1) rest)
      else
        c :: pyReplaceF pat rep fuel rest

def pyReplace (pat rep : List Char) (s : List Char) : List Char :=
  pyReplaceF pat rep s.length s

/-! ## POSIX path model (`os.path` on a `/`-separated system) -/

/-- `str.split('/')` (keeps empty components). -/
def splitSlash : List Char → List (List Char)
  | [] => [[]]
  | c :: rest =>
    match splitSlash rest with
    | [] => [[]]
    | piece :: pieces => if c = '/' then [] :: piece :: pieces else (c :: piece) :: pieces

/-- `posixpath.isabs`. -/
def isAbsPath (p : List Char) : Bool := p.head? = some '/'

/-- The component-processing loop of `posixpath.normpath`. -/
def normComps (initialSlash : Bool) : List (List Char) → List (List Char) → List (List Char)
  | acc, [] => acc.reverse
  | acc, comp :: comps =>
    if comp = [] || comp = ['.'] then normComps initialSlash acc comps
    else if comp ≠ ['.', '.'] || (!initialSlash && acc = []) ||
            (acc ≠ [] && acc.head? = some ['.', '.']) then
      normComps initialSlash (comp :: acc) comps
    else
      match acc with
      | [] => normComps initialSlash [] comps
      | _ :: accTail => normComps initialSlash accTail comps

/-- `posixpath.normpath` (faithful to CPython, including the `//` special
case). -/
def normPath (p : List Char) : List Char :=
  if p = [] then ['.']
  else
    let initialSlash : Bool := isAbsPath p
    let doubleSlash : Bool :=
      pyStartsWith ['/', '/'] p && !(pyStartsWith ['/', '/', '/'] p)
    let comps := normComps initialSlash [] (splitSlash p)
    let joined := List.intercalate ['/'] comps
    let withSlashes :=
      if initialSlash then (if doubleSlash then '/' :: '/' :: joined else '/' :: joined)
      else joined
    if withSlashes = [] then ['.'] else withSlashes

/-- `posixpath.join` restricted to two arguments, as used by the source. -/
def pyJoin (a b : List Char) : List Char :=
  if isAbsPath b then b
  else if a = [] || a.getLast? = some '/' then a ++ b
  else a ++ '/' :: b

/-- `posixpath.abspath`: resolve against the working directory, then
normalise. -/
def pyAbspath (cwd p : List Char) : List Char :=
  normPath (pyJoin cwd p)

/-- Strip trailing `/` characters (`str.rstrip('/')`). -/
def rstripSlash (p : List Char) : List Char :=
  (p.reverse.dropWhile (· = '/')).reverse

/-- `posixpath.dirname`. -/
def pyDirname (p : List Char) : List Char :=
  let head := (p.reverse.dropWhile (· ≠ '/')).reverse
  if head ≠ [] ∧ head.any (· ≠ '/') then rstripSlash head else head

/-- ASCII `str.lower`. -/
def pyLower (s : List Char) : List Char := s.map Char.toLower

/-- `str.rstrip('s')`. -/
def rstripS (s : List Char) : List Char :=
  (s.reverse.dropWhile (· = 's')).reverse

/-- One step of `str.splitlines`: drop the first line together with its
terminator (`\r\n`, `\n` or `\r`; the documents modelled are ASCII). -/
def afterLine : List Char → List Char
  | [] => []
  | c :: rest =>
    if c = '\n' then rest
    else if c = '\r' then
      (if rest.head? = some '\n' then rest.tail else rest)
    else afterLine rest

/-- `len(content.splitlines())`. -/
def slCountF : Nat → List Char → Nat
  | 0, _ => 0
  | fuel + 1, s => if s = [] then 0 else 1 + slCountF fuel (afterLine s)

def slCount (s : List Char) : Nat := slCountF s.length s
/-- A file-system side effect performed by an operation. -/
inductive FsAct where
  | mkdir (p : List Char)
  | write (p : List Char) (content : List Char)
  | rmtree (p : List Char)
deriving DecidableEq, Repr

/-! ## Anchor-pattern scanners

Models of the three concrete `re` patterns used by the mutation engine.
Each pattern's `\s*` is a greedy run followed by a character not in `\s`,
so the regex engine's backtracking never succeeds on a shorter run and the
match is the deterministic "skip all whitespace, then check the literal". -/

/-- Does `re.search(r'(\n\s*)\],"layers":\[\],"name":"L"', ·)` match at the
head of `s`?  (`lit` is the literal part after `\n\s*`.) -/
def layerAnchorAt (lit s : List Char) : Bool :=
  s.head? = some '\n' && pyStartsWith lit (s.tail.dropWhile isPyWs)

/-- The literal tail of the layer anchor for layer name `L` (which the
source passes through `re.escape`, so it is matched literally). -/
def layerAnchorLit (L : List Char) : List Char :=
  ("],\"layers\":[],\"name\":\"").toList ++ L ++ ['"']

/-- Leftmost match of the layer anchor: returns `(pre, suf)` with
`s = pre ++ suf` and the match starting exactly at `suf` (on the `\n`). -/
def splitAtLayerAnchor (lit : List Char) : List Char → Option (List Char × List Char)
  | [] => none
  | c :: rest =>
    if layerAnchorAt lit (c :: rest) then some ([], c :: rest)
    else (splitAtLayerAnchor lit rest).map (fun pr => (c :: pr.1, pr.2))

/-- Does the closing anchor `\n\s*\],` of the `.*?` patterns match at the
head of `t`? -/
def closeAnchorAt (t : List Char) : Bool :=
  t.head? = some '\n' && pyStartsWith ("],").toList (t.tail.dropWhile isPyWs)

/-- Earliest position of the closing anchor: `t = mid ++ suf` with the
anchor matching at `suf`. -/
def findCloseAnchor : List Char → Option (List Char × List Char)
  | [] => none
  | c :: rest =>
    if closeAnchorAt (c :: rest) then some ([], c :: rest)
    else (findCloseAnchor rest).map (fun pr => (c :: pr.1, pr.2))

/-- Model of `re.search(r'("LIT\[.*?)(\n\s*\],)', s, re.DOTALL)`: leftmost
start position holding the literal `lit` and admitting a closing anchor,
with the non-greedy `.*?` as short as possible.  Returns `(pre, mid, suf)`
with `s = pre ++ lit ++ mid ++ suf`; the insertion point `match.end(1)` is
the start of `suf`. -/
def splitAnchorDotStar (lit : List Char) : List Char → Option (List Char × List Char × List Char)
  | [] => none
  | c :: rest =>
    if pyStartsWith lit (c :: rest) then
      match findCloseAnchor (List.drop lit.length (c :: rest)) with
      | some (mid, suf) => some ([], mid, suf)
      | none => (splitAnchorDotStar lit rest).map (fun pr => (c :: pr.1, pr.2.1, pr.2.2))
    else (splitAnchorDotStar lit rest).map (fun pr => (c :: pr.1, pr.2.1, pr.2.2))

/-- The non-greedy middle of the property-override pattern
`("name":"PN".*?"value":)"([^"]*)"` (no DOTALL: `.` excludes newlines).
Starting after the `"name":"PN"` literal, find the shortest newline-free
`mid` such that `"value":"` follows and the quoted value closes.  Returns
`(mid, body, suf)` with input `= mid ++ "value": ++ " ++ body ++ " ++ suf`. -/
def subMid (lit2 : List Char) : Nat → List Char → Option (List Char × List Char × List Char)
  | 0, _ => none
  | fuel + 1, t =>
    let step : Option (List Char × List Char × List Char) :=
      match t with
      | [] => none
      | c :: rest =>
        if c = '\n' then none
        else (subMid lit2 fuel rest).map (fun pr => (c :: pr.1, pr.2.1, pr.2.2))
    if pyStartsWith lit2 t then
      match List.drop lit2.length t with
      | '"' :: v =>
        let body := v.takeWhile (· ≠ '"')
        match v.dropWhile (· ≠ '"') with
        | '"' :: suf => some ([], body, suf)
        | _ => step
      | _ => step
    else step

/-- `re.sub` for the full override pattern: all non-overlapping matches,
left to right, each replaced by `group1 ++ '"' ++ newVal ++ '"'`.
`fuel` bounds the recursion; with `fuel ≥ s.length` it is exact. -/
def pySubNameValue (lit1 lit2 newVal : List Char) : Nat → List Char → List Char
  | 0, s => s
  | _ + 1, [] => []
  | fuel + 1, c :: rest =>
    if pyStartsWith lit1 (c :: rest) then
      match subMid lit2 (rest.length + 1) (List.drop lit1.length (c :: rest)) with
      | some (mid, _body, suf) =>
        lit1 ++ mid ++ lit2 ++ '"' :: newVal ++ '"' :: pySubNameValue lit1 lit2 newVal fuel suf
      | none => c :: pySubNameValue lit1 lit2 newVal fuel rest
    else c :: pySubNameValue lit1 lit2 newVal fuel rest

/-! ## `mcp_server._get_project_path` (lines 29–55) -/

/-- The `ValueError` message raised when no path resolves; the tool
handlers catch it and return a validation error result. -/
def noPathMsg : List Char :=
  ("Project path not configured. Set GMS2_PROJECT_PATH in config.env or pass --project-path argument.").toList

/-- `_get_project_path`: `provided` is `arguments.get("project_path")`,
`selfPath` the process-configured default, `envPath` the
`GMS2_PROJECT_PATH` value visible after loading `config.env`, and `cwd`
the working directory (`os.getcwd()`).  `none`/empty model Python
falsiness. -/
def get_project_path (provided selfPath envPath : Option (List Char)) (cwd : List Char) :
    Except (List Char) (List Char) :=
  let step3 : Except (List Char) (List Char) :=
    match envPath with
    | some e => if e ≠ [] then Except.ok e else Except.error noPathMsg
    | none => Except.error noPathMsg
  let step2 : Except (List Char) (List Char) :=
    match selfPath with
    | some sp => if sp ≠ [] then Except.ok sp else step3
    | none => step3
  match provided with
  | some p =>
    if p ≠ [] ∧ pyAbspath cwd p ≠ pyAbspath cwd cwd then Except.ok p else step2
  | none => step2

/-! ## `write_gml_file` (lines 429–456) -/

/-- `_normalize_path`: backslashes to forward slashes. -/
def normalizeSep (p : List Char) : List Char :=
  p.map (fun c => if c = '\\' then '/' else c)

def commonPrefixLen : List (List Char) → List (List Char) → Nat
  | a :: as, b :: bs => if a = b then 1 + commonPrefixLen as bs else 0
  | _, _ => 0

/-- `posixpath.relpath`. -/
def pyRelpath (cwd p start : List Char) : List Char :=
  let pl := (splitSlash (pyAbspath cwd p)).filter (· ≠ [])
  let sl := (splitSlash (pyAbspath cwd start)).filter (· ≠ [])
  let i := commonPrefixLen sl pl
  let rel := (List.replicate (sl.length - i) (("..").toList)) ++ pl.drop i
  if rel = [] then ['.'] else List.intercalate ['/'] rel

inductive WriteRes where
  | securityError (path : List Char)
  | validationError (path : List Char)
  | ok (relPath : List Char) (lineCount charCount : Nat)
  | ioError
deriving DecidableEq, Repr

/-- `write_gml_file`.  `ioFail` is the oracle for an exception inside the
`try` block (caught and turned into a generic error result). -/
def write_gml_file (cwd projectPath filePath content : List Char) (ioFail : Bool) :
    WriteRes × List FsAct :=
  let fp := if isAbsPath filePath then filePath else pyJoin projectPath filePath
  let absProject := pyAbspath cwd projectPath
  let absFile := pyAbspath cwd fp
  if ¬ pyStartsWith (absProject ++ ['/']) absFile ∧ absFile ≠ absProject then
    (.securityError fp, [])
  else if ¬ pyEndsWith ((".gml").toList) fp then
    (.validationError fp, [])
  else if ioFail then (.ioError, [])
  else
    (.ok (normalizeSep (pyRelpath cwd fp projectPath)) (slCount content) content.length,
      [FsAct.mkdir (pyDirname fp), FsAct.write fp content])

/-! ## `_scan_category` (lines 72–110) and the category loop of
`scan_project` (lines 59–63) -/

structure GmlRef where
  name : List Char
  path : List Char
deriving DecidableEq, Repr

structure AssetInfo where
  name : List Char
  path : List Char
  typ : List Char
  yy_file : Option (List Char)
  gml_files : List GmlRef
deriving DecidableEq, Repr

structure CategoryInfo where
  path : List Char
  assets : List AssetInfo
  error : Option (List Char)
deriving DecidableEq, Repr

/-- The asset loop of `_scan_category` over the sorted listing.  An
`OSError` from the inner `os.listdir(asset_path)` aborts the loop (the
current asset is not appended) and sets the `error` field; assets already
appended are kept — that is what the source's `try/except` around the
whole loop does. -/
def scanAssets (categoryPath categoryName : List Char) (isDirAt isFileAt : List Char → Bool)
    (listDirAt : List Char → Except (List Char) (List (List Char))) :
    List (List Char) → List AssetInfo × Option (List Char)
  | [] => ([], none)
  | name :: rest =>
    let assetPath := pyJoin categoryPath name
    if isDirAt assetPath then
      let yyPath := pyJoin assetPath (name ++ ((".yy").toList))
      let yy := if isFileAt yyPath then some yyPath else none
      match listDirAt assetPath with
      | .error e => ([], some ((("Could not read directory: ").toList) ++ e))
      | .ok files =>
        let gmls := (files.filter (fun f => pyEndsWith ((".gml").toList) f)).map
          (fun f => { name := f, path := pyJoin assetPath f : GmlRef })
        let asset : AssetInfo :=
          { name := name, path := assetPath, typ := rstripS (pyLower categoryName),
            yy_file := yy, gml_files := gmls }
        let more := scanAssets categoryPath categoryName isDirAt isFileAt listDirAt rest
        (asset :: more.1, more.2)
    else scanAssets categoryPath categoryName isDirAt isFileAt listDirAt rest

/-- `_scan_category`. -/
def scan_category (categoryPath categoryName : List Char) (isDirAt isFileAt : List Char → Bool)
    (listDirAt : List Char → Except (List Char) (List (List Char))) : CategoryInfo :=
  match listDirAt categoryPath with
  | .error e =>
    { path := categoryPath, assets := [],
      error := some ((("Could not read directory: ").toList) ++ e) }
  | .ok names =>
    let pr := scanAssets categoryPath categoryName isDirAt isFileAt listDirAt (pySorted names)
    { path := categoryPath, assets := pr.1, error := pr.2 }

/-- The fixed category table of `scan_project`. -/
def assetCategories : List (List Char × List Char) :=
  [(("Objects").toList, ("objects").toList), (("Scripts").toList, ("scripts").toList),
   (("Rooms").toList, ("rooms").toList), (("Sprites").toList, ("sprites").toList),
   (("Notes").toList, ("notes").toList), (("Tile Sets").toList, ("tilesets").toList),
   (("Timelines").toList, ("timelines").toList), (("Fonts").toList, ("fonts").toList),
   (("Sounds").toList, ("sounds").toList), (("Extensions").toList, ("extensions").toList)]

/-- The `structure["categories"]` portion of `scan_project` (the `.yyp`
presence check and the per-category loop; the separate recursive GML walk
does not interact with it). -/
def scan_project_categories (projectPath : List Char) (rootExists : Bool)
    (rootListing : List (List Char)) (isDirAt isFileAt : List Char → Bool)
    (listDirAt : List Char → Except (List Char) (List (List Char))) :
    Except (List Char) (List (List Char × CategoryInfo)) :=
  if ¬ rootExists then .error ((("Project path not found: ").toList) ++ projectPath)
  else if (rootListing.filter (fun f => pyEndsWith ((".yyp").toList) f)) = [] then
    .error ((("No .yyp file found in ").toList) ++ projectPath)
  else
    .ok ((assetCategories.filter (fun pr => isDirAt (pyJoin projectPath pr.2))).map
      (fun pr => (pr.1, scan_category (pyJoin projectPath pr.2) pr.1 isDirAt isFileAt listDirAt)))

/-! ## `duplicate_object` (lines 247–316) and
`_register_resource_in_yyp` (lines 318–343) -/

/-- The quoted-name pattern `"src"` of the identifier rewrite. -/
def qTok (nm : List Char) : List Char := '"' :: nm ++ ['"']

/-- The path-fragment pattern `src/src.yy` of the identifier rewrite. -/
def fragTok (nm : List Char) : List Char := nm ++ '/' :: nm ++ ((".yy").toList)

/-- Lines 270–274: the two literal substring rewrites on the copied
metadata text. -/
def dupRewriteNames (src nm content : List Char) : List Char :=
  pyReplace (fragTok src) (fragTok nm) (pyReplace (qTok src) (qTok nm) content)

/-- Lines 277–284: apply each property override via the `re.sub`
pattern `("name":"PN".*?"value":)"([^"]*)"`. -/
def applyOverrides (overrides : List (List Char × List Char)) (content : List Char) : List Char :=
  overrides.foldl
    (fun acc pr =>
      pySubNameValue ((("\"name\":\"").toList) ++ pr.1 ++ ['"']) (("\"value\":").toList)
        pr.2 acc.length acc)
    content

/-- The whole metadata-text transformation of `duplicate_object`. -/
def dupTransformYy (src nm : List Char) (overrides : List (List Char × List Char))
    (content : List Char) : List Char :=
  applyOverrides overrides (dupRewriteNames src nm content)

/-- The literal head of the resources-array anchor
`("resources":\[.*?)(\n\s*\],)`. -/
def yypResourcesLit : List Char := ("\"resources\":[").toList

/-- The resource entry inserted into the manifest. -/
def yypEntry (assetName category : List Char) : List Char :=
  (("    ").toList) ++ '{' :: (("\"id\":").toList) ++ '{' :: (("\"name\":\"").toList) ++ assetName ++
    (("\",\"path\":\"").toList) ++ category ++ '/' :: assetName ++ '/' :: assetName ++
    ((".yy\",").toList) ++ '}' :: ',' :: '}' :: [',']

/-- `_register_resource_in_yyp`: `projListing` is `os.listdir(project_path)`
(in directory order — the source takes the first `.yyp` it finds),
`yypContent` that file's text. -/
def register_resource_in_yyp (projectPath assetName category : List Char)
    (projListing : List (List Char)) (yypContent : List Char) : Bool × List FsAct :=
  match projListing.filter (fun f => pyEndsWith ((".yyp").toList) f) with
  | [] => (false, [])
  | y0 :: _ =>
    match splitAnchorDotStar yypResourcesLit yypContent with
    | none => (false, [])
    | some (pre, mid, suf) =>
      (true, [FsAct.write (pyJoin projectPath y0)
        (pre ++ yypResourcesLit ++ mid ++ '\n' :: yypEntry assetName category ++ suf)])

inductive DupRes where
  | errSourceNotFound (src : List Char)
  | errExists (nm : List Char)
  | ok (newPath yyFile : List Char) (gmlFiles : List (List Char)) (registered : Bool)
deriving DecidableEq, Repr

/-- `duplicate_object`.  Oracles: `sourceIsDir`/`newExists` answer the two
guard checks, `sourceYyIsFile`/`sourceYyContent` the metadata read,
`sourceListing` is `os.listdir(source_path)`, `gmlContentAt` each event
file's text, and `projListing`/`yypContent` feed the manifest
registration.  The model represents executions in which no exception is
raised, so the rollback branch (lines 311–316) is not taken. -/
def duplicate_object (projectPath source newName : List Char)
    (overrides : List (List Char × List Char))
    (sourceIsDir newExists sourceYyIsFile : Bool) (sourceYyContent : List Char)
    (sourceListing : List (List Char)) (gmlContentAt : List Char → List Char)
    (projListing : List (List Char)) (yypContent : List Char) : DupRes × List FsAct :=
  let newPath := pyJoin (pyJoin projectPath (("objects").toList)) newName
  if ¬ sourceIsDir then (.errSourceNotFound source, [])
  else if newExists then (.errExists newName, [])
  else
    let newYy := pyJoin newPath (newName ++ ((".yy").toList))
    let yyActs :=
      if sourceYyIsFile then
        [FsAct.write newYy (dupTransformYy source newName overrides sourceYyContent)]
      else []
    let gmlNames := (pySorted sourceListing).filter (fun f => pyEndsWith ((".gml").toList) f)
    let gmlActs := gmlNames.map (fun f => FsAct.write (pyJoin newPath f) (gmlContentAt f))
    let reg := register_resource_in_yyp projectPath newName (("objects").toList) projListing yypContent
    (.ok newPath newYy gmlNames reg.1, FsAct.mkdir newPath :: yyActs ++ gmlActs ++ reg.2)

/-! ## `add_room_instance` (lines 345–427) -/

/-- `obj_yy_rel`. -/
def objYyRel (obj : List Char) : List Char :=
  (("objects/").toList) ++ obj ++ '/' :: obj ++ ((".yy").toList)

/-- One `$GMOverriddenProperty` record of the `properties` block. -/
def propEntry (obj rel pn pv : List Char) : List Char :=
  '{' :: (("\"$GMOverriddenProperty\":\"v1\",\"%Name\":\"\",\"name\":\"\",\"objectId\":").toList) ++
  '{' :: (("\"name\":\"").toList) ++ obj ++ (("\",\"path\":\"").toList) ++ rel ++ (("\",").toList) ++
  '}' :: ((",\"propertyId\":").toList) ++
  '{' :: (("\"name\":\"").toList) ++ pn ++ (("\",\"path\":\"").toList) ++ rel ++ (("\",").toList) ++
  '}' :: ((",\"resourceType\":\"GMOverriddenProperty\",\"resourceVersion\":\"2.0\",\"value\":\"").toList) ++
  pv ++ (("\",").toList) ++ ['}']

/-- `props_json` (lines 366–377). -/
def propsJson (obj rel : List Char) (overrides : List (List Char × List Char)) : List Char :=
  if overrides = [] then ("[]").toList
  else
    '[' :: '\n' :: (("            ").toList) ++
      List.intercalate ((",\n            ").toList)
        (overrides.map (fun pr => propEntry obj rel pr.1 pr.2)) ++
      ((",\n          ]").toList)

/-- `instance_line` (lines 379–390); the numeric arguments appear as the
text `str()` renders them to. -/
def instanceLine (instId obj rel props rot sx sy x y : List Char) : List Char :=
  '{' :: (("\"$GMRInstance\":\"v4\",\"%Name\":\"").toList) ++ instId ++
  (("\",\"colour\":4294967295,\"frozen\":false,\"hasCreationCode\":false,\"ignore\":false,\"imageIndex\":0,\"imageSpeed\":1.0,\"inheritCode\":false,\"inheritedItemId\":null,\"inheritItemSettings\":false,\"isDnd\":false,\"name\":\"").toList) ++
  instId ++ (("\",\"objectId\":").toList) ++
  '{' :: (("\"name\":\"").toList) ++ obj ++ (("\",\"path\":\"").toList) ++ rel ++ (("\",").toList) ++
  '}' :: ((",\"properties\":").toList) ++ props ++
  ((",\"resourceType\":\"GMRInstance\",\"resourceVersion\":\"2.0\",\"rotation\":").toList) ++ rot ++
  ((",\"scaleX\":").toList) ++ sx ++ ((",\"scaleY\":").toList) ++ sy ++
  ((",\"x\":").toList) ++ x ++ ((",\"y\":").toList) ++ y ++ ',' :: ['}']

/-- The literal head of the creation-order anchor
`("instanceCreationOrder":\[.*?)(\n\s*\],)`. -/
def icoLit : List Char := ("\"instanceCreationOrder\":[").toList

/-- `ico_entry` (line 407). -/
def icoEntry (instId room : List Char) : List Char :=
  (("    ").toList) ++ '{' :: (("\"name\":\"").toList) ++ instId ++
    (("\",\"path\":\"rooms/").toList) ++ room ++ '/' :: room ++ ((".yy\",").toList) ++ '}' :: [',']

inductive AddRes where
  | errRoomNotFound (room : List Char)
  | errObjNotFound (obj : List Char)
  | errLayerNotFound (layer room : List Char)
  | ok (instId : List Char)
deriving DecidableEq, Repr

/-- `add_room_instance`.  `instId` is the generated `inst_XXXXXXXX`
identifier (the uuid draw, an input here); `roomIsFile`/`objIsFile` answer
the two existence checks and `roomContent` the room-file read. -/
def add_room_instance (projectPath roomName objectName : List Char)
    (x y sx sy rot : List Char) (layerName : List Char)
    (overrides : List (List Char × List Char)) (instId : List Char)
    (roomIsFile objIsFile : Bool) (roomContent : List Char) : AddRes × List FsAct :=
  if ¬ roomIsFile then (.errRoomNotFound roomName, [])
  else if ¬ objIsFile then (.errObjNotFound objectName, [])
  else
    let rel := objYyRel objectName
    let props := propsJson objectName rel overrides
    let line := instanceLine instId objectName rel props rot sx sy x y
    match splitAtLayerAnchor (layerAnchorLit layerName) roomContent with
    | none => (.errLayerNotFound layerName roomName, [])
    | some (pre, suf) =>
      let c1 := pre ++ '\n' :: (("        ").toList) ++ line ++ ',' :: suf
      let c2 :=
        match splitAnchorDotStar icoLit c1 with
        | some (p, m, sf) => p ++ icoLit ++ m ++ '\n' :: icoEntry instId roomName ++ sf
        | none => c1
      let roomYy :=
        pyJoin (pyJoin (pyJoin projectPath (("rooms").toList)) roomName)
          (roomName ++ ((".yy").toList))
      (.ok instId, [FsAct.write roomYy c2])

/-! ## The tolerant structured-text reader

`get_room_info`/`get_object_info` read a metadata file, apply
`re.sub(r",\s*([]}])", r"\1", content)` and hand the result to
`json.loads`.  `stripCommas` models the `re.sub` (single pass, leftmost,
non-overlapping; after a miss at a comma the scan resumes at the next
character, after a hit it resumes after the bracket).  `pyJsonParse false`
models `json.loads` on an ASCII document; the `true` flag additionally
accepts trailing commas, giving the relaxed dialect the spec describes. -/

/-- The parsed structured value.  String bodies and numeric literals are
kept as the raw character runs of the document (escapes unprocessed);
objects keep their fields in document order (Python's dict gives later
duplicates precedence, so lookups below take the last binding). -/
inductive JVal where
  | null
  | bool (b : Bool)
  | num (lit : List Char)
  | str (body : List Char)
  | arr (items : List JVal)
  | obj (fields : List (List Char × JVal))

/-- Model of `re.sub(r",\s*([]}])", r"\1", s)`. -/
def stripCommasF : Nat → List Char → List Char
  | 0, _ => []
  | fuel + 1, s =>
    match s with
    | [] => []
    | c :: rest =>
      if c = ',' then
        if (rest.dropWhile isPyWs).head? = some ']' then
          ']' :: stripCommasF fuel (rest.dropWhile isPyWs).tail
        else if (rest.dropWhile isPyWs).head? = some '}' then
          '}' :: stripCommasF fuel (rest.dropWhile isPyWs).tail
        else ',' :: stripCommasF fuel rest
      else c :: stripCommasF fuel rest

def stripCommas (s : List Char) : List Char := stripCommasF s.length s
/-- Hexadecimal digit (for `\uXXXX` escapes). -/
def isHexDigit (c : Char) : Bool :=
  c.isDigit || ('a' ≤ c && c ≤ 'f') || ('A' ≤ c && c ≤ 'F')

/-- The single-character escapes `json.loads` accepts after a backslash. -/
def escSimple (c : Char) : Bool :=
  c = '"' || c = '\\' || c = '/' || c = 'b' || c = 'f' || c = 'n' || c = 'r' || c = 't'

/-- Scan one escape sequence after the backslash: returns the escape
characters (without the backslash) and the remainder. -/
def scanEsc : List Char → Option (List Char × List Char)
  | [] => none
  | e :: rest2 =>
    if escSimple e then some ([e], rest2)
    else if e = 'u' then
      if (rest2.take 4).length = 4 && (rest2.take 4).all isHexDigit then
        some (e :: rest2.take 4, rest2.drop 4)
      else none
    else none

/-- The string scanner of `json.loads` (strict mode): returns the raw body
and the input after the closing quote.  Raw control characters are
rejected, escapes are validated but kept unprocessed. -/
def scanStrF : Nat → List Char → Option (List Char × List Char)
  | 0, _ => none
  | fuel + 1, s =>
    match s with
    | [] => none
    | c :: rest =>
      if c = '"' then some ([], rest)
      else if c = '\\' then
        match scanEsc rest with
        | none => none
        | some pr =>
          (scanStrF fuel pr.2).map (fun qr => (c :: pr.1 ++ qr.1, qr.2))
      else if c.toNat < 32 then none
      else (scanStrF fuel rest).map (fun pr => (c :: pr.1, pr.2))

def scanStr (s : List Char) : Option (List Char × List Char) := scanStrF s.length s
/-- The unsigned integer alternatives `(0|[1-9]\d*)`. -/
def scanIntPos : List Char → Option (List Char × List Char)
  | [] => none
  | c :: r =>
    if c = '0' then some (['0'], r)
    else if c.isDigit then some (c :: r.takeWhile Char.isDigit, r.dropWhile Char.isDigit)
    else none

/-- The integer part of Python's `NUMBER_RE`: `-?(0|[1-9]\d*)`. -/
def scanIntPart (s : List Char) : Option (List Char × List Char) :=
  if s.head? = some '-' then (scanIntPos s.tail).map (fun pr => ('-' :: pr.1, pr.2))
  else scanIntPos s

/-- The optional fraction group `(\.\d+)?` (not taken when malformed). -/
def scanFracPart : List Char → List Char × List Char
  | [] => ([], [])
  | c :: r =>
    if c = '.' then
      if r.takeWhile Char.isDigit = [] then ([], c :: r)
      else (c :: r.takeWhile Char.isDigit, r.dropWhile Char.isDigit)
    else ([], c :: r)

/-- The optional exponent group `([eE][-+]?\d+)?` (not taken when
malformed). -/
def scanExpPart : List Char → List Char × List Char
  | [] => ([], [])
  | e :: r =>
    if e = 'e' ∨ e = 'E' then
      let hasSign : Bool := r.head? = some '+' || r.head? = some '-'
      let body := if hasSign then r.tail else r
      let ds := body.takeWhile Char.isDigit
      if ds = [] then ([], e :: r)
      else (e :: (if hasSign then r.take 1 else []) ++ ds, body.dropWhile Char.isDigit)
    else ([], e :: r)

/-- The number scanner: Python's `NUMBER_RE`
`-?(0|[1-9]\d*)(\.\d+)?([eE][-+]?\d+)?`, greedy. -/
def scanNum (s : List Char) : Option (List Char × List Char) :=
  (scanIntPart s).map (fun pr =>
    let f := scanFracPart pr.2
    let e := scanExpPart f.2
    (pr.1 ++ f.1 ++ e.1, e.2))

/-- Skip JSON whitespace. -/
def skipWsL (s : List Char) : List Char := s.dropWhile isJsonWs

/-- Match a literal and return the remainder. -/
def dropLit (lit s : List Char) : Option (List Char) :=
  if pyStartsWith lit s then some (List.drop lit.length s) else none

mutual

/-- The value scanner of `json.loads` (first character already
non-whitespace).  With `rx = true` the container scanners additionally
accept a trailing comma, which is the only liberty of the relaxed
dialect. -/
def parseVal (rx : Bool) : Nat → List Char → Option (JVal × List Char)
  | 0, _ => none
  | fuel + 1, s =>
    match s with
    | [] => none
    | c :: rest =>
      if c = '"' then (scanStr rest).map (fun pr => (.str pr.1, pr.2))
      else if c = '{' then
        let s1 := skipWsL rest
        if s1.head? = some '}' then some (.obj [], s1.tail)
        else parseFields rx fuel s1 []
      else if c = '[' then
        let s1 := skipWsL rest
        if s1.head? = some ']' then some (.arr [], s1.tail)
        else parseItems rx fuel s1 []
      else if c = 't' then (dropLit (("rue").toList) rest).map (fun r => (.bool true, r))
      else if c = 'f' then (dropLit (("alse").toList) rest).map (fun r => (.bool false, r))
      else if c = 'n' then (dropLit (("ull").toList) rest).map (fun r => (.null, r))
      else if c = 'N' then (dropLit (("aN").toList) rest).map (fun r => (.num (("NaN").toList), r))
      else if c = 'I' then
        (dropLit (("nfinity").toList) rest).map (fun r => (.num (("Infinity").toList), r))
      else if c = '-' ∧ pyStartsWith (("Infinity").toList) rest then
        some (.num (("-Infinity").toList), List.drop 8 rest)
      else (scanNum s).map (fun pr => (.num pr.1, pr.2))

/-- The element loop of the array scanner (current input at a value
start). -/
def parseItems (rx : Bool) : Nat → List Char → List JVal → Option (JVal × List Char)
  | 0, _, _ => none
  | fuel + 1, s, acc =>
    match parseVal rx fuel s with
    | none => none
    | some (v, r) =>
      let u := skipWsL r
      if u.head? = some ',' then
        let r3 := skipWsL u.tail
        if rx ∧ r3.head? = some ']' then some (.arr (v :: acc).reverse, r3.tail)
        else parseItems rx fuel r3 (v :: acc)
      else if u.head? = some ']' then some (.arr (v :: acc).reverse, u.tail)
      else none

/-- The member loop of the object scanner (current input at the opening
quote of a key). -/
def parseFields (rx : Bool) : Nat → List Char → List (List Char × JVal) →
    Option (JVal × List Char)
  | 0, _, _ => none
  | fuel + 1, s, acc =>
    if s.head? = some '"' then
      match scanStr s.tail with
      | none => none
      | some (k, r1) =>
        let u := skipWsL r1
        if u.head? = some ':' then
          match parseVal rx fuel (skipWsL u.tail) with
          | none => none
          | some (v, r3) =>
            let w := skipWsL r3
            if w.head? = some ',' then
              let r5 := skipWsL w.tail
              if rx ∧ r5.head? = some '}' then some (.obj ((k, v) :: acc).reverse, r5.tail)
              else parseFields rx fuel r5 ((k, v) :: acc)
            else if w.head? = some '}' then some (.obj ((k, v) :: acc).reverse, w.tail)
            else none
        else none
    else none

end

/-- `json.loads` (`rx = false`), and the relaxed-dialect parser
(`rx = true`): one complete value, surrounding whitespace only. -/
def pyJsonParse (rx : Bool) (s : List Char) : Option JVal :=
  match parseVal rx (s.length + 1) (skipWsL s) with
  | some (v, rest) => if skipWsL rest = [] then some v else none
  | none => none

/-- The Tolerant Structured-Text Reader of `get_room_info` /
`get_object_info` (lines 175–177, 203–205): strip the trailing-comma
pattern, then a standard JSON parse. -/
def tolerantParse (s : List Char) : Option JVal :=
  pyJsonParse false (stripCommas s)

/-- Validity in the relaxed dialect (standard JSON plus trailing commas),
as a parser. -/
def parseRelaxed (s : List Char) : Option JVal :=
  pyJsonParse true s

/-! ## The relaxed-JSON grammar as a rendering relation

`Good rx v s` says the text `s` is a rendering of the structured value
`v`: standard JSON when `rx = false`, and additionally allowing a trailing
comma inside non-empty arrays/objects when `rx = true`.  Item/field texts
start at the first value character; leading whitespace is carried by the
container constructors. -/

/-- A well-formed raw string body: the string scanner accepts exactly it
up to a closing quote. -/
def strBodyOk (body : List Char) : Bool :=
  decide (scanStr (body ++ ['"']) = some (body, []))

/-- A well-formed numeric literal: `scanNum` consumes exactly it. -/
def numLitOk (lit : List Char) : Bool :=
  decide (scanNum lit = some (lit, []))

/-- A run of JSON whitespace. -/
def wsOk (ws : List Char) : Bool := ws.all isJsonWs

mutual

inductive Good : Bool → JVal → List Char → Prop where
  | nullG (rx) : Good rx .null (("null").toList)
  | trueG (rx) : Good rx (.bool true) (("true").toList)
  | falseG (rx) : Good rx (.bool false) (("false").toList)
  | numG (rx lit) : numLitOk lit = true → Good rx (.num lit) lit
  | nanG (rx) : Good rx (.num (("NaN").toList)) (("NaN").toList)
  | infG (rx) : Good rx (.num (("Infinity").toList)) (("Infinity").toList)
  | ninfG (rx) : Good rx (.num (("-Infinity").toList)) (("-Infinity").toList)
  | strG (rx body) : strBodyOk body = true → Good rx (.str body) ('"' :: body ++ ['"'])
  | arrEmpty (rx ws) : wsOk ws = true → Good rx (.arr []) ('[' :: ws ++ [']'])
  | arrOf (rx items ws0 inner) : wsOk ws0 = true → GoodItems rx items inner →
      Good rx (.arr items) ('[' :: ws0 ++ inner ++ [']'])
  | objEmpty (rx ws) : wsOk ws = true → Good rx (.obj []) ('{' :: ws ++ ['}'])
  | objOf (rx fields ws0 inner) : wsOk ws0 = true → GoodFields rx fields inner →
      Good rx (.obj fields) ('{' :: ws0 ++ inner ++ ['}'])

/-- The items of a non-empty array, from the first value character up to
(but excluding) the closing bracket. -/
inductive GoodItems : Bool → List JVal → List Char → Prop where
  | last (rx v s ws) : Good rx v s → wsOk ws = true → GoodItems rx [v] (s ++ ws)
  | lastComma (v s ws1 ws2) : Good true v s → wsOk ws1 = true → wsOk ws2 = true →
      GoodItems true [v] (s ++ ws1 ++ ',' :: ws2)
  | cons (rx v vs s ws1 ws2 rest) : Good rx v s → wsOk ws1 = true → wsOk ws2 = true →
      GoodItems rx vs rest → GoodItems rx (v :: vs) (s ++ ws1 ++ ',' :: ws2 ++ rest)

/-- The members of a non-empty object, from the opening quote of the
first key up to (but excluding) the closing brace. -/
inductive GoodFields : Bool → List (List Char × JVal) → List Char → Prop where
  | last (rx k v ws1 ws2 s ws3) : strBodyOk k = true → wsOk ws1 = true → wsOk ws2 = true →
      Good rx v s → wsOk ws3 = true →
      GoodFields rx [(k, v)] ('"' :: k ++ '"' :: ws1 ++ ':' :: ws2 ++ s ++ ws3)
  | lastComma (k v ws1 ws2 s ws3 ws4) : strBodyOk k = true → wsOk ws1 = true → wsOk ws2 = true →
      Good true v s → wsOk ws3 = true → wsOk ws4 = true →
      GoodFields true [(k, v)] ('"' :: k ++ '"' :: ws1 ++ ':' :: ws2 ++ s ++ ws3 ++ ',' :: ws4)
  | cons (rx k v fs ws1 ws2 s ws3 ws4 rest) : strBodyOk k = true → wsOk ws1 = true →
      wsOk ws2 = true → Good rx v s → wsOk ws3 = true → wsOk ws4 = true →
      GoodFields rx fs rest →
      GoodFields rx ((k, v) :: fs) ('"' :: k ++ '"' :: ws1 ++ ':' :: ws2 ++ s ++ ws3 ++ ',' :: ws4 ++ rest)

end

/-- A whole document: a rendering with surrounding whitespace. -/
def GoodDoc (rx : Bool) (v : JVal) (s : List Char) : Prop :=
  ∃ wsA core wsZ, wsOk wsA = true ∧ wsOk wsZ = true ∧ Good rx v core ∧ s = wsA ++ core ++ wsZ

/-! ## Conditions on string bodies -/

/-- Does the strip pattern `,\s*[]}]` occur inside this character run? -/
def hasCWPat : List Char → Bool
  | [] => false
  | c :: rest =>
    (c = ',' &&
      (match rest.dropWhile isPyWs with
       | ']' :: _ => true
       | '}' :: _ => true
       | _ => false)) || hasCWPat rest

mutual

/-- `p` holds of every string body and every object key in the value. -/
def bodyAll (p : List Char → Bool) : JVal → Bool
  | .str b => p b
  | .arr xs => bodyAllL p xs
  | .obj fs => bodyAllF p fs
  | _ => true

def bodyAllL (p : List Char → Bool) : List JVal → Bool
  | [] => true
  | x :: xs => bodyAll p x && bodyAllL p xs

def bodyAllF (p : List Char → Bool) : List (List Char × JVal) → Bool
  | [] => true
  | (k, v) :: fs => p k && bodyAll p v && bodyAllF p fs

end

/-- No string body or key contains the strip pattern (so the `re.sub`
preprocessing cannot reach inside a string literal). -/
def noCWBodies (v : JVal) : Bool := bodyAll (fun b => !hasCWPat b) v

/-- No string body or key contains a backslash (no escapes; bodies are
then also free of quote characters). -/
def noBSBodies (v : JVal) : Bool := bodyAll (fun b => b.all (· ≠ '\\')) v

/-! ## Renderer counting (`_format_room_data`, lines 531–549) -/

/-- Python `dict.get`: later duplicate keys win (`json.loads` builds the
dict in document order). -/
def jGetLast (fields : List (List Char × JVal)) (k : List Char) : Option JVal :=
  fields.foldl (fun acc pr => if pr.1 = k then some pr.2 else acc) none

/-- The Counter key for one placed instance:
`inst.get('objId', {}).get('name', 'UnknownObject')` (line 540).
`none` models a Python `AttributeError` (non-dict where a dict is
expected), which the renderer does not guard against. -/
def instCountName (inst : JVal) : Option JVal :=
  match inst with
  | .obj fs =>
    match jGetLast fs (("objId").toList) with
    | none => some (.str (("UnknownObject").toList))
    | some (.obj fs2) =>
      match jGetLast fs2 (("name").toList) with
      | none => some (.str (("UnknownObject").toList))
      | some v => some v
    | some _ => none
  | _ => none

/-! ## Spec-side resolution functions for the configuration fallback -/

/-- The claimed resolution order: the call-supplied path if present, else
the configured default, else the environment value, else a validation
error. -/
def specResolveClaimed (provided selfPath envPath : Option (List Char)) :
    Except (List Char) (List Char) :=
  match provided with
  | some p => if p ≠ [] then Except.ok p else specResolveClaimedTail selfPath envPath
  | none => specResolveClaimedTail selfPath envPath
where
  specResolveClaimedTail (selfPath envPath : Option (List Char)) :
      Except (List Char) (List Char) :=
    match selfPath with
    | some sp =>
      if sp ≠ [] then Except.ok sp
      else
        match envPath with
        | some e => if e ≠ [] then Except.ok e else Except.error noPathMsg
        | none => Except.error noPathMsg
    | none =>
      match envPath with
      | some e => if e ≠ [] then Except.ok e else Except.error noPathMsg
      | none => Except.error noPathMsg

/-- The resolution order as the code implements it: the call-supplied
path is used only when it is non-empty and its absolute form differs from
the working directory's. -/
def specResolveAmended (provided selfPath envPath : Option (List Char)) (cwd : List Char) :
    Except (List Char) (List Char) :=
  match provided with
  | some p =>
    if p ≠ [] ∧ pyAbspath cwd p ≠ pyAbspath cwd cwd then Except.ok p
    else specResolveClaimed.specResolveClaimedTail selfPath envPath
  | none => specResolveClaimed.specResolveClaimedTail selfPath envPath

/-- Is a write result the security error? -/
def WriteRes.isSec : WriteRes → Bool
  | .securityError _ => true
  | _ => false

/-- The lexicographic string order used to state sortedness. -/
def pyLe (a b : List Char) : Prop := pyStrLeB a b = true

/-! ## Value maps describing the duplicate rewrite -/

/-- Identifier characters of asset names. -/
def identChar (c : Char) : Bool :=
  ('a' ≤ c && c ≤ 'z') || ('A' ≤ c && c ≤ 'Z') || c.isDigit || c = '_'

/-- A plausible asset name: non-empty, identifier characters only. -/
def identOk (s : List Char) : Bool := s ≠ [] && s.all identChar

mutual

/-- Replace every string body and key equal to `a` by `b` (the effect of
`content.replace('"src"', '"new"')` on a rendered document). -/
def mapQ (a b : List Char) : JVal → JVal
  | .str body => .str (if body = a then b else body)
  | .arr xs => .arr (mapQL a b xs)
  | .obj fs => .obj (mapQF a b fs)
  | v => v

def mapQL (a b : List Char) : List JVal → List JVal
  | [] => []
  | x :: xs => mapQ a b x :: mapQL a b xs

def mapQF (a b : List Char) : List (List Char × JVal) → List (List Char × JVal)
  | [] => []
  | (k, v) :: fs => ((if k = a then b else k), mapQ a b v) :: mapQF a b fs

end

mutual

/-- Apply `pyReplace pat rep` inside every string body and key (the
effect of `content.replace('src/src.yy', 'new/new.yy')` on a rendered
document). -/
def mapBody (pat rep : List Char) : JVal → JVal
  | .str body => .str (pyReplace pat rep body)
  | .arr xs => .arr (mapBodyL pat rep xs)
  | .obj fs => .obj (mapBodyF pat rep fs)
  | v => v

def mapBodyL (pat rep : List Char) : List JVal → List JVal
  | [] => []
  | x :: xs => mapBody pat rep x :: mapBodyL pat rep xs

def mapBodyF (pat rep : List Char) : List (List Char × JVal) → List (List Char × JVal)
  | [] => []
  | (k, v) :: fs => (pyReplace pat rep k, mapBody pat rep v) :: mapBodyF pat rep fs

end

/-! ## One-hole contexts over canonical relaxed renderings

`ACtx T V` exhibits a document text context `T` and a value context `V`
such that `T []` is a rendering of `V []` and filling the hole with one
more trailing-comma item text `wsE ++ s ++ ","` gives a rendering of the
array extended by the corresponding value.  The hole sits immediately
before the whitespace-and-bracket close of one array whose existing items
are all comma-terminated — which is exactly where the mutation engine's
anchor splices land. -/

/-- A (possibly empty) comma-terminated item sequence, starting at a
value character and ending immediately after a comma. -/
inductive ItemsPre : List JVal → List Char → Prop where
  | nil : ItemsPre [] []
  | cons (v vs s ws1 rest) : Good true v s → wsOk ws1 = true → ItemsPre vs rest →
      ItemsPre (v :: vs) (s ++ ws1 ++ ',' :: rest)

/-- A (possibly empty) comma-terminated member sequence. -/
inductive FieldsPre : List (List Char × JVal) → List Char → Prop where
  | nil : FieldsPre [] []
  | cons (k v fs ws1 ws2 s ws3 rest) : strBodyOk k = true → wsOk ws1 = true →
      wsOk ws2 = true → Good true v s → wsOk ws3 = true → FieldsPre fs rest →
      FieldsPre ((k, v) :: fs) ('"' :: k ++ '"' :: ws1 ++ ':' :: ws2 ++ s ++ ws3 ++ ',' :: rest)

/-- What may follow one array element: the array close (with or without a
trailing comma), or a comma and further items. -/
inductive ItemsAfter : List JVal → List Char → Prop where
  | closeWs (ws) : wsOk ws = true → ItemsAfter [] ws
  | closeComma (ws1 ws2) : wsOk ws1 = true → wsOk ws2 = true →
      ItemsAfter [] (ws1 ++ ',' :: ws2)
  | more (ws1 ws2 vs rest) : wsOk ws1 = true → wsOk ws2 = true → GoodItems true vs rest →
      ItemsAfter vs (ws1 ++ ',' :: ws2 ++ rest)

/-- What may follow one object member. -/
inductive FieldsAfter : List (List Char × JVal) → List Char → Prop where
  | closeWs (ws) : wsOk ws = true → FieldsAfter [] ws
  | closeComma (ws1 ws2) : wsOk ws1 = true → wsOk ws2 = true →
      FieldsAfter [] (ws1 ++ ',' :: ws2)
  | more (ws1 ws2 fs rest) : wsOk ws1 = true → wsOk ws2 = true → GoodFields true fs rest →
      FieldsAfter fs (ws1 ++ ',' :: ws2 ++ rest)

/-- One-hole context whose hole extends a comma-terminated item list just
before its array's close. -/
inductive ACtx : (List Char → List Char) → (List JVal → JVal) → Prop where
  | base (ws0 vs u wsB) : wsOk ws0 = true → ItemsPre vs u → wsOk wsB = true →
      ACtx (fun ins => '[' :: ws0 ++ u ++ ins ++ wsB ++ [']']) (fun more => .arr (vs ++ more))
  | inArr (T V ws0 vsL uL vsR uR) : ACtx T V → wsOk ws0 = true → ItemsPre vsL uL →
      ItemsAfter vsR uR →
      ACtx (fun ins => '[' :: ws0 ++ uL ++ T ins ++ uR ++ [']'])
        (fun more => .arr (vsL ++ V more :: vsR))
  | inObj (T V ws0 fsL uL k ws1 ws2 fsR uR) : ACtx T V → wsOk ws0 = true → FieldsPre fsL uL →
      strBodyOk k = true → wsOk ws1 = true → wsOk ws2 = true → FieldsAfter fsR uR →
      ACtx (fun ins => '{' :: ws0 ++ uL ++ '"' :: k ++ '"' :: ws1 ++ ':' :: ws2 ++ T ins ++ uR ++ ['}'])
        (fun more => .obj (fsL ++ (k, V more) :: fsR))

/-! ## The structured values denoted by the generated fragments -/

/-- The value of one `$GMOverriddenProperty` record. -/
def propEntryVal (obj rel pn pv : List Char) : JVal :=
  .obj [((("$GMOverriddenProperty").toList), .str (("v1").toList)),
        ((("%Name").toList), .str []),
        ((("name").toList), .str []),
        ((("objectId").toList), .obj [((("name").toList), .str obj), ((("path").toList), .str rel)]),
        ((("propertyId").toList), .obj [((("name").toList), .str pn), ((("path").toList), .str rel)]),
        ((("resourceType").toList), .str (("GMOverriddenProperty").toList)),
        ((("resourceVersion").toList), .str (("2.0").toList)),
        ((("value").toList), .str pv)]

/-- The value of the `properties` block. -/
def propsVal (obj rel : List Char) (overrides : List (List Char × List Char)) : JVal :=
  .arr (overrides.map (fun pr => propEntryVal obj rel pr.1 pr.2))

/-- The value denoted by `instance_line`. -/
def instVal (instId obj rel : List Char) (overrides : List (List Char × List Char))
    (rot sx sy x y : List Char) : JVal :=
  .obj [((("$GMRInstance").toList), .str (("v4").toList)),
        ((("%Name").toList), .str instId),
        ((("colour").toList), .num (("4294967295").toList)),
        ((("frozen").toList), .bool false),
        ((("hasCreationCode").toList), .bool false),
        ((("ignore").toList), .bool false),
        ((("imageIndex").toList), .num (("0").toList)),
        ((("imageSpeed").toList), .num (("1.0").toList)),
        ((("inheritCode").toList), .bool false),
        ((("inheritedItemId").toList), .null),
        ((("inheritItemSettings").toList), .bool false),
        ((("isDnd").toList), .bool false),
        ((("name").toList), .str instId),
        ((("objectId").toList), .obj [((("name").toList), .str obj), ((("path").toList), .str rel)]),
        ((("properties").toList), propsVal obj rel overrides),
        ((("resourceType").toList), .str (("GMRInstance").toList)),
        ((("resourceVersion").toList), .str (("2.0").toList)),
        ((("rotation").toList), .num rot),
        ((("scaleX").toList), .num sx),
        ((("scaleY").toList), .num sy),
        ((("x").toList), .num x),
        ((("y").toList), .num y)]

/-- The value denoted by a manifest resource entry. -/
def yypEntryVal (assetName category : List Char) : JVal :=
  .obj [((("id").toList),
    .obj [((("name").toList), .str assetName),
          ((("path").toList), .str (category ++ '/' :: assetName ++ '/' :: assetName ++ ((".yy").toList)))])]

/-- JSON-string-safe characters: printable, no quote, no backslash. -/
def strSafe (s : List Char) : Bool :=
  s.all (fun c => decide (32 ≤ c.toNat) && c ≠ '"' && c ≠ '\\')

/-! ## Concrete documents for the counterexamples -/

/-- `{"a": ",]"}` — standard JSON whose string body contains the strip
pattern. -/
def c2CexDoc : List Char := '{' :: (("\"a\": \",]\"").toList) ++ ['}']

/-- `{"a": [1, 2,], "b": "x",}` — a relaxed document with trailing commas
in both an array and the top-level object. -/
def c2WitDoc : List Char := '{' :: (("\"a\": [1, 2,], \"b\": \"x\",").toList) ++ ['}']

/-- The structured value of `c2WitDoc`. -/
def c2WitVal : JVal :=
  .obj [((("a").toList), .arr [.num (("1").toList), .num (("2").toList)]),
        ((("b").toList), .str (("x").toList))]

/-- A minimal room metadata document in the host format: an `Instances`
layer with an empty instance array, a creation-order list, trailing
commas throughout. -/
def c1CexRoomDoc : List Char :=
  '{' :: (("\"$GMRoom\":\"v1\",\"%Name\":\"Room1\",\"instanceCreationOrder\":[\n  ],\"layers\":[\n    ").toList) ++
  '{' :: (("\"%Name\":\"Instances\",\"instances\":[\n      ],\"layers\":[],\"name\":\"Instances\",\"resourceType\":\"GMRInstanceLayer\",").toList) ++
  '}' :: ((",\n  ],\"name\":\"Room1\",\n").toList) ++ ['}']

/-- A concrete `add_room_instance` call on the minimal room: object
`obj_enemy` at (10, 20), no overrides, drawn id `inst_0BADF00D`. -/
def c10Run : AddRes × List FsAct :=
  add_room_instance (("/p").toList) (("Room1").toList) (("obj_enemy").toList)
    (("10").toList) (("20").toList) (("1").toList) (("1").toList) (("0").toList)
    (("Instances").toList) [] (("inst_0BADF00D").toList) true true c1CexRoomDoc

/-- The room-file content that call writes. -/
def c10Content : List Char :=
  match c10Run.2 with
  | [FsAct.write _ c] => c
  | _ => []

/-- The first instance record of the first layer of the written room, as
the tolerant reader (and hence `get_room_info` → `_format_room_data`)
sees it. -/
def c10InstRec : Option JVal :=
  match tolerantParse c10Content with
  | some (.obj fs) =>
    match jGetLast fs (("layers").toList) with
    | some (.arr (.obj lf :: _)) =>
      match jGetLast lf (("instances").toList) with
      | some (.arr (i0 :: _)) => some i0
      | _ => none
    | _ => none
  | _ => none

/-- Safety of one property override for re-parsing: name and value free of
quotes, backslashes and control characters, and free of the strip
pattern. -/
def ovSafe (pr : List Char × List Char) : Bool :=
  strSafe pr.1 && !hasCWPat pr.1 && strSafe pr.2 && !hasCWPat pr.2

/-- A minimal project manifest: an empty `resources` array with the
host format's trailing commas. -/
def c1YypDoc : List Char := ("\x7b\"$GMProject\":\"v1\",\"resources\":[\n  ],\"name\":\"proj\",\x7d").toList

/-- The manifest text `_register_resource_in_yyp` writes for asset `nm`. -/
def c1YypWritten (nm : List Char) : List Char :=
  (("\x7b\"$GMProject\":\"v1\",\"resources\":[\n").toList) ++
  (yypEntry nm (("objects").toList) ++ (("\n  ],\"name\":\"proj\",\x7d").toList))

/-- The structured value of that manifest. -/
def c1YypVal (nm : List Char) : JVal :=
  .obj [((("$GMProject").toList), .str (("v1").toList)),
        ((("resources").toList), .arr [yypEntryVal nm (("objects").toList)]),
        ((("name").toList), .str (("proj").toList))]

/-- A minimal object metadata document for source `obj_src`. -/
def c1ObjDoc : List Char := ("\x7b\"$GMObject\":\"v1\",\"%Name\":\"obj_src\",\"name\":\"obj_src\",\x7d").toList

/-- `c1ObjDoc` after `duplicate_object`'s identifier rewrite to `nm`. -/
def c1ObjRewritten (nm : List Char) : List Char :=
  (("\x7b\"$GMObject\":\"v1\",\"%Name\":").toList) ++
  (qTok nm ++ (((",\"name\":").toList) ++ (qTok nm ++ ((",\x7d").toList))))

/-- The structured value of the rewritten object metadata. -/
def c1ObjVal (nm : List Char) : JVal :=
  .obj [((("$GMObject").toList), .str (("v1").toList)),
        ((("%Name").toList), .str nm),
        ((("name").toList), .str nm)]

/-- The room text `add_room_instance` writes on `c1CexRoomDoc` for the
standard concrete call with override list `overrides`. -/
def c1RoomWritten (overrides : List (List Char × List Char)) : List Char :=
  (("\x7b\"$GMRoom\":\"v1\",\"%Name\":\"Room1\",\"instanceCreationOrder\":[\n    \x7b\"name\":\"inst_0BADF00D\",\"path\":\"rooms/Room1/Room1.yy\",\x7d,\n  ],\"layers\":[\n    \x7b\"%Name\":\"Instances\",\"instances\":[\n        ").toList)
  ++ (instanceLine (("inst_0BADF00D").toList) (("obj_enemy").toList) (objYyRel (("obj_enemy").toList))
        (propsJson (("obj_enemy").toList) (objYyRel (("obj_enemy").toList)) overrides)
        (("0").toList) (("1").toList) (("1").toList) (("10").toList) (("20").toList)
  ++ ((",\n      ],\"layers\":[],\"name\":\"Instances\",\"resourceType\":\"GMRInstanceLayer\",\x7d,\n  ],\"name\":\"Room1\",\n\x7d").toList))

/-- The structured value of that room document. -/
def c1RoomVal (overrides : List (List Char × List Char)) : JVal :=
  .obj [((("$GMRoom").toList), .str (("v1").toList)),
        ((("%Name").toList), .str (("Room1").toList)),
        ((("instanceCreationOrder").toList), .arr
          [.obj [((("name").toList), .str (("inst_0BADF00D").toList)),
                 ((("path").toList), .str (("rooms/Room1/Room1.yy").toList))]]),
        ((("layers").toList), .arr
          [.obj [((("%Name").toList), .str (("Instances").toList)),
                 ((("instances").toList), .arr
                   [instVal (("inst_0BADF00D").toList) (("obj_enemy").toList)
                     (objYyRel (("obj_enemy").toList)) overrides
                     (("0").toList) (("1").toList) (("1").toList) (("10").toList) (("20").toList)]),
                 ((("layers").toList), .arr []),
                 ((("name").toList), .str (("Instances").toList)),
                 ((("resourceType").toList), .str (("GMRInstanceLayer").toList))]]),
        ((("name").toList), .str (("Room1").toList))]

/-- The override list of the C1 counterexample: a raw quote in the value. -/
def c1CexOv : List (List Char × List Char) := [((("p").toList), ("x\"").toList)]

/-- `interc tok parts`: the parts joined by the token (the shape of a
document whose token occurrences are exactly the joints). -/
def interc (tok : List Char) : List (List Char) → List Char
  | [] => []
  | [p] => p
  | p :: rest => p ++ tok ++ interc tok rest

/-- No occurrence of `pat` starts inside a part (including windows that
look across its right boundary into the assembled remainder). -/
def safeParts (pat : List Char) : List (List Char) → Bool
  | [] => true
  | [p] => (List.range p.length).all (fun i => !pyStartsWith pat (List.drop i p))
  | p :: rest =>
    (List.range p.length).all
        (fun i => !pyStartsWith pat (List.drop i (p ++ pat ++ interc pat rest))) &&
      safeParts pat rest

/-- The characters that may follow a complete value: end of input,
whitespace or a structural delimiter (none of them can extend a number or
constant token). -/
def isDelim : Option Char → Bool
  | none => true
  | some c => isJsonWs c || c = ',' || c = ']' || c = '}' || c = ':'

mutual

/-- Node count of a value, bounding the parser fuel it needs. -/
def jsize : JVal → Nat
  | .arr xs => 1 + jsizeL xs
  | .obj fs => 1 + jsizeF fs
  | _ => 1

def jsizeL : List JVal → Nat
  | [] => 0
  | x :: xs => jsize x + 1 + jsizeL xs

def jsizeF : List (List Char × JVal) → Nat
  | [] => 0
  | (_, v) :: fs => jsize v + 1 + jsizeF fs

end

/-- The characters that can appear in a numeric literal. -/
def numChar (c : Char) : Bool :=
  c.isDigit || c = '-' || c = '.' || c = 'e' || c = 'E' || c = '+'

/-- No suffix of the text consists of a comma followed only by whitespace
(so no strip-pattern window that starts in this text can look past its
right end). -/
def noDangling : List Char → Bool
  | [] => true
  | c :: rest => (!(c = ',' && rest.all isPyWs)) && noDangling rest

/-- A concrete directory-listing oracle: one asset folder whose listing
returns its code files out of lexicographic order. -/
def c7Oracle : List Char → Except (List Char) (List (List Char)) :=
  fun p => if p = (("/p/objects").toList) then Except.ok [(("obj_a").toList)]
    else Except.ok [(("b.gml").toList), (("a.gml").toList)]

/-- A concrete directory-listing oracle: the `rooms` category directory
fails to read. -/
def c8Oracle : List Char → Except (List Char) (List (List Char)) :=
  fun p => if p = (("/p/rooms").toList)
    then Except.error (("Permission denied").toList) else Except.ok []

/-! # Theorems -/

/-! ### Fuel adequacy for the fuelled recursions -/

theorem dropWhile_length_le (p : Char → Bool) (l : List Char) :
    (l.dropWhile p).length ≤ l.length := by
  induction l with
  | nil => simp
  | cons x xs ih =>
    rw [List.dropWhile_cons]
    split
    · exact Nat.le_succ_of_le ih
    · simp

theorem scanEsc_len {u : List Char} {pr : List Char × List Char} (h : scanEsc u = some pr) :
    pr.2.length ≤ u.length := by
  cases u with
  | nil => simp [scanEsc] at h
  | cons e r2 =>
    simp only [scanEsc] at h
    split_ifs at h with hA hB hC
    · injection h with h
      subst h
      simp
    · injection h with h
      subst h
      simp only [List.length_drop, List.length_cons]
      omega

theorem pyReplaceF_succ_cons (pat rep : List Char) (f : Nat) (c : Char) (rest : List Char) :
    pyReplaceF pat rep (f + 1) (c :: rest) =
      (if pyStartsWith pat (c :: rest) = true ∧ pat ≠ [] then
        rep ++ pyReplaceF pat rep f (List.drop (pat.length - 1) rest)
      else c :: pyReplaceF pat rep f rest) := rfl

theorem pyReplaceF_eq (pat rep : List Char) : ∀ f1 f2 s, s.length ≤ f1 → s.length ≤ f2 →
    pyReplaceF pat rep f1 s = pyReplaceF pat rep f2 s := by
  intro f1
  induction f1 with
  | zero =>
    intro f2 s h1 _
    have hnil : s = [] := List.eq_nil_of_length_eq_zero (Nat.le_zero.mp h1)
    subst hnil
    cases f2 <;> rfl
  | succ f ih =>
    intro f2 s h1 h2
    cases s with
    | nil => cases f2 <;> rfl
    | cons c rest =>
      cases f2 with
      | zero => simp at h2
      | succ f2 =>
        simp only [List.length_cons] at h1 h2
        rw [pyReplaceF_succ_cons, pyReplaceF_succ_cons]
        split_ifs
        · rw [ih f2 _ (by simp only [List.length_drop]; omega)
            (by simp only [List.length_drop]; omega)]
        · rw [ih f2 rest (by omega) (by omega)]

theorem pyReplace_nil (pat rep : List Char) : pyReplace pat rep [] = [] := rfl

theorem pyReplace_cons (pat rep : List Char) (c : Char) (rest : List Char) :
    pyReplace pat rep (c :: rest) =
      (if pyStartsWith pat (c :: rest) = true ∧ pat ≠ [] then
        rep ++ pyReplace pat rep (List.drop (pat.length - 1) rest)
      else c :: pyReplace pat rep rest) := by
  show pyReplaceF pat rep (rest.length + 1) (c :: rest) = _
  rw [pyReplaceF_succ_cons]
  split_ifs
  · rw [pyReplaceF_eq pat rep rest.length (List.drop (pat.length - 1) rest).length _
      (by simp only [List.length_drop]; omega) le_rfl]
    rfl
  · rfl

theorem stripCommasF_succ_cons (f : Nat) (c : Char) (rest : List Char) :
    stripCommasF (f + 1) (c :: rest) =
      (if c = ',' then
        if (rest.dropWhile isPyWs).head? = some ']' then
          ']' :: stripCommasF f (rest.dropWhile isPyWs).tail
        else if (rest.dropWhile isPyWs).head? = some '}' then
          '}' :: stripCommasF f (rest.dropWhile isPyWs).tail
        else ',' :: stripCommasF f rest
      else c :: stripCommasF f rest) := rfl

theorem stripCommasF_eq : ∀ f1 f2 s, s.length ≤ f1 → s.length ≤ f2 →
    stripCommasF f1 s = stripCommasF f2 s := by
  intro f1
  induction f1 with
  | zero =>
    intro f2 s h1 _
    have hnil : s = [] := List.eq_nil_of_length_eq_zero (Nat.le_zero.mp h1)
    subst hnil
    cases f2 <;> rfl
  | succ f ih =>
    intro f2 s h1 h2
    cases s with
    | nil => cases f2 <;> rfl
    | cons c rest =>
      cases f2 with
      | zero => simp at h2
      | succ f2 =>
        simp only [List.length_cons] at h1 h2
        rw [stripCommasF_succ_cons, stripCommasF_succ_cons]
        have htail : ((rest.dropWhile isPyWs).tail).length ≤ rest.length := by
          have := dropWhile_length_le isPyWs rest
          rw [List.length_tail]
          omega
        split_ifs
        · rw [ih f2 _ (by omega) (by omega)]
        · rw [ih f2 _ (by omega) (by omega)]
        · rw [ih f2 rest (by omega) (by omega)]
        · rw [ih f2 rest (by omega) (by omega)]

theorem scanStrF_succ_cons (f : Nat) (c : Char) (rest : List Char) :
    scanStrF (f + 1) (c :: rest) =
      (if c = '"' then some ([], rest)
      else if c = '\\' then
        match scanEsc rest with
        | none => none
        | some pr =>
          (scanStrF f pr.2).map (fun qr => (c :: pr.1 ++ qr.1, qr.2))
      else if c.toNat < 32 then none
      else (scanStrF f rest).map (fun pr => (c :: pr.1, pr.2))) := rfl

theorem scanStrF_eq : ∀ f1 f2 s, s.length ≤ f1 → s.length ≤ f2 →
    scanStrF f1 s = scanStrF f2 s := by
  intro f1
  induction f1 with
  | zero =>
    intro f2 s h1 _
    have hnil : s = [] := List.eq_nil_of_length_eq_zero (Nat.le_zero.mp h1)
    subst hnil
    cases f2 <;> rfl
  | succ f ih =>
    intro f2 s h1 h2
    cases s with
    | nil => cases f2 <;> rfl
    | cons c rest =>
      cases f2 with
      | zero => simp at h2
      | succ f2 =>
        simp only [List.length_cons] at h1 h2
        rw [scanStrF_succ_cons, scanStrF_succ_cons]
        split_ifs
        · rfl
        · rcases he : scanEsc rest with _ | pr
          · simp only [he]
          · have := scanEsc_len he
            simp only [he]
            rw [ih f2 pr.2 (by omega) (by omega)]
        · rfl
        · rw [ih f2 rest (by omega) (by omega)]

/-! ## C4 — `add_room_instance` with an absent layer anchor -/

/-- C4: when the layer anchor `(\n\s*)\],"layers":\[\],"name":"L"` does not
match anywhere in the room document (and the room and object metadata
files exist), `add_room_instance` returns the `Layer not found` error and
performs no file-system action — the room file keeps its previous bytes. -/
theorem add_room_instance_layer_not_found
    (projectPath roomName objectName x y sx sy rot layerName : List Char)
    (overrides : List (List Char × List Char)) (instId roomContent : List Char)
    (hanchor : splitAtLayerAnchor (layerAnchorLit layerName) roomContent = none) :
    add_room_instance projectPath roomName objectName x y sx sy rot layerName overrides instId
      true true roomContent = (.errLayerNotFound layerName roomName, []) := by
  unfold add_room_instance
  simp [hanchor]

set_option maxRecDepth 4000 in
theorem add_room_instance_layer_not_found_witness :
    splitAtLayerAnchor (layerAnchorLit (("Nope").toList)) c1CexRoomDoc = none ∧
    add_room_instance (("/p").toList) (("Room1").toList) (("obj_player").toList)
      (("100.0").toList) (("200.0").toList) (("1.0").toList) (("1.0").toList) (("0.0").toList)
      (("Nope").toList) [] (("inst_AB12CD34").toList) true true c1CexRoomDoc
      = (.errLayerNotFound (("Nope").toList) (("Room1").toList), []) :=
  ⟨by decide,
   add_room_instance_layer_not_found (("/p").toList) (("Room1").toList) (("obj_player").toList)
     (("100.0").toList) (("200.0").toList) (("1.0").toList) (("1.0").toList) (("0.0").toList)
     (("Nope").toList) [] (("inst_AB12CD34").toList) c1CexRoomDoc (by decide)⟩

/-! ## C5 — the traversal guard of `write_gml_file` -/

/-- C5: `write_gml_file` returns the security error exactly when the
resolved absolute path is neither equal to the project root nor contained
within it (`startswith(root + '/')` after `abspath` resolution, which
covers every `../` escape), and in that case it performs no file-system
action at all. -/
theorem write_gml_file_security_guard (cwd projectPath filePath content : List Char)
    (ioFail : Bool) :
    ((write_gml_file cwd projectPath filePath content ioFail).1.isSec = true ↔
      ¬ (pyAbspath cwd (if isAbsPath filePath then filePath else pyJoin projectPath filePath)
            = pyAbspath cwd projectPath ∨
         pyStartsWith (pyAbspath cwd projectPath ++ ['/'])
            (pyAbspath cwd (if isAbsPath filePath then filePath else pyJoin projectPath filePath))
            = true)) ∧
    ((write_gml_file cwd projectPath filePath content ioFail).1.isSec = true →
      (write_gml_file cwd projectPath filePath content ioFail).2 = []) := by
  unfold write_gml_file
  by_cases hc :
      ¬ pyStartsWith (pyAbspath cwd projectPath ++ ['/'])
          (pyAbspath cwd (if isAbsPath filePath then filePath else pyJoin projectPath filePath))
          = true ∧
      pyAbspath cwd (if isAbsPath filePath then filePath else pyJoin projectPath filePath)
          ≠ pyAbspath cwd projectPath
  · rw [if_pos hc]
    refine ⟨⟨fun _ => ?_, fun _ => rfl⟩, fun _ => rfl⟩
    rintro (heq | hpre)
    · exact hc.2 heq
    · exact hc.1 hpre
  · rw [if_neg hc]
    have hsecF :
        (if ¬ pyEndsWith ((".gml").toList)
              (if isAbsPath filePath then filePath else pyJoin projectPath filePath) = true then
            (WriteRes.validationError
              (if isAbsPath filePath then filePath else pyJoin projectPath filePath), ([] : List FsAct))
          else if ioFail then (WriteRes.ioError, [])
          else
            (WriteRes.ok
              (normalizeSep (pyRelpath cwd
                (if isAbsPath filePath then filePath else pyJoin projectPath filePath) projectPath))
              (slCount content) content.length,
              [FsAct.mkdir (pyDirname
                 (if isAbsPath filePath then filePath else pyJoin projectPath filePath)),
               FsAct.write (if isAbsPath filePath then filePath else pyJoin projectPath filePath)
                 content])).1.isSec = false := by
      repeat' split
      all_goals rfl
    refine ⟨⟨fun hsec => ?_, fun hcon => ?_⟩, fun hsec => ?_⟩
    · rw [hsecF] at hsec
      exact absurd hsec (by simp)
    · exfalso
      rw [not_and_or, not_not, not_ne_iff] at hc
      rcases hc with hpre | heq
      · exact hcon (Or.inr hpre)
      · exact hcon (Or.inl heq)
    · rw [hsecF] at hsec
      exact absurd hsec (by simp)

/-! ## C6 — `duplicate_object` on an existing destination -/

/-- C6: when the destination folder already exists (and the source
exists), `duplicate_object` returns the conflict error before creating
anything: no folder, no metadata file, no code file, no manifest write. -/
theorem duplicate_object_conflict (projectPath source newName : List Char)
    (overrides : List (List Char × List Char)) (sourceIsDir newExists sourceYyIsFile : Bool)
    (sourceYyContent : List Char) (sourceListing : List (List Char))
    (gmlContentAt : List Char → List Char) (projListing : List (List Char))
    (yypContent : List Char) (hsrc : sourceIsDir = true) (hexists : newExists = true) :
    duplicate_object projectPath source newName overrides sourceIsDir newExists sourceYyIsFile
      sourceYyContent sourceListing gmlContentAt projListing yypContent
      = (.errExists newName, []) := by
  subst hsrc hexists
  unfold duplicate_object
  simp

theorem duplicate_object_conflict_witness :
    duplicate_object (("/p").toList) (("obj_a").toList) (("obj_b").toList) [] true true true
      [] [] (fun _ => []) [] []
      = (.errExists (("obj_b").toList), []) :=
  duplicate_object_conflict (("/p").toList) (("obj_a").toList) (("obj_b").toList) [] true true
    true [] [] (fun _ => []) [] [] rfl rfl

/-! ## C9 — the project-path resolution order -/

/-- C9 counterexample: a call-supplied path equal to the working
directory is skipped — the code returns the configured default, where the
claimed strict priority order would return the supplied path. -/
theorem get_project_path_cex :
    get_project_path (some (("/srv").toList)) (some (("/proj").toList)) none (("/srv").toList)
      = Except.ok (("/proj").toList) ∧
    specResolveClaimed (some (("/srv").toList)) (some (("/proj").toList)) none
      = Except.ok (("/srv").toList) ∧
    (("/proj").toList) ≠ (("/srv").toList) := by
  refine ⟨by rfl, by rfl, by decide⟩

/-- C9 amended: the resolution order is call-supplied path (only when
non-empty and its absolute form differs from the working directory's),
else the configured default, else the environment-file value, else the
`ValueError` that the tool handlers surface as a validation error. -/
theorem get_project_path_amended (provided selfPath envPath : Option (List Char))
    (cwd : List Char) :
    get_project_path provided selfPath envPath cwd
      = specResolveAmended provided selfPath envPath cwd := by
  unfold get_project_path specResolveAmended specResolveClaimed.specResolveClaimedTail
  rcases provided with _ | p <;> rcases selfPath with _ | sp <;> rcases envPath with _ | e <;> rfl

/-! ## `str.replace` splice lemmas -/

theorem pyStartsWith_append_self (pat t : List Char) : pyStartsWith pat (pat ++ t) = true := by
  induction pat with
  | nil => rfl
  | cons c cs ih => simp [pyStartsWith, ih]

theorem pyReplace_skip (pat rep : List Char) :
    ∀ s t : List Char, (∀ i, i < s.length → pyStartsWith pat (List.drop i (s ++ t)) = false) →
      pyReplace pat rep (s ++ t) = s ++ pyReplace pat rep t := by
  intro s
  induction s with
  | nil => intro t _; rfl
  | cons c cs ih =>
    intro t hcond
    have h0 := hcond 0 (by simp)
    simp only [List.drop_zero, List.cons_append] at h0
    rw [List.cons_append, pyReplace_cons, if_neg]
    · rw [List.cons_append]
      congr 1
      exact ih t (fun i hi => by
        have := hcond (i + 1) (by simp only [List.length_cons]; omega)
        rwa [List.cons_append, List.drop_succ_cons] at this)
    · intro hcontra
      rw [hcontra.1] at h0
      exact Bool.true_eq_false.mp h0

theorem pyReplace_hit (pat rep t : List Char) (hne : pat ≠ []) :
    pyReplace pat rep (pat ++ t) = rep ++ pyReplace pat rep t := by
  rcases pat with _ | ⟨p0, ps⟩
  · exact absurd rfl hne
  · rw [List.cons_append, pyReplace_cons, if_pos]
    · congr 1
      have hlen : (p0 :: ps).length - 1 = ps.length := by simp
      rw [hlen]
      congr 1
      exact List.drop_left ps t
    · exact ⟨pyStartsWith_append_self (p0 :: ps) t, by simp⟩

theorem pyReplace_id (pat rep s : List Char)
    (h : ∀ i, i < s.length → pyStartsWith pat (List.drop i s) = false) :
    pyReplace pat rep s = s := by
  have key := pyReplace_skip pat rep s []
    (fun i hi => by rw [List.append_nil]; exact h i hi)
  rw [List.append_nil] at key
  rw [key, pyReplace_nil, List.append_nil]

theorem range_all_eq_true (f : Nat → Bool) (n : Nat) :
    (List.range n).all f = true ↔ ∀ i, i < n → f i = true := by
  simp [List.all_eq_true, List.mem_range]

theorem interc_replace (pat rep : List Char) (hne : pat ≠ []) :
    ∀ parts, safeParts pat parts = true →
      pyReplace pat rep (interc pat parts) = interc rep parts := by
  intro parts
  induction parts with
  | nil => intro _; simp [interc, pyReplace_nil]
  | cons p rest ih =>
    intro hsafe
    rcases rest with _ | ⟨q, rest2⟩
    · simp only [safeParts] at hsafe
      have hcond : ∀ i, i < p.length → pyStartsWith pat (List.drop i p) = false := by
        intro i hi
        have := (range_all_eq_true _ _).mp hsafe i hi
        simpa using this
      exact pyReplace_id pat rep p hcond
    · simp only [safeParts, Bool.and_eq_true] at hsafe
      obtain ⟨h1, h2⟩ := hsafe
      have hconv : interc pat (p :: q :: rest2) = p ++ (pat ++ interc pat (q :: rest2)) := by
        rw [show interc pat (p :: q :: rest2) = p ++ pat ++ interc pat (q :: rest2) from rfl,
          List.append_assoc]
      rw [hconv]
      rw [pyReplace_skip pat rep p (pat ++ interc pat (q :: rest2)) (fun i hi => by
        have := (range_all_eq_true _ _).mp h1 i hi
        rw [List.append_assoc] at this
        simpa using this)]
      rw [pyReplace_hit pat rep _ hne, ih h2]
      rw [show interc rep (p :: q :: rest2) = p ++ rep ++ interc rep (q :: rest2) from rfl,
        List.append_assoc]

/-! ## C3 — the identifier rewrite of `duplicate_object` -/

/-- C3: on a metadata text whose `"A"` occurrences are exactly the joints
of `parts` and whose `A/A.yy` occurrences are exactly the joints of
`parts2` (the two `safeParts` hypotheses say no occurrence starts inside a
part), the rewrite replaces exactly those occurrences — every part, in
particular any literal such as `"A_helper"` that merely contains `A`, is
left byte-identical; and a text with no occurrence of either pattern is
returned unchanged. -/
theorem duplicate_rewrite_exact (A B : List Char) (parts parts2 : List (List Char))
    (hsafe1 : safeParts (qTok A) parts = true)
    (hmid : interc (qTok B) parts = interc (fragTok A) parts2)
    (hsafe2 : safeParts (fragTok A) parts2 = true) :
    dupRewriteNames A B (interc (qTok A) parts) = interc (fragTok B) parts2 ∧
    (∀ content, (∀ i, i < content.length → pyStartsWith (qTok A) (List.drop i content) = false) →
      (∀ i, i < content.length → pyStartsWith (fragTok A) (List.drop i content) = false) →
      dupRewriteNames A B content = content) := by
  constructor
  · unfold dupRewriteNames
    rw [interc_replace (qTok A) (qTok B) (by simp [qTok]) parts hsafe1, hmid,
      interc_replace (fragTok A) (fragTok B) ?_ parts2 hsafe2]
    rcases A with _ | ⟨a0, as⟩ <;> simp [fragTok]
  · intro content h1 h2
    unfold dupRewriteNames
    rw [pyReplace_id (qTok A) (qTok B) content h1]
    exact pyReplace_id (fragTok A) (fragTok B) content h2

set_option maxRecDepth 4000 in
theorem duplicate_rewrite_exact_witness :
    dupRewriteNames (("Player").toList) (("Enemy").toList)
      (interc (qTok (("Player").toList))
        [(("\"name\":").toList),
         ((",\"parent\":\"Player_helper\",\"path\":\"objects/").toList) ++
           fragTok (("Player").toList) ++ (("\"").toList)])
      = interc (fragTok (("Enemy").toList))
        [(("\"name\":").toList) ++ qTok (("Enemy").toList) ++
           ((",\"parent\":\"Player_helper\",\"path\":\"objects/").toList),
         (("\"").toList)] :=
  (duplicate_rewrite_exact (("Player").toList) (("Enemy").toList)
    [(("\"name\":").toList),
     ((",\"parent\":\"Player_helper\",\"path\":\"objects/").toList) ++
       fragTok (("Player").toList) ++ (("\"").toList)]
    [(("\"name\":").toList) ++ qTok (("Enemy").toList) ++
       ((",\"parent\":\"Player_helper\",\"path\":\"objects/").toList),
     (("\"").toList)]
    (by decide) (by decide) (by decide)).1

/-! ## Order lemmas for Python `sorted` -/

theorem pyStrLtB_irrefl : ∀ a : List Char, pyStrLtB a a = false := by
  intro a
  induction a with
  | nil => rfl
  | cons c cs ih => simp [pyStrLtB, ih]

theorem pyStrLtB_asym : ∀ a b : List Char, pyStrLtB a b = true → pyStrLtB b a = false := by
  intro a
  induction a with
  | nil =>
    intro b _
    cases b <;> rfl
  | cons c cs ih =>
    intro b hab
    cases b with
    | nil => simp [pyStrLtB] at hab
    | cons d ds =>
      simp only [pyStrLtB] at hab ⊢
      by_cases hcd : c = d
      · subst hcd
        simp only [if_pos rfl] at hab ⊢
        exact ih ds hab
      · rw [if_neg hcd] at hab
        rw [if_neg (fun hdc => hcd hdc.symm)]
        have hlt : c < d := of_decide_eq_true hab
        simp [not_lt_of_gt hlt]

theorem pyStrLtB_trans : ∀ a b c : List Char,
    pyStrLtB a b = true → pyStrLtB b c = true → pyStrLtB a c = true := by
  intro a
  induction a with
  | nil =>
    intro b c hab hbc
    cases b with
    | nil => simp [pyStrLtB] at hab
    | cons d ds =>
      cases c with
      | nil => simp [pyStrLtB] at hbc
      | cons e es => rfl
  | cons x xs ih =>
    intro b c hab hbc
    cases b with
    | nil => simp [pyStrLtB] at hab
    | cons d ds =>
      cases c with
      | nil => simp [pyStrLtB] at hbc
      | cons e es =>
        simp only [pyStrLtB] at hab hbc ⊢
        by_cases hxd : x = d
        · subst hxd
          rw [if_pos rfl] at hab
          by_cases hde : x = e
          · subst hde
            rw [if_pos rfl] at hbc ⊢
            exact ih ds es hab hbc
          · rw [if_neg hde] at hbc ⊢
            exact hbc
        · rw [if_neg hxd] at hab
          have h1 : x < d := of_decide_eq_true hab
          by_cases hde : d = e
          · subst hde
            rw [if_neg hxd]
            exact decide_eq_true h1
          · rw [if_neg hde] at hbc
            have h2 : d < e := of_decide_eq_true hbc
            have h3 : x < e := lt_trans h1 h2
            rw [if_neg (fun hxe : x = e => absurd (hxe ▸ h3) (lt_irrefl e))]
            exact decide_eq_true h3

theorem pyStrLtB_connex : ∀ a b : List Char, a ≠ b →
    pyStrLtB a b = true ∨ pyStrLtB b a = true := by
  intro a
  induction a with
  | nil =>
    intro b hne
    cases b with
    | nil => exact absurd rfl hne
    | cons d ds => left; rfl
  | cons c cs ih =>
    intro b hne
    cases b with
    | nil => right; rfl
    | cons d ds =>
      by_cases hcd : c = d
      · subst hcd
        have hne2 : cs ≠ ds := fun h => hne (by rw [h])
        rcases ih ds hne2 with h | h
        · left; simp [pyStrLtB, h]
        · right; simp [pyStrLtB, h]
      · rcases lt_or_gt_of_ne hcd with hlt | hgt
        · left
          simp only [pyStrLtB, if_neg hcd]
          exact decide_eq_true hlt
        · right
          simp only [pyStrLtB, if_neg (fun h : d = c => hcd h.symm)]
          exact decide_eq_true hgt

theorem pyLe_total : ∀ a b : List Char, pyLe a b ∨ pyLe b a := by
  intro a b
  unfold pyLe pyStrLeB
  by_cases h : pyStrLtB b a = true
  · right
    rw [pyStrLtB_asym b a h]
    rfl
  · left
    rw [Bool.not_eq_true] at h
    rw [h]
    rfl

theorem pyLe_trans : ∀ a b c : List Char, pyLe a b → pyLe b c → pyLe a c := by
  intro a b c hab hbc
  unfold pyLe pyStrLeB at hab hbc ⊢
  rw [Bool.not_eq_eq_eq_not, Bool.not_true] at hab hbc ⊢
  by_cases hca : pyStrLtB c a = true
  · exfalso
    by_cases hcb : c = b
    · subst hcb
      rw [hca] at hab
      exact Bool.true_eq_false.mp hab
    · rcases pyStrLtB_connex c b hcb with h1 | h1
      · rw [h1] at hbc
        exact Bool.true_eq_false.mp hbc
      · have := pyStrLtB_trans b c a h1 hca
        rw [this] at hab
        exact Bool.true_eq_false.mp hab
  · rwa [Bool.not_eq_true] at hca

theorem pyInsert_sorted (x : List Char) : ∀ l : List (List Char),
    List.Sorted pyLe l → List.Sorted pyLe (pyInsert x l) := by
  intro l
  induction l with
  | nil =>
    intro _
    simp [pyInsert, List.Sorted]
  | cons y ys ih =>
    intro hs
    rw [List.sorted_cons] at hs
    unfold pyInsert
    by_cases hxy : pyStrLeB x y = true
    · rw [if_pos hxy]
      rw [List.sorted_cons]
      refine ⟨?_, by rw [List.sorted_cons]; exact hs⟩
      intro b hb
      rcases List.mem_cons.mp hb with hby | hbys
      · subst hby; exact hxy
      · exact pyLe_trans x y b hxy (hs.1 b hbys)
    · rw [if_neg hxy]
      rw [List.sorted_cons]
      constructor
      · intro b hb
        have hmem : b = x ∨ b ∈ ys := by
          have : ∀ zs : List (List Char), b ∈ pyInsert x zs → b = x ∨ b ∈ zs := by
            intro zs
            induction zs with
            | nil => intro h; simp [pyInsert] at h; exact Or.inl h
            | cons z zs2 ih2 =>
              intro h
              unfold pyInsert at h
              by_cases hxz : pyStrLeB x z = true
              · rw [if_pos hxz] at h
                rcases List.mem_cons.mp h with h1 | h1
                · exact Or.inl h1
                · exact Or.inr h1
              · rw [if_neg hxz] at h
                rcases List.mem_cons.mp h with h1 | h1
                · exact Or.inr (List.mem_cons.mpr (Or.inl h1))
                · rcases ih2 h1 with h2 | h2
                  · exact Or.inl h2
                  · exact Or.inr (List.mem_cons.mpr (Or.inr h2))
          exact this ys hb
        rcases hmem with hbx | hbys
        · subst hbx
          rcases pyLe_total y b with h | h
          · exact h
          · exact absurd h hxy
        · exact hs.1 b hbys
      · exact ih hs.2

theorem pySorted_sorted : ∀ l : List (List Char), List.Sorted pyLe (pySorted l) := by
  intro l
  induction l with
  | nil => simp [pySorted, List.Sorted]
  | cons x xs ih => exact pyInsert_sorted x (pySorted xs) ih

/-! ## C7 — enumeration order of `_scan_category` -/

theorem scanAssets_names_sublist (categoryPath categoryName : List Char)
    (isDirAt isFileAt : List Char → Bool)
    (listDirAt : List Char → Except (List Char) (List (List Char))) :
    ∀ names : List (List Char),
      ((scanAssets categoryPath categoryName isDirAt isFileAt listDirAt names).1.map
        AssetInfo.name).Sublist names := by
  intro names
  induction names with
  | nil => simp [scanAssets]
  | cons name rest ih =>
    unfold scanAssets
    by_cases hdir : isDirAt (pyJoin categoryPath name) = true
    · rw [if_pos hdir]
      rcases hls : listDirAt (pyJoin categoryPath name) with e | files
      · simp
      · simp only [List.map_cons]
        exact List.Sublist.cons₂ name ih
    · rw [if_neg hdir]
      exact List.Sublist.cons name ih

theorem scanAssets_gml_shape (categoryPath categoryName : List Char)
    (isDirAt isFileAt : List Char → Bool)
    (listDirAt : List Char → Except (List Char) (List (List Char))) :
    ∀ names : List (List Char),
      ∀ a ∈ (scanAssets categoryPath categoryName isDirAt isFileAt listDirAt names).1,
        ∃ files, listDirAt a.path = Except.ok files ∧
          a.gml_files = (files.filter (fun f => pyEndsWith ((".gml").toList) f)).map
            (fun f => { name := f, path := pyJoin a.path f }) := by
  intro names
  induction names with
  | nil => intro a ha; simp [scanAssets] at ha
  | cons name rest ih =>
    intro a ha
    unfold scanAssets at ha
    by_cases hdir : isDirAt (pyJoin categoryPath name) = true
    · rw [if_pos hdir] at ha
      rcases hls : listDirAt (pyJoin categoryPath name) with e | files
      · rw [hls] at ha
        simp at ha
      · rw [hls] at ha
        rcases List.mem_cons.mp ha with hhead | htail
        · subst hhead
          exact ⟨files, hls, rfl⟩
        · exact ih a htail
    · rw [if_neg hdir] at ha
      exact ih a ha

/-- C7 amended: the asset entries appear in lexicographic (code-point)
order of their folder names; the code files inside each asset are the
`.gml`-suffixed entries of that folder's directory listing in the order
the listing returned them (the source does not sort this inner loop). -/
theorem scan_category_order (categoryPath categoryName : List Char)
    (isDirAt isFileAt : List Char → Bool)
    (listDirAt : List Char → Except (List Char) (List (List Char)))
    (names : List (List Char))
    (hok : listDirAt categoryPath = Except.ok names) :
    List.Sorted pyLe
      ((scan_category categoryPath categoryName isDirAt isFileAt listDirAt).assets.map
        AssetInfo.name) ∧
    ∀ a ∈ (scan_category categoryPath categoryName isDirAt isFileAt listDirAt).assets,
      ∃ files, listDirAt a.path = Except.ok files ∧
        a.gml_files = (files.filter (fun f => pyEndsWith ((".gml").toList) f)).map
          (fun f => { name := f, path := pyJoin a.path f }) := by
  unfold scan_category
  rw [hok]
  constructor
  · exact (pySorted_sorted names).sublist
      (scanAssets_names_sublist categoryPath categoryName isDirAt isFileAt listDirAt
        (pySorted names))
  · exact scanAssets_gml_shape categoryPath categoryName isDirAt isFileAt listDirAt
      (pySorted names)

set_option maxRecDepth 2000 in
theorem scan_category_order_witness :
    List.Sorted pyLe
      ((scan_category (("/p/objects").toList) (("Objects").toList)
        (fun _ => true) (fun _ => false) c7Oracle).assets.map AssetInfo.name) ∧
    ∀ a ∈ (scan_category (("/p/objects").toList) (("Objects").toList)
        (fun _ => true) (fun _ => false) c7Oracle).assets,
      ∃ files, c7Oracle a.path = Except.ok files ∧
        a.gml_files = (files.filter (fun f => pyEndsWith ((".gml").toList) f)).map
          (fun f => { name := f, path := pyJoin a.path f }) :=
  scan_category_order (("/p/objects").toList) (("Objects").toList)
    (fun _ => true) (fun _ => false) c7Oracle
    [(("obj_a").toList)] (by rfl)

/-- C7 counterexample: with a directory enumeration returning
`b.gml, a.gml`, the scanner's asset carries its code files in exactly that
order, which is not the lexicographic order the claim states. -/
theorem scan_category_gml_unsorted_cex :
    (scan_category (("/p/objects").toList) (("Objects").toList)
        (fun _ => true) (fun _ => false) c7Oracle).assets.map
      (fun a => a.gml_files.map GmlRef.name)
      = [[(("b.gml").toList), (("a.gml").toList)]] ∧
    pySorted [(("b.gml").toList), (("a.gml").toList)]
      ≠ [(("b.gml").toList), (("a.gml").toList)] := by
  constructor
  · rfl
  · decide

/-! ## C8 — partial failure of a category scan -/

/-- C8: when reading one category's directory raises an `OSError`, the
scan still returns a result (no exception crosses the boundary); that
category's entry carries the error string with an empty asset list, and
every other present category's entry is still the normal scan result. -/
theorem scan_project_partial (projectPath : List Char) (rootListing : List (List Char))
    (isDirAt isFileAt : List Char → Bool)
    (listDirAt : List Char → Except (List Char) (List (List Char)))
    (disp folder e : List Char)
    (hyyp : rootListing.filter (fun f => pyEndsWith ((".yyp").toList) f) ≠ [])
    (hmem : (disp, folder) ∈ assetCategories)
    (hdir : isDirAt (pyJoin projectPath folder) = true)
    (herr : listDirAt (pyJoin projectPath folder) = Except.error e) :
    ∃ cats,
      scan_project_categories projectPath true rootListing isDirAt isFileAt listDirAt
        = Except.ok cats ∧
      (disp, { path := pyJoin projectPath folder, assets := [],
               error := some ((("Could not read directory: ").toList) ++ e) : CategoryInfo })
        ∈ cats ∧
      ∀ pr ∈ assetCategories, isDirAt (pyJoin projectPath pr.2) = true →
        (pr.1, scan_category (pyJoin projectPath pr.2) pr.1 isDirAt isFileAt listDirAt) ∈ cats := by
  refine ⟨(assetCategories.filter (fun pr => isDirAt (pyJoin projectPath pr.2))).map
      (fun pr => (pr.1, scan_category (pyJoin projectPath pr.2) pr.1 isDirAt isFileAt listDirAt)),
    ?_, ?_, ?_⟩
  · unfold scan_project_categories
    rw [if_neg (by simp), if_neg hyyp]
  · have hentry : scan_category (pyJoin projectPath folder) disp isDirAt isFileAt listDirAt
        = { path := pyJoin projectPath folder, assets := [],
            error := some ((("Could not read directory: ").toList) ++ e) } := by
      unfold scan_category
      rw [herr]
    rw [← hentry]
    exact List.mem_map_of_mem _ (List.mem_filter_of_mem hmem hdir)
  · intro pr hpr hprdir
    exact List.mem_map_of_mem _ (List.mem_filter_of_mem hpr hprdir)

theorem scan_project_partial_witness :
    ∃ cats,
      scan_project_categories (("/p").toList) true [(("game.yyp").toList)]
        (fun _ => true) (fun _ => false) c8Oracle
        = Except.ok cats ∧
      ((("Rooms").toList),
        { path := pyJoin (("/p").toList) (("rooms").toList), assets := [],
          error := some ((("Could not read directory: ").toList) ++ (("Permission denied").toList))
          : CategoryInfo }) ∈ cats ∧
      ∀ pr ∈ assetCategories, (fun _ => true) (pyJoin (("/p").toList) pr.2) = true →
        (pr.1, scan_category (pyJoin (("/p").toList) pr.2) pr.1 (fun _ => true) (fun _ => false)
          c8Oracle) ∈ cats :=
  scan_project_partial (("/p").toList) [(("game.yyp").toList)] (fun _ => true) (fun _ => false)
    c8Oracle
    (("Rooms").toList) (("rooms").toList) (("Permission denied").toList)
    (by decide) (by decide) rfl (by rfl)

/-! ## Whitespace-run lemmas -/

theorem dropWhile_append_all {p : Char → Bool} :
    ∀ {ws : List Char}, ws.all p = true → ∀ t, List.dropWhile p (ws ++ t) = List.dropWhile p t := by
  intro ws
  induction ws with
  | nil => intro _ t; rfl
  | cons c cs ih =>
    intro h t
    simp only [List.all_cons, Bool.and_eq_true] at h
    rw [List.cons_append, List.dropWhile_cons, if_pos h.1]
    exact ih h.2 t

theorem takeWhile_append_all {p : Char → Bool} :
    ∀ {ws : List Char}, ws.all p = true →
      ∀ t, List.takeWhile p (ws ++ t) = ws ++ List.takeWhile p t := by
  intro ws
  induction ws with
  | nil => intro _ t; rfl
  | cons c cs ih =>
    intro h t
    simp only [List.all_cons, Bool.and_eq_true] at h
    rw [List.cons_append, List.takeWhile_cons, if_pos h.1, ih h.2 t, List.cons_append]

theorem dropWhile_cons_neg {p : Char → Bool} {c : Char} (h : p c = false) (t : List Char) :
    List.dropWhile p (c :: t) = c :: t := by
  rw [List.dropWhile_cons, if_neg (by rw [h]; exact Bool.false_ne_true)]

theorem takeWhile_cons_neg {p : Char → Bool} {c : Char} (h : p c = false) (t : List Char) :
    List.takeWhile p (c :: t) = [] := by
  rw [List.takeWhile_cons, if_neg (by rw [h]; exact Bool.false_ne_true)]

theorem dropWhile_append_stop {p : Char → Bool} :
    ∀ {xs : List Char}, List.dropWhile p xs ≠ [] →
      ∀ t, List.dropWhile p (xs ++ t) = List.dropWhile p xs ++ t := by
  intro xs
  induction xs with
  | nil => intro h _; exact absurd rfl h
  | cons c cs ih =>
    intro h t
    by_cases hc : p c = true
    · rw [List.dropWhile_cons, if_pos hc] at h ⊢
      rw [List.cons_append, List.dropWhile_cons, if_pos hc]
      exact ih h t
    · rw [Bool.not_eq_true] at hc
      rw [List.cons_append, dropWhile_cons_neg hc, dropWhile_cons_neg hc]
      rfl

theorem takeWhile_append_stop {p : Char → Bool} :
    ∀ {xs : List Char}, List.dropWhile p xs ≠ [] →
      ∀ t, List.takeWhile p (xs ++ t) = List.takeWhile p xs := by
  intro xs
  induction xs with
  | nil => intro h _; exact absurd rfl h
  | cons c cs ih =>
    intro h t
    by_cases hc : p c = true
    · rw [List.dropWhile_cons, if_pos hc] at h
      rw [List.cons_append, List.takeWhile_cons, if_pos hc, List.takeWhile_cons, if_pos hc,
        ih h t]
    · rw [Bool.not_eq_true] at hc
      rw [List.cons_append, takeWhile_cons_neg hc, takeWhile_cons_neg hc]

theorem all_of_dropWhile_eq_nil {p : Char → Bool} :
    ∀ {xs : List Char}, List.dropWhile p xs = [] → xs.all p = true := by
  intro xs
  induction xs with
  | nil => intro _; rfl
  | cons c cs ih =>
    intro h
    by_cases hc : p c = true
    · rw [List.dropWhile_cons, if_pos hc] at h
      simp [hc, ih h]
    · rw [Bool.not_eq_true] at hc
      rw [dropWhile_cons_neg hc] at h
      exact absurd h (by simp)


/-! ### String scanner lemmas -/


theorem scanStr_nil : scanStr [] = none := rfl

theorem scanStr_quote (rest : List Char) : scanStr ('"' :: rest) = some ([], rest) := by
  show scanStrF (rest.length + 1) ('"' :: rest) = _
  rw [scanStrF_succ_cons, if_pos rfl]

theorem scanStr_ord {c : Char} (rest : List Char) (h1 : c ≠ '"') (h2 : c ≠ '\\')
    (h3 : ¬ c.toNat < 32) :
    scanStr (c :: rest) = (scanStr rest).map (fun pr => (c :: pr.1, pr.2)) := by
  show scanStrF (rest.length + 1) (c :: rest) = _
  rw [scanStrF_succ_cons, if_neg h1, if_neg h2, if_neg h3]
  rfl

theorem scanStr_ctl {c : Char} (rest : List Char) (h1 : c ≠ '"') (h2 : c ≠ '\\')
    (h3 : c.toNat < 32) :
    scanStr (c :: rest) = none := by
  show scanStrF (rest.length + 1) (c :: rest) = _
  rw [scanStrF_succ_cons, if_neg h1, if_neg h2, if_pos h3]

theorem scanStr_esc_none (rest : List Char) (h : scanEsc rest = none) :
    scanStr ('\\' :: rest) = none := by
  show scanStrF (rest.length + 1) ('\\' :: rest) = _
  rw [scanStrF_succ_cons, if_neg (by decide : ¬ ('\\' : Char) = '"'), if_pos rfl]
  simp only [h]

theorem scanStr_esc_some (rest : List Char) (pr : List Char × List Char)
    (h : scanEsc rest = some pr) :
    scanStr ('\\' :: rest) = (scanStr pr.2).map (fun qr => ('\\' :: pr.1 ++ qr.1, qr.2)) := by
  show scanStrF (rest.length + 1) ('\\' :: rest) = _
  rw [scanStrF_succ_cons, if_neg (by decide : ¬ ('\\' : Char) = '"'), if_pos rfl]
  simp only [h]
  have hlen := scanEsc_len h
  rw [scanStrF_eq rest.length pr.2.length pr.2 (by omega) le_rfl]
  rfl

theorem scanEsc_split {u : List Char} {pr : List Char × List Char} (h : scanEsc u = some pr) :
    u = pr.1 ++ pr.2 := by
  cases u with
  | nil => simp [scanEsc] at h
  | cons e r2 =>
    simp only [scanEsc] at h
    split_ifs at h with hA hB hC
    · injection h with h
      subst h
      simp
    · injection h with h
      subst h
      simp only [List.cons_append]
      rw [List.take_append_drop]

theorem scanEsc_extend {u w : List Char} {pr : List Char × List Char}
    (h : scanEsc u = some pr) :
    scanEsc (u ++ w) = some (pr.1, pr.2 ++ w) := by
  cases u with
  | nil => simp [scanEsc] at h
  | cons e r2 =>
    simp only [scanEsc] at h
    split_ifs at h with hA hB hC
    · injection h with h
      subst h
      simp only [List.cons_append, scanEsc]
      rw [if_pos hA]
    · injection h with h
      subst h
      rw [Bool.and_eq_true, decide_eq_true_eq] at hC
      have h4 : 4 ≤ r2.length := by
        have := hC.1
        rw [List.length_take] at this
        omega
      simp only [List.cons_append, scanEsc]
      rw [List.take_append_of_le_length h4, List.drop_append_of_le_length h4]
      rw [if_neg hA, if_pos hB, if_pos (by rw [Bool.and_eq_true, decide_eq_true_eq]; exact hC)]

theorem scanEsc_self {u : List Char} (w : List Char) {pr : List Char × List Char}
    (h : scanEsc u = some pr) :
    scanEsc (pr.1 ++ w) = some (pr.1, w) := by
  cases u with
  | nil => simp [scanEsc] at h
  | cons e r2 =>
    simp only [scanEsc] at h
    split_ifs at h with hA hB hC
    · injection h with h
      subst h
      simp only [List.cons_append, List.nil_append, scanEsc]
      rw [if_pos hA]
    · injection h with h
      subst h
      rw [Bool.and_eq_true, decide_eq_true_eq] at hC
      simp only [List.cons_append, scanEsc]
      rw [List.take_left' hC.1, List.drop_left' hC.1]
      rw [if_neg hA, if_pos hB, if_pos (by rw [Bool.and_eq_true, decide_eq_true_eq]; exact hC)]



theorem scanStr_extend_aux : ∀ (n : Nat) (s : List Char), s.length ≤ n →
    ∀ (pr : List Char × List Char), scanStr s = some pr →
    ∀ (t : List Char), scanStr (s ++ t) = some (pr.1, pr.2 ++ t) := by
  intro n
  induction n with
  | zero =>
    intro s hs pr h t
    have hnil : s = [] := List.eq_nil_of_length_eq_zero (Nat.le_zero.mp hs)
    rw [hnil, scanStr_nil] at h
    cases h
  | succ n ih =>
    intro s hs pr h t
    cases s with
    | nil => rw [scanStr_nil] at h; cases h
    | cons c rest =>
      have hs1 : rest.length ≤ n := by
        simp only [List.length_cons] at hs
        omega
      by_cases hq : c = '"'
      · subst hq
        rw [scanStr_quote] at h
        injection h with h
        subst h
        rw [List.cons_append, scanStr_quote]
      · by_cases hb : c = '\\'
        · subst hb
          rcases he : scanEsc rest with _ | epr
          · rw [scanStr_esc_none rest he] at h; cases h
          · rw [scanStr_esc_some rest epr he] at h
            rcases hs2 : scanStr epr.2 with _ | qpr
            · rw [hs2] at h; cases h
            · rw [hs2] at h
              simp only [Option.map] at h
              injection h with h
              subst h
              have hlen2 : epr.2.length ≤ n := le_trans (scanEsc_len he) hs1
              have ih2 := ih epr.2 hlen2 qpr hs2 t
              rw [List.cons_append, scanStr_esc_some (rest ++ t) (epr.1, epr.2 ++ t) (scanEsc_extend he)]
              rw [show ((epr.1, epr.2 ++ t) : List Char × List Char).2 = epr.2 ++ t from rfl, ih2]
              rfl
        · by_cases hctl : c.toNat < 32
          · rw [scanStr_ctl rest hq hb hctl] at h; cases h
          · rw [scanStr_ord rest hq hb hctl] at h
            rcases hs2 : scanStr rest with _ | qpr
            · rw [hs2] at h; cases h
            · rw [hs2] at h
              simp only [Option.map] at h
              injection h with h
              subst h
              have ih2 := ih rest hs1 qpr hs2 t
              rw [List.cons_append, scanStr_ord (rest ++ t) hq hb hctl, ih2]
              rfl

theorem scanStr_split_self_aux : ∀ (n : Nat) (s : List Char), s.length ≤ n →
    ∀ (pr : List Char × List Char), scanStr s = some pr →
    s = pr.1 ++ '"' :: pr.2 ∧ scanStr (pr.1 ++ ['"']) = some (pr.1, []) := by
  intro n
  induction n with
  | zero =>
    intro s hs pr h
    have hnil : s = [] := List.eq_nil_of_length_eq_zero (Nat.le_zero.mp hs)
    rw [hnil, scanStr_nil] at h
    cases h
  | succ n ih =>
    intro s hs pr h
    cases s with
    | nil => rw [scanStr_nil] at h; cases h
    | cons c rest =>
      have hs1 : rest.length ≤ n := by
        simp only [List.length_cons] at hs
        omega
      by_cases hq : c = '"'
      · subst hq
        rw [scanStr_quote] at h
        injection h with h
        subst h
        exact ⟨rfl, scanStr_quote []⟩
      · by_cases hb : c = '\\'
        · subst hb
          rcases he : scanEsc rest with _ | epr
          · rw [scanStr_esc_none rest he] at h; cases h
          · rw [scanStr_esc_some rest epr he] at h
            rcases hs2 : scanStr epr.2 with _ | qpr
            · rw [hs2] at h; cases h
            · rw [hs2] at h
              simp only [Option.map] at h
              injection h with h
              subst h
              have hlen2 : epr.2.length ≤ n := le_trans (scanEsc_len he) hs1
              obtain ⟨ihsplit, ihself⟩ := ih epr.2 hlen2 qpr hs2
              have hsp := scanEsc_split he
              constructor
              · show '\\' :: rest = ('\\' :: (epr.1 ++ qpr.1)) ++ '"' :: qpr.2
                rw [List.cons_append, List.append_assoc, ← ihsplit, ← hsp]
              · show scanStr (('\\' :: (epr.1 ++ qpr.1)) ++ ['"']) = some ('\\' :: (epr.1 ++ qpr.1), [])
                rw [List.cons_append, List.append_assoc]
                rw [scanStr_esc_some (epr.1 ++ (qpr.1 ++ ['"'])) (epr.1, qpr.1 ++ ['"']) (scanEsc_self (qpr.1 ++ ['"']) he)]
                rw [show ((epr.1, qpr.1 ++ ['"']) : List Char × List Char).2 = qpr.1 ++ ['"'] from rfl, ihself]
                rfl
        · by_cases hctl : c.toNat < 32
          · rw [scanStr_ctl rest hq hb hctl] at h; cases h
          · rw [scanStr_ord rest hq hb hctl] at h
            rcases hs2 : scanStr rest with _ | qpr
            · rw [hs2] at h; cases h
            · rw [hs2] at h
              simp only [Option.map] at h
              injection h with h
              subst h
              obtain ⟨ihsplit, ihself⟩ := ih rest hs1 qpr hs2
              constructor
              · rw [show (((c :: qpr.1, qpr.2)) : List Char × List Char).1 = c :: qpr.1 from rfl]
                rw [show (((c :: qpr.1, qpr.2)) : List Char × List Char).2 = qpr.2 from rfl]
                rw [List.cons_append]
                rw [ihsplit]
              · rw [show (((c :: qpr.1, qpr.2)) : List Char × List Char).1 = c :: qpr.1 from rfl]
                rw [List.cons_append]
                rw [scanStr_ord (qpr.1 ++ ['"']) hq hb hctl, ihself]
                rfl



theorem strBodyOk_iff {b : List Char} :
    strBodyOk b = true ↔ scanStr (b ++ ['"']) = some (b, []) := by
  rw [strBodyOk, decide_eq_true_eq]

theorem scanStr_complete {b : List Char} (h : strBodyOk b = true) (t : List Char) :
    scanStr (b ++ '"' :: t) = some (b, t) := by
  have h1 := strBodyOk_iff.mp h
  have h2 := scanStr_extend_aux (b ++ ['"']).length (b ++ ['"']) le_rfl (b, []) h1 t
  rw [List.append_assoc] at h2
  simpa using h2

theorem scanStr_sound {s b r : List Char} (h : scanStr s = some (b, r)) :
    s = b ++ '"' :: r ∧ strBodyOk b = true := by
  obtain ⟨h1, h2⟩ := scanStr_split_self_aux s.length s le_rfl (b, r) h
  exact ⟨h1, strBodyOk_iff.mpr h2⟩



/-! ### Whitespace and strip-pattern lemmas -/


theorem char_ne_of_pred {p : Char → Bool} {c d : Char} (hc : p c = true) (hd : p d = false) :
    c ≠ d := by
  intro he
  subst he
  rw [hc] at hd
  cases hd

theorem isJsonWs_isPyWs {c : Char} (h : isJsonWs c = true) : isPyWs c = true := by
  rw [isJsonWs] at h
  rw [isPyWs]
  rcases Bool.or_eq_true_iff.mp h with h1 | h1
  · rcases Bool.or_eq_true_iff.mp h1 with h2 | h2
    · rcases Bool.or_eq_true_iff.mp h2 with h3 | h3 <;> simp [decide_eq_true_eq.mp h3]
    · simp [decide_eq_true_eq.mp h2]
  · simp [decide_eq_true_eq.mp h1]

theorem takeWhile_all {p : Char → Bool} : ∀ (l : List Char), (l.takeWhile p).all p = true := by
  intro l
  induction l with
  | nil => rfl
  | cons c cs ih =>
    by_cases hc : p c = true
    · rw [List.takeWhile_cons, if_pos hc]
      simp [hc, ih]
    · rw [Bool.not_eq_true] at hc
      rw [takeWhile_cons_neg hc]
      rfl

theorem dropWhile_eq_nil_of_all {p : Char → Bool} :
    ∀ {l : List Char}, l.all p = true → l.dropWhile p = [] := by
  intro l
  induction l with
  | nil => intro _; rfl
  | cons c cs ih =>
    intro h
    rw [List.all_cons, Bool.and_eq_true] at h
    rw [List.dropWhile_cons, if_pos h.1]
    exact ih h.2

theorem all_jsonWs_pyWs {l : List Char} (h : l.all isJsonWs = true) : l.all isPyWs = true := by
  induction l with
  | nil => rfl
  | cons c cs ih =>
    rw [List.all_cons, Bool.and_eq_true] at h
    rw [List.all_cons, Bool.and_eq_true]
    exact ⟨isJsonWs_isPyWs h.1, ih h.2⟩



theorem stripCommas_nil : stripCommas [] = [] := rfl

theorem stripCommas_tail_fuel (rest : List Char) :
    (rest.dropWhile isPyWs).tail.length ≤ rest.length := by
  have h1 := dropWhile_length_le isPyWs rest
  have h2 : (rest.dropWhile isPyWs).tail.length = (rest.dropWhile isPyWs).length - 1 :=
    List.length_tail _
  omega

theorem stripCommas_cons_nc {c : Char} (rest : List Char) (h : c ≠ ',') :
    stripCommas (c :: rest) = c :: stripCommas rest := by
  show stripCommasF (rest.length + 1) (c :: rest) = _
  rw [stripCommasF_succ_cons, if_neg h]
  rfl

theorem stripCommas_comma_hit_r (rest : List Char)
    (h : (rest.dropWhile isPyWs).head? = some ']') :
    stripCommas (',' :: rest) = ']' :: stripCommas (rest.dropWhile isPyWs).tail := by
  show stripCommasF (rest.length + 1) (',' :: rest) = _
  rw [stripCommasF_succ_cons, if_pos rfl, if_pos h,
    stripCommasF_eq rest.length (rest.dropWhile isPyWs).tail.length _
      (stripCommas_tail_fuel rest) le_rfl]
  rfl

theorem stripCommas_comma_hit_b (rest : List Char)
    (h1 : (rest.dropWhile isPyWs).head? ≠ some ']')
    (h2 : (rest.dropWhile isPyWs).head? = some '}') :
    stripCommas (',' :: rest) = '}' :: stripCommas (rest.dropWhile isPyWs).tail := by
  show stripCommasF (rest.length + 1) (',' :: rest) = _
  rw [stripCommasF_succ_cons, if_pos rfl, if_neg h1, if_pos h2,
    stripCommasF_eq rest.length (rest.dropWhile isPyWs).tail.length _
      (stripCommas_tail_fuel rest) le_rfl]
  rfl

theorem stripCommas_comma_miss (rest : List Char)
    (h1 : (rest.dropWhile isPyWs).head? ≠ some ']')
    (h2 : (rest.dropWhile isPyWs).head? ≠ some '}') :
    stripCommas (',' :: rest) = ',' :: stripCommas rest := by
  show stripCommasF (rest.length + 1) (',' :: rest) = _
  rw [stripCommasF_succ_cons, if_pos rfl, if_neg h1, if_neg h2]
  rfl

theorem stripCommas_no_comma : ∀ {s : List Char}, ',' ∉ s → stripCommas s = s := by
  intro s
  induction s with
  | nil => intro _; exact stripCommas_nil
  | cons c cs ih =>
    intro h
    have hc : c ≠ ',' := fun he => h (he ▸ List.mem_cons_self c cs)
    rw [stripCommas_cons_nc cs hc, ih (fun hm => h (List.mem_cons_of_mem c hm))]

theorem noDangling_suffix : ∀ (a b : List Char), noDangling (a ++ b) = true →
    noDangling b = true := by
  intro a
  induction a with
  | nil => intro b h; exact h
  | cons c cs ih =>
    intro b h
    rw [List.cons_append, noDangling, Bool.and_eq_true] at h
    exact ih b h.2

theorem noDangling_of_no_comma : ∀ {s : List Char}, ',' ∉ s → noDangling s = true := by
  intro s
  induction s with
  | nil => intro _; rfl
  | cons c cs ih =>
    intro h
    have hc : c ≠ ',' := fun he => h (he ▸ List.mem_cons_self c cs)
    rw [noDangling, Bool.and_eq_true]
    constructor
    · simp [hc]
    · exact ih (fun hm => h (List.mem_cons_of_mem c hm))

theorem noDangling_concat {c : Char} (hw : isPyWs c = false) (hc : c ≠ ',') :
    ∀ (s : List Char), noDangling (s ++ [c]) = true := by
  intro s
  induction s with
  | nil =>
    rw [List.nil_append, noDangling, Bool.and_eq_true]
    refine ⟨?_, rfl⟩
    simp [List.all_cons, hw, hc]
  | cons d s2 ih =>
    rw [List.cons_append, noDangling, Bool.and_eq_true]
    refine ⟨?_, ih⟩
    have : (s2 ++ [c]).all isPyWs = false := by
      rw [List.all_append]
      simp [List.all_cons, hw]
    simp [this]



theorem stripCommas_append_aux : ∀ (n : Nat) (l : List Char), l.length ≤ n →
    noDangling l = true → ∀ r, stripCommas (l ++ r) = stripCommas l ++ stripCommas r := by
  intro n
  induction n with
  | zero =>
    intro l hl _ r
    have hnil : l = [] := List.eq_nil_of_length_eq_zero (Nat.le_zero.mp hl)
    subst hnil
    rw [List.nil_append, stripCommas_nil, List.nil_append]
  | succ n ih =>
    intro l hl hnd r
    cases l with
    | nil => rw [List.nil_append, stripCommas_nil, List.nil_append]
    | cons c rest =>
      have hl1 : rest.length ≤ n := by
        simp only [List.length_cons] at hl
        omega
      rw [noDangling, Bool.and_eq_true] at hnd
      by_cases hc : c = ','
      · subst hc
        have hall : rest.all isPyWs = false := by
          rcases hb : rest.all isPyWs with _ | _
          · rfl
          · exfalso
            have := hnd.1
            rw [hb] at this
            simp at this
        have hd : rest.dropWhile isPyWs ≠ [] := by
          intro hnil
          rw [all_of_dropWhile_eq_nil hnil] at hall
          cases hall
        rcases hdd : rest.dropWhile isPyWs with _ | ⟨dh, dt⟩
        · exact absurd hdd hd
        · have hdrop : (rest ++ r).dropWhile isPyWs = dh :: (dt ++ r) := by
            rw [dropWhile_append_stop hd r, hdd]
            rfl
          have hsufx : noDangling dt = true := by
            have hsplit : rest = rest.takeWhile isPyWs ++ (dh :: dt) := by
              rw [← hdd, List.takeWhile_append_dropWhile]
            have : noDangling ((rest.takeWhile isPyWs ++ [dh]) ++ dt) = true := by
              rw [List.append_assoc, List.singleton_append, ← hsplit]
              exact hnd.2
            exact noDangling_suffix _ _ this
          have hdtlen : dt.length ≤ n := by
            have h1 : (rest.dropWhile isPyWs).length ≤ rest.length := by
              have key : ∀ (p : Char → Bool) (l : List Char),
                  (l.dropWhile p).length ≤ l.length := by
                intro p l
                induction l with
                | nil => simp
                | cons x xs ihx =>
                  rw [List.dropWhile_cons]
                  split
                  · exact Nat.le_succ_of_le ihx
                  · simp
              exact key isPyWs rest
            rw [hdd] at h1
            simp only [List.length_cons] at h1
            omega
          by_cases hdh1 : dh = ']'
          · subst hdh1
            rw [List.cons_append, stripCommas_comma_hit_r (rest ++ r) (by rw [hdrop]; rfl)]
            rw [stripCommas_comma_hit_r rest (by rw [hdd]; rfl)]
            rw [hdrop, hdd]
            show ']' :: stripCommas (dt ++ r) = (']' :: stripCommas dt) ++ stripCommas r
            rw [ih dt hdtlen hsufx r]
            rfl
          · by_cases hdh2 : dh = '}'
            · subst hdh2
              rw [List.cons_append,
                stripCommas_comma_hit_b (rest ++ r) (by rw [hdrop]; simp [hdh1]) (by rw [hdrop]; rfl)]
              rw [stripCommas_comma_hit_b rest (by rw [hdd]; simp [hdh1]) (by rw [hdd]; rfl)]
              rw [hdrop, hdd]
              show '}' :: stripCommas (dt ++ r) = ('}' :: stripCommas dt) ++ stripCommas r
              rw [ih dt hdtlen hsufx r]
              rfl
            · rw [List.cons_append,
                stripCommas_comma_miss (rest ++ r) (by rw [hdrop]; simp [hdh1]) (by rw [hdrop]; simp [hdh2])]
              rw [stripCommas_comma_miss rest (by rw [hdd]; simp [hdh1]) (by rw [hdd]; simp [hdh2])]
              rw [ih rest hl1 hnd.2 r]
              rfl
      · rw [List.cons_append, stripCommas_cons_nc (rest ++ r) hc, stripCommas_cons_nc rest hc]
        rw [ih rest hl1 hnd.2 r]
        rfl

theorem stripCommas_append {l : List Char} (hnd : noDangling l = true) (r : List Char) :
    stripCommas (l ++ r) = stripCommas l ++ stripCommas r :=
  stripCommas_append_aux l.length l le_rfl hnd r



theorem stripCommas_pass_aux : ∀ (n : Nat) (s : List Char), s.length ≤ n →
    hasCWPat s = false → ∀ (c : Char) (t : List Char), isPyWs c = false → c ≠ ']' → c ≠ '}' →
    stripCommas (s ++ c :: t) = s ++ stripCommas (c :: t) := by
  intro n
  induction n with
  | zero =>
    intro s hl _ c t _ _ _
    have hnil : s = [] := List.eq_nil_of_length_eq_zero (Nat.le_zero.mp hl)
    subst hnil
    rw [List.nil_append, List.nil_append]
  | succ n ih =>
    intro s hl hp c t hw hc1 hc2
    cases s with
    | nil => rw [List.nil_append, List.nil_append]
    | cons a s2 =>
      have hl1 : s2.length ≤ n := by
        simp only [List.length_cons] at hl
        omega
      rw [hasCWPat] at hp
      rw [Bool.or_eq_false_iff] at hp
      by_cases ha : a = ','
      · subst ha
        have hm : (match s2.dropWhile isPyWs with
            | ']' :: _ => true | '}' :: _ => true | _ => false) = false := by
          simpa using hp.1
        rcases hdd : s2.dropWhile isPyWs with _ | ⟨dh, dt⟩
        · have hall : s2.all isPyWs = true := all_of_dropWhile_eq_nil hdd
          have hdrop : (s2 ++ c :: t).dropWhile isPyWs = c :: t := by
            rw [dropWhile_append_all hall, List.dropWhile_cons,
              if_neg (by rw [hw]; exact Bool.false_ne_true)]
          rw [List.cons_append,
            stripCommas_comma_miss (s2 ++ c :: t) (by rw [hdrop]; simp [hc1]) (by rw [hdrop]; simp [hc2])]
          rw [ih s2 hl1 hp.2 c t hw hc1 hc2]
          rfl
        · have hdne : s2.dropWhile isPyWs ≠ [] := by
            rw [hdd]
            exact List.cons_ne_nil dh dt
          have hdrop : (s2 ++ c :: t).dropWhile isPyWs = dh :: (dt ++ c :: t) := by
            rw [dropWhile_append_stop hdne (c :: t), hdd]
            rfl
          have hdh1 : dh ≠ ']' := by
            intro he
            subst he
            rw [hdd] at hm
            simp at hm
          have hdh2 : dh ≠ '}' := by
            intro he
            subst he
            rw [hdd] at hm
            simp at hm
          rw [List.cons_append,
            stripCommas_comma_miss (s2 ++ c :: t) (by rw [hdrop]; simp [hdh1]) (by rw [hdrop]; simp [hdh2])]
          rw [ih s2 hl1 hp.2 c t hw hc1 hc2]
          rfl
      · rw [List.cons_append, stripCommas_cons_nc (s2 ++ c :: t) ha,
          ih s2 hl1 hp.2 c t hw hc1 hc2]
        rfl

theorem stripCommas_pass {s : List Char} (hp : hasCWPat s = false) {c : Char} (t : List Char)
    (hw : isPyWs c = false) (hc1 : c ≠ ']') (hc2 : c ≠ '}') :
    stripCommas (s ++ c :: t) = s ++ stripCommas (c :: t) :=
  stripCommas_pass_aux s.length s le_rfl hp c t hw hc1 hc2



/-! ### Number scanner lemmas -/


theorem takeWhile_nil_of_head {p : Char → Bool} {w : List Char}
    (hw : ∀ d, w.head? = some d → p d = false) : w.takeWhile p = [] := by
  cases w with
  | nil => rfl
  | cons d r => exact takeWhile_cons_neg (hw d rfl) r

theorem dropWhile_id_of_head {p : Char → Bool} {w : List Char}
    (hw : ∀ d, w.head? = some d → p d = false) : w.dropWhile p = w := by
  cases w with
  | nil => rfl
  | cons d r => exact dropWhile_cons_neg (hw d rfl) r

theorem delim_not_digit {d : Char} (h : isDelim (some d) = true) : d.isDigit = false := by
  rw [isDelim] at h
  rcases Bool.or_eq_true_iff.mp h with h1 | h1
  · rcases Bool.or_eq_true_iff.mp h1 with h2 | h2
    · rcases Bool.or_eq_true_iff.mp h2 with h3 | h3
      · rcases Bool.or_eq_true_iff.mp h3 with h4 | h4
        · rw [isJsonWs] at h4
          rcases Bool.or_eq_true_iff.mp h4 with h5 | h5
          · rcases Bool.or_eq_true_iff.mp h5 with h6 | h6
            · rcases Bool.or_eq_true_iff.mp h6 with h7 | h7 <;>
                rw [decide_eq_true_eq.mp h7] <;> rfl
            · rw [decide_eq_true_eq.mp h6]; rfl
          · rw [decide_eq_true_eq.mp h5]; rfl
        · rw [decide_eq_true_eq.mp h4]; rfl
      · rw [decide_eq_true_eq.mp h3]; rfl
    · rw [decide_eq_true_eq.mp h2]; rfl
  · rw [decide_eq_true_eq.mp h1]; rfl

theorem delim_ne_dot {d : Char} (h : isDelim (some d) = true) : d ≠ '.' := by
  rw [isDelim] at h
  intro he
  subst he
  simp [isJsonWs] at h

theorem delim_ne_exp {d : Char} (h : isDelim (some d) = true) : d ≠ 'e' ∧ d ≠ 'E' := by
  rw [isDelim] at h
  constructor <;> intro he <;> subst he <;> simp [isJsonWs] at h

theorem scanIntPos_split {u : List Char} {pr : List Char × List Char}
    (h : scanIntPos u = some pr) : u = pr.1 ++ pr.2 := by
  cases u with
  | nil => simp [scanIntPos] at h
  | cons c r =>
    simp only [scanIntPos] at h
    split_ifs at h with h0 hd
    · injection h with h
      subst h
      simp [h0]
    · injection h with h
      subst h
      show c :: r = c :: (r.takeWhile Char.isDigit ++ r.dropWhile Char.isDigit)
      rw [List.takeWhile_append_dropWhile]

theorem scanIntPos_head {u : List Char} {pr : List Char × List Char}
    (h : scanIntPos u = some pr) : ∃ c cs, pr.1 = c :: cs ∧ c.isDigit = true := by
  cases u with
  | nil => simp [scanIntPos] at h
  | cons c r =>
    simp only [scanIntPos] at h
    split_ifs at h with h0 hd
    · injection h with h
      subst h
      exact ⟨'0', [], rfl, rfl⟩
    · injection h with h
      subst h
      exact ⟨c, r.takeWhile Char.isDigit, rfl, hd⟩

theorem scanIntPos_chars {u : List Char} {pr : List Char × List Char}
    (h : scanIntPos u = some pr) : pr.1.all Char.isDigit = true := by
  cases u with
  | nil => simp [scanIntPos] at h
  | cons c r =>
    simp only [scanIntPos] at h
    split_ifs at h with h0 hd
    · injection h with h
      subst h
      rfl
    · injection h with h
      subst h
      rw [List.all_cons, Bool.and_eq_true]
      exact ⟨hd, takeWhile_all r⟩

theorem scanIntPos_self {u : List Char} {pr : List Char × List Char}
    (h : scanIntPos u = some pr) (w : List Char)
    (hw : ∀ d, w.head? = some d → d.isDigit = false) :
    scanIntPos (pr.1 ++ w) = some (pr.1, w) := by
  cases u with
  | nil => simp [scanIntPos] at h
  | cons c r =>
    simp only [scanIntPos] at h
    split_ifs at h with h0 hd
    · injection h with h
      subst h
      show scanIntPos ('0' :: w) = some (['0'], w)
      simp [scanIntPos]
    · injection h with h
      subst h
      show scanIntPos (c :: (r.takeWhile Char.isDigit ++ w)) = some (c :: r.takeWhile Char.isDigit, w)
      simp only [scanIntPos]
      rw [if_neg h0, if_pos hd]
      rw [takeWhile_append_all (takeWhile_all r) w, takeWhile_nil_of_head hw, List.append_nil]
      rw [dropWhile_append_all (takeWhile_all r) w, dropWhile_id_of_head hw]



theorem scanIntPart_split {u : List Char} {pr : List Char × List Char}
    (h : scanIntPart u = some pr) : u = pr.1 ++ pr.2 := by
  rw [scanIntPart] at h
  split_ifs at h with hm
  · cases u with
    | nil => simp at hm
    | cons c r =>
      simp only [List.head?_cons, Option.some_inj] at hm
      subst hm
      rcases hq : scanIntPos r with _ | qpr
      · rw [show (('-' :: r : List Char).tail) = r from rfl, hq] at h
        cases h
      · rw [show (('-' :: r : List Char).tail) = r from rfl, hq] at h
        simp only [Option.map] at h
        injection h with h
        subst h
        show '-' :: r = ('-' :: qpr.1) ++ qpr.2
        rw [List.cons_append, ← scanIntPos_split hq]
  · exact scanIntPos_split h

theorem scanIntPart_head {u : List Char} {pr : List Char × List Char}
    (h : scanIntPart u = some pr) :
    ∃ c cs, pr.1 = c :: cs ∧ (c = '-' ∨ c.isDigit = true) := by
  rw [scanIntPart] at h
  split_ifs at h with hm
  · cases u with
    | nil => simp at hm
    | cons c r =>
      rcases hq : scanIntPos r with _ | qpr
      · rw [show (((c :: r) : List Char).tail) = r from rfl, hq] at h
        cases h
      · rw [show (((c :: r) : List Char).tail) = r from rfl, hq] at h
        simp only [Option.map] at h
        injection h with h
        subst h
        exact ⟨'-', qpr.1, rfl, Or.inl rfl⟩
  · obtain ⟨c, cs, h1, h2⟩ := scanIntPos_head h
    exact ⟨c, cs, h1, Or.inr h2⟩

theorem scanIntPart_chars {u : List Char} {pr : List Char × List Char}
    (h : scanIntPart u = some pr) :
    pr.1.all (fun c => c.isDigit || c = '-') = true := by
  have mono : ∀ (l : List Char), l.all Char.isDigit = true →
      l.all (fun c => c.isDigit || c = '-') = true := by
    intro l hl
    induction l with
    | nil => rfl
    | cons x xs ih =>
      rw [List.all_cons, Bool.and_eq_true] at hl ⊢
      exact ⟨by rw [hl.1]; rfl, ih hl.2⟩
  rw [scanIntPart] at h
  split_ifs at h with hm
  · cases u with
    | nil => simp at hm
    | cons c r =>
      rcases hq : scanIntPos r with _ | qpr
      · rw [show (((c :: r) : List Char).tail) = r from rfl, hq] at h
        cases h
      · rw [show (((c :: r) : List Char).tail) = r from rfl, hq] at h
        simp only [Option.map] at h
        injection h with h
        subst h
        show (('-' :: qpr.1 : List Char)).all (fun c => c.isDigit || c = '-') = true
        rw [List.all_cons, Bool.and_eq_true]
        exact ⟨by simp, mono _ (scanIntPos_chars hq)⟩
  · exact mono _ (scanIntPos_chars h)

theorem scanIntPart_self {u : List Char} {pr : List Char × List Char}
    (h : scanIntPart u = some pr) (w : List Char)
    (hw : ∀ d, w.head? = some d → d.isDigit = false) :
    scanIntPart (pr.1 ++ w) = some (pr.1, w) := by
  rw [scanIntPart] at h
  split_ifs at h with hm
  · cases u with
    | nil => simp at hm
    | cons c r =>
      simp only [List.head?_cons, Option.some_inj] at hm
      subst hm
      rcases hq : scanIntPos r with _ | qpr
      · rw [show (('-' :: r : List Char).tail) = r from rfl, hq] at h
        cases h
      · rw [show (('-' :: r : List Char).tail) = r from rfl, hq] at h
        simp only [Option.map] at h
        injection h with h
        subst h
        show scanIntPart (('-' :: qpr.1) ++ w) = some ('-' :: qpr.1, w)
        rw [scanIntPart, List.cons_append, List.head?_cons, if_pos rfl]
        rw [show (('-' :: (qpr.1 ++ w) : List Char)).tail = qpr.1 ++ w from rfl]
        rw [scanIntPos_self hq w hw]
        rfl
  · obtain ⟨c, cs, h1, h2⟩ := scanIntPos_head h
    rw [scanIntPart]
    rw [if_neg (by
      rw [h1, List.cons_append, List.head?_cons]
      intro hcon
      rw [Option.some_inj] at hcon
      subst hcon
      exact absurd h2 (by decide))]
    exact scanIntPos_self h w hw



theorem scanFracPart_split {u f v : List Char} (h : scanFracPart u = (f, v)) :
    u = f ++ v := by
  cases u with
  | nil =>
    simp only [scanFracPart] at h
    injection h with hA hB
    subst hA
    subst hB
    rfl
  | cons c r =>
    simp only [scanFracPart] at h
    split_ifs at h with h0 hd
    · injection h with hA hB
      subst hA
      subst hB
      rfl
    · injection h with hA hB
      subst hA
      subst hB
      show c :: r = (c :: r.takeWhile Char.isDigit) ++ r.dropWhile Char.isDigit
      rw [List.cons_append, List.takeWhile_append_dropWhile]
    · injection h with hA hB
      subst hA
      subst hB
      rfl

theorem scanFracPart_shape {u f v : List Char} (h : scanFracPart u = (f, v)) :
    (f = [] ∧ v = u) ∨
    (∃ ds, f = '.' :: ds ∧ ds ≠ [] ∧ ds.all Char.isDigit = true) := by
  cases u with
  | nil =>
    simp only [scanFracPart] at h
    injection h with hA hB
    subst hA
    subst hB
    exact Or.inl ⟨rfl, rfl⟩
  | cons c r =>
    simp only [scanFracPart] at h
    split_ifs at h with h0 hd
    · injection h with hA hB
      subst hA
      subst hB
      exact Or.inl ⟨rfl, rfl⟩
    · injection h with hA hB
      subst hA
      subst hB
      subst h0
      exact Or.inr ⟨r.takeWhile Char.isDigit, rfl, hd, takeWhile_all r⟩
    · injection h with hA hB
      subst hA
      subst hB
      exact Or.inl ⟨rfl, rfl⟩

theorem scanFracPart_none {w : List Char} (hw : ∀ d, w.head? = some d → d ≠ '.') :
    scanFracPart w = ([], w) := by
  cases w with
  | nil => rfl
  | cons c r =>
    simp only [scanFracPart]
    rw [if_neg (hw c rfl)]

theorem scanFracPart_dot {ds : List Char} (hne : ds ≠ []) (hall : ds.all Char.isDigit = true)
    (w : List Char) (hw : ∀ d, w.head? = some d → d.isDigit = false) :
    scanFracPart (('.' :: ds) ++ w) = ('.' :: ds, w) := by
  rw [List.cons_append]
  simp only [scanFracPart]
  rw [if_pos trivial]
  rw [takeWhile_append_all hall w, takeWhile_nil_of_head hw, List.append_nil]
  rw [dropWhile_append_all hall w, dropWhile_id_of_head hw]
  rw [if_neg (by
    intro hx
    exact absurd hx hne)]

theorem scanExpPart_split {u f v : List Char} (h : scanExpPart u = (f, v)) :
    u = f ++ v := by
  cases u with
  | nil =>
    simp only [scanExpPart] at h
    injection h with hA hB
    subst hA
    subst hB
    rfl
  | cons c r =>
    simp only [scanExpPart] at h
    split_ifs at h with h0 hs hd hd2
    · injection h with hA hB
      subst hA
      subst hB
      rfl
    · injection h with hA hB
      subst hA
      subst hB
      show c :: r = (c :: (r.take 1 ++ r.tail.takeWhile Char.isDigit)) ++ r.tail.dropWhile Char.isDigit
      rw [List.cons_append, List.append_assoc, List.takeWhile_append_dropWhile]
      cases r with
      | nil => simp at hs
      | cons a b => rfl
    · injection h with hA hB
      subst hA
      subst hB
      rfl
    · injection h with hA hB
      subst hA
      subst hB
      show c :: r = (c :: ([] ++ r.takeWhile Char.isDigit)) ++ r.dropWhile Char.isDigit
      rw [List.cons_append, List.nil_append, List.takeWhile_append_dropWhile]
    · injection h with hA hB
      subst hA
      subst hB
      rfl



theorem scanExpPart_none {w : List Char}
    (hw : ∀ d, w.head? = some d → d ≠ 'e' ∧ d ≠ 'E') : scanExpPart w = ([], w) := by
  cases w with
  | nil => rfl
  | cons c r =>
    simp only [scanExpPart]
    rw [if_neg (by
      obtain ⟨h1, h2⟩ := hw c rfl
      rintro (h | h) <;> contradiction)]

theorem scanExpPart_shape {u f v : List Char} (h : scanExpPart u = (f, v)) :
    (f = [] ∧ v = u) ∨
    (∃ ec sg ds, f = ec :: sg ++ ds ∧ (ec = 'e' ∨ ec = 'E') ∧
      (sg = [] ∨ sg = ['+'] ∨ sg = ['-']) ∧ ds ≠ [] ∧ ds.all Char.isDigit = true) := by
  cases u with
  | nil =>
    simp only [scanExpPart] at h
    injection h with hA hB
    subst hA
    subst hB
    exact Or.inl ⟨rfl, rfl⟩
  | cons c r =>
    simp only [scanExpPart] at h
    split_ifs at h with h0 hs hd hd2
    · injection h with hA hB
      subst hA
      subst hB
      exact Or.inl ⟨rfl, rfl⟩
    · injection h with hA hB
      subst hA
      subst hB
      refine Or.inr ⟨c, r.take 1, r.tail.takeWhile Char.isDigit, rfl, h0, ?_, hd, takeWhile_all _⟩
      rcases Bool.or_eq_true_iff.mp hs with h1 | h1
      · rw [decide_eq_true_eq] at h1
        cases r with
        | nil => cases h1
        | cons a b =>
          rw [List.head?_cons, Option.some_inj] at h1
          subst h1
          exact Or.inr (Or.inl rfl)
      · rw [decide_eq_true_eq] at h1
        cases r with
        | nil => cases h1
        | cons a b =>
          rw [List.head?_cons, Option.some_inj] at h1
          subst h1
          exact Or.inr (Or.inr rfl)
    · injection h with hA hB
      subst hA
      subst hB
      exact Or.inl ⟨rfl, rfl⟩
    · injection h with hA hB
      subst hA
      subst hB
      refine Or.inr ⟨c, [], r.takeWhile Char.isDigit, rfl, h0, Or.inl rfl, hd2, takeWhile_all _⟩
    · injection h with hA hB
      subst hA
      subst hB
      exact Or.inl ⟨rfl, rfl⟩



theorem scanExpPart_cons (e : Char) (r : List Char) :
    scanExpPart (e :: r) =
      if e = 'e' ∨ e = 'E' then
        if (r.head? = some '+' || r.head? = some '-') = true then
          (if r.tail.takeWhile Char.isDigit = [] then ([], e :: r)
           else (e :: r.take 1 ++ r.tail.takeWhile Char.isDigit, r.tail.dropWhile Char.isDigit))
        else
          (if r.takeWhile Char.isDigit = [] then ([], e :: r)
           else (e :: r.takeWhile Char.isDigit, r.dropWhile Char.isDigit))
      else ([], e :: r) := by
  simp only [scanExpPart]
  split_ifs <;> rfl

theorem scanExpPart_make {ec : Char} (hec : ec = 'e' ∨ ec = 'E') {sg ds : List Char}
    (hsg : sg = [] ∨ sg = ['+'] ∨ sg = ['-']) (hne : ds ≠ []) (hall : ds.all Char.isDigit = true)
    (w : List Char) (hw : ∀ d, w.head? = some d → d.isDigit = false) :
    scanExpPart ((ec :: sg ++ ds) ++ w) = (ec :: sg ++ ds, w) := by
  obtain ⟨d0, ds2, hds⟩ : ∃ d0 ds2, ds = d0 :: ds2 := by
    cases ds with
    | nil => exact absurd rfl hne
    | cons a b => exact ⟨a, b, rfl⟩
  have hd0 : d0.isDigit = true := by
    rw [hds, List.all_cons, Bool.and_eq_true] at hall
    exact hall.1
  rcases hsg with hsg | hsg | hsg <;> subst hsg
  · show scanExpPart (ec :: (ds ++ w)) = (ec :: ds, w)
    rw [scanExpPart_cons, if_pos hec]
    have hsgn : ((ds ++ w).head? = some '+' || (ds ++ w).head? = some '-') = false := by
      rw [hds, List.cons_append, List.head?_cons]
      have n1 : d0 ≠ '+' := char_ne_of_pred hd0 (by rfl)
      have n2 : d0 ≠ '-' := char_ne_of_pred hd0 (by rfl)
      simp [n1, n2]
    rw [hsgn]
    rw [if_neg (by simp)]
    rw [takeWhile_append_all hall w, takeWhile_nil_of_head hw, List.append_nil]
    rw [dropWhile_append_all hall w, dropWhile_id_of_head hw]
    rw [if_neg hne]
  · show scanExpPart (ec :: '+' :: (ds ++ w)) = (ec :: '+' :: ds, w)
    rw [scanExpPart_cons, if_pos hec]
    have hsgn : ((('+' :: (ds ++ w) : List Char)).head? = some '+' ||
        (('+' :: (ds ++ w) : List Char)).head? = some '-') = true := by
      simp
    rw [hsgn, if_pos rfl]
    rw [List.tail_cons]
    rw [takeWhile_append_all hall w, takeWhile_nil_of_head hw, List.append_nil]
    rw [dropWhile_append_all hall w, dropWhile_id_of_head hw]
    rw [if_neg hne]
    rfl
  · show scanExpPart (ec :: '-' :: (ds ++ w)) = (ec :: '-' :: ds, w)
    rw [scanExpPart_cons, if_pos hec]
    have hsgn : ((('-' :: (ds ++ w) : List Char)).head? = some '+' ||
        (('-' :: (ds ++ w) : List Char)).head? = some '-') = true := by
      simp
    rw [hsgn, if_pos rfl]
    rw [List.tail_cons]
    rw [takeWhile_append_all hall w, takeWhile_nil_of_head hw, List.append_nil]
    rw [dropWhile_append_all hall w, dropWhile_id_of_head hw]
    rw [if_neg hne]
    rfl



theorem all_imp {p q : Char → Bool} (hpq : ∀ c, p c = true → q c = true) :
    ∀ {l : List Char}, l.all p = true → l.all q = true := by
  intro l
  induction l with
  | nil => intro _; rfl
  | cons c cs ih =>
    intro h
    rw [List.all_cons, Bool.and_eq_true] at h ⊢
    exact ⟨hpq c h.1, ih h.2⟩

theorem scanNum_eq {u lit v : List Char} (h : scanNum u = some (lit, v)) :
    ∃ ipr f1 f2 e1 e2, scanIntPart u = some ipr ∧ scanFracPart ipr.2 = (f1, f2) ∧
      scanExpPart f2 = (e1, e2) ∧ lit = ipr.1 ++ f1 ++ e1 ∧ v = e2 := by
  rcases hip : scanIntPart u with _ | ipr
  · rw [scanNum, hip] at h
    cases h
  · rw [scanNum, hip] at h
    simp only [Option.map] at h
    injection h with h
    refine ⟨ipr, (scanFracPart ipr.2).1, (scanFracPart ipr.2).2,
      (scanExpPart (scanFracPart ipr.2).2).1, (scanExpPart (scanFracPart ipr.2).2).2,
      rfl, rfl, rfl, ?_, ?_⟩
    · injection h with hA hB
      exact hA.symm
    · injection h with hA hB
      exact hB.symm

theorem scanNum_split {u lit v : List Char} (h : scanNum u = some (lit, v)) :
    u = lit ++ v := by
  obtain ⟨ipr, f1, f2, e1, e2, hip, hf, he, hl, hv⟩ := scanNum_eq h
  subst hl
  subst hv
  rw [List.append_assoc, List.append_assoc, ← scanExpPart_split he, ← scanFracPart_split hf]
  exact scanIntPart_split hip

theorem scanNum_head {u lit v : List Char} (h : scanNum u = some (lit, v)) :
    ∃ c cs, lit = c :: cs ∧ (c = '-' ∨ c.isDigit = true) := by
  obtain ⟨ipr, f1, f2, e1, e2, hip, hf, he, hl, hv⟩ := scanNum_eq h
  obtain ⟨c, cs, h1, h2⟩ := scanIntPart_head hip
  subst hl
  rw [h1]
  exact ⟨c, cs ++ f1 ++ e1, by simp, h2⟩

theorem scanNum_chars {u lit v : List Char} (h : scanNum u = some (lit, v)) :
    lit.all numChar = true := by
  obtain ⟨ipr, f1, f2, e1, e2, hip, hf, he, hl, hv⟩ := scanNum_eq h
  subst hl
  rw [List.all_append, List.all_append, Bool.and_eq_true, Bool.and_eq_true]
  refine ⟨⟨?_, ?_⟩, ?_⟩
  · exact all_imp (fun c hc => by
      rw [numChar]
      rcases Bool.or_eq_true_iff.mp hc with h1 | h1 <;> simp [h1]) (scanIntPart_chars hip)
  · rcases scanFracPart_shape hf with ⟨h1, _⟩ | ⟨ds, h1, _, hall⟩
    · rw [h1]; rfl
    · rw [h1, List.all_cons, Bool.and_eq_true]
      refine ⟨by rfl, ?_⟩
      exact all_imp (fun c hc => by rw [numChar]; simp [hc]) hall
  · rcases scanExpPart_shape he with ⟨h1, _⟩ | ⟨ec, sg, ds, h1, hec, hsg, _, hall⟩
    · rw [h1]; rfl
    · rw [h1]
      simp only [List.cons_append, List.all_cons, List.all_append, Bool.and_eq_true]
      refine ⟨?_, ?_, ?_⟩
      · rcases hec with hec | hec <;> rw [hec] <;> rfl
      · rcases hsg with hsg | hsg | hsg <;> rw [hsg] <;> rfl
      · exact all_imp (fun c hc => by rw [numChar]; simp [hc]) hall

theorem numChar_no_comma {lit : List Char} (h : lit.all numChar = true) : ',' ∉ lit := by
  intro hm
  have := List.all_eq_true.mp h ',' hm
  rw [numChar] at this
  simp at this

theorem scanNum_self {u lit v : List Char} (h : scanNum u = some (lit, v)) (w : List Char)
    (hdel : isDelim w.head? = true) : scanNum (lit ++ w) = some (lit, w) := by
  obtain ⟨ipr, f1, f2, e1, e2, hip, hf, he, hl, hv⟩ := scanNum_eq h
  have hwd : ∀ d, w.head? = some d → d.isDigit = false := by
    intro d hd
    rw [hd] at hdel
    exact delim_not_digit hdel
  have hwdot : ∀ d, w.head? = some d → d ≠ '.' := by
    intro d hd
    rw [hd] at hdel
    exact delim_ne_dot hdel
  have hwexp : ∀ d, w.head? = some d → d ≠ 'e' ∧ d ≠ 'E' := by
    intro d hd
    rw [hd] at hdel
    exact delim_ne_exp hdel
  have hE : ∀ d, (e1 ++ w).head? = some d → d.isDigit = false := by
    rcases scanExpPart_shape he with ⟨h1, _⟩ | ⟨ec, sg, ds, h1, hec, _, _, _⟩
    · rw [h1]
      exact fun d hd => hwd d hd
    · rw [h1]
      intro d hd
      simp only [List.cons_append, List.head?_cons, Option.some_inj] at hd
      subst hd
      rcases hec with hec | hec <;> rw [hec] <;> rfl
  have hEdot : ∀ d, (e1 ++ w).head? = some d → d ≠ '.' := by
    rcases scanExpPart_shape he with ⟨h1, _⟩ | ⟨ec, sg, ds, h1, hec, _, _, _⟩
    · rw [h1]
      exact fun d hd => hwdot d hd
    · rw [h1]
      intro d hd
      simp only [List.cons_append, List.head?_cons, Option.some_inj] at hd
      subst hd
      rcases hec with hec | hec <;> rw [hec] <;> decide
  have hfrac : scanFracPart (f1 ++ (e1 ++ w)) = (f1, e1 ++ w) := by
    rcases scanFracPart_shape hf with ⟨h1, _⟩ | ⟨ds, h1, hne, hall⟩
    · rw [h1, List.nil_append]
      exact scanFracPart_none hEdot
    · rw [h1]
      exact scanFracPart_dot hne hall (e1 ++ w) hE
  have hexp : scanExpPart (e1 ++ w) = (e1, w) := by
    rcases scanExpPart_shape he with ⟨h1, _⟩ | ⟨ec, sg, ds, h1, hec, hsg, hne, hall⟩
    · rw [h1, List.nil_append]
      exact scanExpPart_none hwexp
    · rw [h1]
      exact scanExpPart_make hec hsg hne hall w hwd
  have hFE : ∀ d, (f1 ++ (e1 ++ w)).head? = some d → d.isDigit = false := by
    rcases scanFracPart_shape hf with ⟨h1, _⟩ | ⟨ds, h1, _, _⟩
    · rw [h1, List.nil_append]
      exact hE
    · rw [h1]
      intro d hd
      simp only [List.cons_append, List.head?_cons, Option.some_inj] at hd
      subst hd
      rfl
  subst hl
  subst hv
  rw [scanNum]
  rw [List.append_assoc, List.append_assoc]
  rw [scanIntPart_self hip (f1 ++ (e1 ++ w)) hFE]
  simp only [Option.map]
  rw [hfrac, hexp]

theorem numLitOk_iff {lit : List Char} :
    numLitOk lit = true ↔ scanNum lit = some (lit, []) := by
  rw [numLitOk, decide_eq_true_eq]

theorem numLit_complete {lit : List Char} (h : numLitOk lit = true) (t : List Char)
    (hdel : isDelim t.head? = true) : scanNum (lit ++ t) = some (lit, t) :=
  scanNum_self (numLitOk_iff.mp h) t hdel

theorem numLit_sound {s lit r : List Char} (h : scanNum s = some (lit, r)) :
    s = lit ++ r ∧ numLitOk lit = true := by
  refine ⟨scanNum_split h, numLitOk_iff.mpr ?_⟩
  have := scanNum_self h [] (by rfl)
  rw [List.append_nil] at this
  exact this



/-! ### Parser unfolding and soundness -/


theorem parseVal_zero (rx : Bool) (s : List Char) : parseVal rx 0 s = none := rfl

theorem parseVal_succ_nil (rx : Bool) (fuel : Nat) : parseVal rx (fuel + 1) [] = none := rfl

theorem parseVal_succ_cons (rx : Bool) (fuel : Nat) (c : Char) (rest : List Char) :
    parseVal rx (fuel + 1) (c :: rest) =
      (if c = '"' then (scanStr rest).map (fun pr => (.str pr.1, pr.2))
      else if c = '{' then
        (if (skipWsL rest).head? = some '}' then some (.obj [], (skipWsL rest).tail)
        else parseFields rx fuel (skipWsL rest) [])
      else if c = '[' then
        (if (skipWsL rest).head? = some ']' then some (.arr [], (skipWsL rest).tail)
        else parseItems rx fuel (skipWsL rest) [])
      else if c = 't' then (dropLit (("rue").toList) rest).map (fun r => (.bool true, r))
      else if c = 'f' then (dropLit (("alse").toList) rest).map (fun r => (.bool false, r))
      else if c = 'n' then (dropLit (("ull").toList) rest).map (fun r => (.null, r))
      else if c = 'N' then (dropLit (("aN").toList) rest).map (fun r => (.num (("NaN").toList), r))
      else if c = 'I' then
        (dropLit (("nfinity").toList) rest).map (fun r => (.num (("Infinity").toList), r))
      else if c = '-' ∧ pyStartsWith (("Infinity").toList) rest then
        some (.num (("-Infinity").toList), List.drop 8 rest)
      else (scanNum (c :: rest)).map (fun pr => (.num pr.1, pr.2)) : Option (JVal × List Char)) := rfl

theorem parseItems_zero (rx : Bool) (s : List Char) (acc : List JVal) :
    parseItems rx 0 s acc = none := rfl

theorem parseItems_succ (rx : Bool) (fuel : Nat) (s : List Char) (acc : List JVal) :
    parseItems rx (fuel + 1) s acc =
      (match parseVal rx fuel s with
      | none => none
      | some (v, r) =>
        let u := skipWsL r
        if u.head? = some ',' then
          let r3 := skipWsL u.tail
          if rx ∧ r3.head? = some ']' then some (.arr (v :: acc).reverse, r3.tail)
          else parseItems rx fuel r3 (v :: acc)
        else if u.head? = some ']' then some (.arr (v :: acc).reverse, u.tail)
        else none) := rfl

theorem parseFields_zero (rx : Bool) (s : List Char) (acc : List (List Char × JVal)) :
    parseFields rx 0 s acc = none := rfl

theorem parseFields_succ (rx : Bool) (fuel : Nat) (s : List Char) (acc : List (List Char × JVal)) :
    parseFields rx (fuel + 1) s acc =
      (if s.head? = some '"' then
        match scanStr s.tail with
        | none => none
        | some (k, r1) =>
          let u := skipWsL r1
          if u.head? = some ':' then
            match parseVal rx fuel (skipWsL u.tail) with
            | none => none
            | some (v, r3) =>
              let w := skipWsL r3
              if w.head? = some ',' then
                let r5 := skipWsL w.tail
                if rx ∧ r5.head? = some '}' then some (.obj ((k, v) :: acc).reverse, r5.tail)
                else parseFields rx fuel r5 ((k, v) :: acc)
              else if w.head? = some '}' then some (.obj ((k, v) :: acc).reverse, w.tail)
              else none
          else none
      else none) := rfl



theorem pyStartsWith_split : ∀ (lit s : List Char), pyStartsWith lit s = true →
    s = lit ++ List.drop lit.length s := by
  intro lit
  induction lit with
  | nil => intro s _; rfl
  | cons a as ih =>
    intro s h
    cases s with
    | nil => cases h
    | cons b bs =>
      rw [pyStartsWith, Bool.and_eq_true, decide_eq_true_eq] at h
      obtain ⟨h1, h2⟩ := h
      subst h1
      show a :: bs = a :: (as ++ List.drop as.length bs)
      rw [← ih bs h2]

theorem pyStartsWith_false_of_head {a b : Char} (as bs : List Char) (h : b ≠ a) :
    pyStartsWith (a :: as) (b :: bs) = false := by
  rw [pyStartsWith]
  rw [decide_eq_false (by
    intro hh
    exact h hh.symm)]
  rfl

theorem head?_shape {l : List Char} {a : Char} (h : l.head? = some a) : l = a :: l.tail := by
  cases l with
  | nil => cases h
  | cons b bs =>
    rw [List.head?_cons, Option.some_inj] at h
    subst h
    rfl

theorem parseItems_succ_none {rx : Bool} {fuel : Nat} {s : List Char}
    (h : parseVal rx fuel s = none) (acc : List JVal) :
    parseItems rx (fuel + 1) s acc = none := by
  rw [parseItems_succ, h]

theorem parseItems_succ_some {rx : Bool} {fuel : Nat} {s : List Char} {v : JVal} {r : List Char}
    (h : parseVal rx fuel s = some (v, r)) (acc : List JVal) :
    parseItems rx (fuel + 1) s acc =
      (if (skipWsL r).head? = some ',' then
        if rx ∧ (skipWsL (skipWsL r).tail).head? = some ']' then
          some (.arr (v :: acc).reverse, (skipWsL (skipWsL r).tail).tail)
        else parseItems rx fuel (skipWsL (skipWsL r).tail) (v :: acc)
      else if (skipWsL r).head? = some ']' then some (.arr (v :: acc).reverse, (skipWsL r).tail)
      else none) := by
  rw [parseItems_succ, h]

theorem parseFields_succ_notquote {rx : Bool} {fuel : Nat} {s : List Char}
    (h : s.head? ≠ some '"') (acc : List (List Char × JVal)) :
    parseFields rx (fuel + 1) s acc = none := by
  rw [parseFields_succ, if_neg h]

theorem parseFields_succ_badkey {rx : Bool} {fuel : Nat} {s : List Char}
    (hq : s.head? = some '"') (h : scanStr s.tail = none) (acc : List (List Char × JVal)) :
    parseFields rx (fuel + 1) s acc = none := by
  rw [parseFields_succ, if_pos hq, h]

theorem parseFields_succ_nocolon {rx : Bool} {fuel : Nat} {s k r1 : List Char}
    (hq : s.head? = some '"') (hk : scanStr s.tail = some (k, r1))
    (hc : (skipWsL r1).head? ≠ some ':') (acc : List (List Char × JVal)) :
    parseFields rx (fuel + 1) s acc = none := by
  rw [parseFields_succ, if_pos hq, hk]
  show (if (skipWsL r1).head? = some ':' then _ else none) = none
  rw [if_neg hc]

theorem parseFields_succ_noval {rx : Bool} {fuel : Nat} {s k r1 : List Char}
    (hq : s.head? = some '"') (hk : scanStr s.tail = some (k, r1))
    (hc : (skipWsL r1).head? = some ':')
    (hv : parseVal rx fuel (skipWsL (skipWsL r1).tail) = none) (acc : List (List Char × JVal)) :
    parseFields rx (fuel + 1) s acc = none := by
  rw [parseFields_succ, if_pos hq, hk]
  show (if (skipWsL r1).head? = some ':' then _ else none) = none
  rw [if_pos hc, hv]

theorem parseFields_succ_val {rx : Bool} {fuel : Nat} {s k r1 : List Char} {v : JVal}
    {r3 : List Char} (hq : s.head? = some '"') (hk : scanStr s.tail = some (k, r1))
    (hc : (skipWsL r1).head? = some ':')
    (hv : parseVal rx fuel (skipWsL (skipWsL r1).tail) = some (v, r3))
    (acc : List (List Char × JVal)) :
    parseFields rx (fuel + 1) s acc =
      (if (skipWsL r3).head? = some ',' then
        if rx ∧ (skipWsL (skipWsL r3).tail).head? = some '}' then
          some (.obj ((k, v) :: acc).reverse, (skipWsL (skipWsL r3).tail).tail)
        else parseFields rx fuel (skipWsL (skipWsL r3).tail) ((k, v) :: acc)
      else if (skipWsL r3).head? = some '}' then
        some (.obj ((k, v) :: acc).reverse, (skipWsL r3).tail)
      else none) := by
  rw [parseFields_succ, if_pos hq, hk]
  show (if (skipWsL r1).head? = some ':' then _ else none) = _
  rw [if_pos hc, hv]





theorem ws_split (s : List Char) : s.takeWhile isJsonWs ++ skipWsL s = s := by
  rw [skipWsL, List.takeWhile_append_dropWhile]

theorem parse_sound_aux : ∀ (fuel : Nat) (rx : Bool),
    (∀ s v r, parseVal rx fuel s = some (v, r) → ∃ core, s = core ++ r ∧ Good rx v core) ∧
    (∀ s acc v r, parseItems rx fuel s acc = some (v, r) →
      ∃ vs inner, v = .arr (acc.reverse ++ vs) ∧ s = inner ++ ']' :: r ∧ GoodItems rx vs inner) ∧
    (∀ s acc v r, parseFields rx fuel s acc = some (v, r) →
      ∃ fs inner, v = .obj (acc.reverse ++ fs) ∧ s = inner ++ '}' :: r ∧
        GoodFields rx fs inner) := by
  intro fuel
  induction fuel with
  | zero =>
    intro rx
    refine ⟨?_, ?_, ?_⟩
    · intro s v r h
      rw [parseVal_zero] at h
      cases h
    · intro s acc v r h
      rw [parseItems_zero] at h
      cases h
    · intro s acc v r h
      rw [parseFields_zero] at h
      cases h
  | succ fuel ih =>
    intro rx
    obtain ⟨ihV, ihI, ihF⟩ := ih rx
    refine ⟨?_, ?_, ?_⟩
    · -- value scanner
      intro s v r h
      cases s with
      | nil =>
        rw [parseVal_succ_nil] at h
        cases h
      | cons c rest =>
        rw [parseVal_succ_cons] at h
        split_ifs at h with h1 h2 h3 h4 h5 h6 h7 h8 h9 h10 h11
        · -- string
          subst h1
          rcases hs : scanStr rest with _ | ⟨b, r2⟩
          · rw [hs] at h
            cases h
          · rw [hs] at h
            simp only [Option.map] at h
            injection h with h
            injection h with hA hB
            obtain ⟨hsp, hok⟩ := scanStr_sound hs
            refine ⟨'"' :: b ++ ['"'], ?_, ?_⟩
            · rw [← hB, hsp]
              show '"' :: (b ++ '"' :: r2) = ('"' :: b ++ ['"']) ++ r2
              rw [List.cons_append, List.cons_append, List.append_assoc]
              rfl
            · rw [← hA]
              exact Good.strG rx b hok
        · -- empty object
          subst h2
          injection h with h
          injection h with hA hB
          refine ⟨'{' :: rest.takeWhile isJsonWs ++ ['}'], ?_, ?_⟩
          · rw [← hB]
            show '{' :: rest = ('{' :: (List.takeWhile isJsonWs rest ++ ['}'])) ++ (skipWsL rest).tail
            rw [List.cons_append]
            congr 1
            calc rest = rest.takeWhile isJsonWs ++ skipWsL rest := (ws_split rest).symm
              _ = rest.takeWhile isJsonWs ++ ('}' :: (skipWsL rest).tail) := by
                  rw [← head?_shape h3]
              _ = (rest.takeWhile isJsonWs ++ ['}']) ++ (skipWsL rest).tail := by
                  rw [List.append_assoc, List.singleton_append]
          · rw [← hA]
            exact Good.objEmpty rx _ (takeWhile_all rest)
        · -- object with members
          obtain ⟨fs, inner, hv, hsp, hgf⟩ := ihF (skipWsL rest) [] v r h
          subst h2
          refine ⟨'{' :: rest.takeWhile isJsonWs ++ inner ++ ['}'], ?_, ?_⟩
          · show '{' :: rest = ('{' :: (List.takeWhile isJsonWs rest ++ inner ++ ['}'])) ++ r
            rw [List.cons_append]
            congr 1
            calc rest = rest.takeWhile isJsonWs ++ skipWsL rest := (ws_split rest).symm
              _ = rest.takeWhile isJsonWs ++ (inner ++ '}' :: r) := by rw [hsp]
              _ = (rest.takeWhile isJsonWs ++ inner ++ ['}']) ++ r := by
                  rw [List.append_assoc, List.append_assoc, List.singleton_append]
          · rw [hv]
            show Good rx (.obj fs) _
            exact Good.objOf rx fs _ inner (takeWhile_all rest) hgf
        · -- empty array
          subst h4
          injection h with h
          injection h with hA hB
          refine ⟨'[' :: rest.takeWhile isJsonWs ++ [']'], ?_, ?_⟩
          · rw [← hB]
            show '[' :: rest = ('[' :: (List.takeWhile isJsonWs rest ++ [']'])) ++ (skipWsL rest).tail
            rw [List.cons_append]
            congr 1
            calc rest = rest.takeWhile isJsonWs ++ skipWsL rest := (ws_split rest).symm
              _ = rest.takeWhile isJsonWs ++ (']' :: (skipWsL rest).tail) := by
                  rw [← head?_shape h5]
              _ = (rest.takeWhile isJsonWs ++ [']']) ++ (skipWsL rest).tail := by
                  rw [List.append_assoc, List.singleton_append]
          · rw [← hA]
            exact Good.arrEmpty rx _ (takeWhile_all rest)
        · -- array with items
          obtain ⟨vs, inner, hv, hsp, hgi⟩ := ihI (skipWsL rest) [] v r h
          subst h4
          refine ⟨'[' :: rest.takeWhile isJsonWs ++ inner ++ [']'], ?_, ?_⟩
          · show '[' :: rest = ('[' :: (List.takeWhile isJsonWs rest ++ inner ++ [']'])) ++ r
            rw [List.cons_append]
            congr 1
            calc rest = rest.takeWhile isJsonWs ++ skipWsL rest := (ws_split rest).symm
              _ = rest.takeWhile isJsonWs ++ (inner ++ ']' :: r) := by rw [hsp]
              _ = (rest.takeWhile isJsonWs ++ inner ++ [']']) ++ r := by
                  rw [List.append_assoc, List.append_assoc, List.singleton_append]
          · rw [hv]
            show Good rx (.arr vs) _
            exact Good.arrOf rx vs _ inner (takeWhile_all rest) hgi
        · -- true
          subst h6
          rw [dropLit] at h
          split_ifs at h with hst
          · simp only [Option.map] at h
            injection h with h
            injection h with hA hB
            refine ⟨("true").toList, ?_, ?_⟩
            · rw [← hB]
              have hsp := pyStartsWith_split (("rue").toList) rest hst
              show 't' :: rest = ("true").toList ++ List.drop (("rue").toList).length rest
              rw [show (("true").toList) = 't' :: ("rue").toList from rfl, List.cons_append, ← hsp]
            · rw [← hA]
              exact Good.trueG rx
          · cases h
        · -- false
          subst h7
          rw [dropLit] at h
          split_ifs at h with hst
          · simp only [Option.map] at h
            injection h with h
            injection h with hA hB
            refine ⟨("false").toList, ?_, ?_⟩
            · rw [← hB]
              have hsp := pyStartsWith_split (("alse").toList) rest hst
              show 'f' :: rest = ("false").toList ++ List.drop (("alse").toList).length rest
              rw [show (("false").toList) = 'f' :: ("alse").toList from rfl, List.cons_append, ← hsp]
            · rw [← hA]
              exact Good.falseG rx
          · cases h
        · -- null
          subst h8
          rw [dropLit] at h
          split_ifs at h with hst
          · simp only [Option.map] at h
            injection h with h
            injection h with hA hB
            refine ⟨("null").toList, ?_, ?_⟩
            · rw [← hB]
              have hsp := pyStartsWith_split (("ull").toList) rest hst
              show 'n' :: rest = ("null").toList ++ List.drop (("ull").toList).length rest
              rw [show (("null").toList) = 'n' :: ("ull").toList from rfl, List.cons_append, ← hsp]
            · rw [← hA]
              exact Good.nullG rx
          · cases h
        · -- NaN
          subst h9
          rw [dropLit] at h
          split_ifs at h with hst
          · simp only [Option.map] at h
            injection h with h
            injection h with hA hB
            refine ⟨("NaN").toList, ?_, ?_⟩
            · rw [← hB]
              have hsp := pyStartsWith_split (("aN").toList) rest hst
              show 'N' :: rest = ("NaN").toList ++ List.drop (("aN").toList).length rest
              rw [show (("NaN").toList) = 'N' :: ("aN").toList from rfl, List.cons_append, ← hsp]
            · rw [← hA]
              exact Good.nanG rx
          · cases h
        · -- Infinity
          subst h10
          rw [dropLit] at h
          split_ifs at h with hst
          · simp only [Option.map] at h
            injection h with h
            injection h with hA hB
            refine ⟨("Infinity").toList, ?_, ?_⟩
            · rw [← hB]
              have hsp := pyStartsWith_split (("nfinity").toList) rest hst
              show 'I' :: rest = ("Infinity").toList ++ List.drop (("nfinity").toList).length rest
              rw [show (("Infinity").toList) = 'I' :: ("nfinity").toList from rfl,
                List.cons_append, ← hsp]
            · rw [← hA]
              exact Good.infG rx
          · cases h
        · -- -Infinity
          obtain ⟨hc, hst⟩ := h11
          subst hc
          injection h with h
          injection h with hA hB
          refine ⟨("-Infinity").toList, ?_, ?_⟩
          · rw [← hB]
            have hsp := pyStartsWith_split (("Infinity").toList) rest hst
            show '-' :: rest = ("-Infinity").toList ++ List.drop 8 rest
            rw [show (("-Infinity").toList) = '-' :: ("Infinity").toList from rfl, List.cons_append]
            rw [show (8 : Nat) = (("Infinity").toList).length from rfl, ← hsp]
          · rw [← hA]
            exact Good.ninfG rx
        · -- number
          rcases hn : scanNum (c :: rest) with _ | ⟨lit, r2⟩
          · rw [hn] at h
            cases h
          · rw [hn] at h
            simp only [Option.map] at h
            injection h with h
            injection h with hA hB
            obtain ⟨hsp, hok⟩ := numLit_sound hn
            refine ⟨lit, ?_, ?_⟩
            · rw [← hB, hsp]
            · rw [← hA]
              exact Good.numG rx lit hok
    · -- item loop
      intro s acc v r h
      rcases hv1 : parseVal rx fuel s with _ | ⟨v1, r1⟩
      · rw [parseItems_succ_none hv1 acc] at h
        cases h
      · rw [parseItems_succ_some hv1 acc] at h
        obtain ⟨core1, hs1, hg1⟩ := ihV s v1 r1 hv1
        split_ifs at h with hc1 hc2 hc3
        · -- relaxed trailing comma before close
          obtain ⟨hrx, hcb⟩ := hc2
          subst hrx
          injection h with h
          injection h with hA hB
          refine ⟨[v1], core1 ++ r1.takeWhile isJsonWs ++
            ',' :: ((skipWsL r1).tail.takeWhile isJsonWs), ?_, ?_, ?_⟩
          · rw [← hA, List.reverse_cons]
          · rw [← hB, hs1]
            have e2 : skipWsL r1 = ',' :: (skipWsL r1).tail := head?_shape hc1
            have e4 : skipWsL (skipWsL r1).tail = ']' :: (skipWsL (skipWsL r1).tail).tail :=
              head?_shape hcb
            calc core1 ++ r1
                = core1 ++ (r1.takeWhile isJsonWs ++ (',' :: ((skipWsL r1).tail.takeWhile isJsonWs ++
                    (']' :: (skipWsL (skipWsL r1).tail).tail)))) := by
                  rw [← e4, ws_split, ← e2, ws_split]
              _ = (core1 ++ r1.takeWhile isJsonWs ++
                    ',' :: ((skipWsL r1).tail.takeWhile isJsonWs)) ++
                    ']' :: (skipWsL (skipWsL r1).tail).tail := by
                  simp only [List.cons_append, List.append_assoc]
          · exact GoodItems.lastComma v1 core1 _ _ hg1 (takeWhile_all r1) (takeWhile_all _)
        · -- comma then more items
          obtain ⟨vs2, inner2, hv2, hs2, hg2⟩ := ihI (skipWsL (skipWsL r1).tail) (v1 :: acc) v r h
          refine ⟨v1 :: vs2, core1 ++ r1.takeWhile isJsonWs ++
            ',' :: ((skipWsL r1).tail.takeWhile isJsonWs) ++ inner2, ?_, ?_, ?_⟩
          · rw [hv2]
            rw [List.reverse_cons, List.append_assoc]
            rfl
          · rw [hs1]
            have e2 : skipWsL r1 = ',' :: (skipWsL r1).tail := head?_shape hc1
            calc core1 ++ r1
                = core1 ++ (r1.takeWhile isJsonWs ++
                    (',' :: ((skipWsL r1).tail.takeWhile isJsonWs ++ (inner2 ++ ']' :: r)))) := by
                  rw [← hs2, ws_split, ← e2, ws_split]
              _ = (core1 ++ r1.takeWhile isJsonWs ++
                    ',' :: ((skipWsL r1).tail.takeWhile isJsonWs) ++ inner2) ++ ']' :: r := by
                  simp only [List.cons_append, List.append_assoc]
          · exact GoodItems.cons rx v1 vs2 core1 _ _ inner2 hg1 (takeWhile_all r1)
              (takeWhile_all _) hg2
        · -- close bracket
          injection h with h
          injection h with hA hB
          refine ⟨[v1], core1 ++ r1.takeWhile isJsonWs, ?_, ?_, ?_⟩
          · rw [← hA, List.reverse_cons]
          · rw [← hB, hs1]
            have e2 : skipWsL r1 = ']' :: (skipWsL r1).tail := head?_shape hc3
            calc core1 ++ r1
                = core1 ++ (r1.takeWhile isJsonWs ++ (']' :: (skipWsL r1).tail)) := by
                  rw [← e2, ws_split]
              _ = (core1 ++ r1.takeWhile isJsonWs) ++ ']' :: (skipWsL r1).tail := by
                  rw [List.append_assoc]
          · exact GoodItems.last rx v1 core1 _ hg1 (takeWhile_all r1)
    · -- member loop
      intro s acc v r h
      by_cases hq : s.head? = some '"'
      · rcases hk : scanStr s.tail with _ | ⟨k, r1⟩
        · rw [parseFields_succ_badkey hq hk acc] at h
          cases h
        · by_cases hcol : (skipWsL r1).head? = some ':'
          · rcases hval : parseVal rx fuel (skipWsL (skipWsL r1).tail) with _ | ⟨v1, r3⟩
            · rw [parseFields_succ_noval hq hk hcol hval acc] at h
              cases h
            · rw [parseFields_succ_val hq hk hcol hval acc] at h
              obtain ⟨core1, hs1, hg1⟩ := ihV _ v1 r3 hval
              obtain ⟨hksp, hkok⟩ := scanStr_sound hk
              have hshape : s = '"' :: k ++ '"' :: r1 := by
                rw [head?_shape hq, hksp]
                rfl
              have ecol2 : skipWsL r1 = ':' :: (skipWsL r1).tail := head?_shape hcol
              split_ifs at h with hc1 hc2 hc3
              · -- relaxed trailing comma before close
                obtain ⟨hrx, hcb⟩ := hc2
                subst hrx
                injection h with h
                injection h with hA hB
                refine ⟨[(k, v1)], '"' :: k ++ '"' :: r1.takeWhile isJsonWs ++
                  ':' :: ((skipWsL r1).tail.takeWhile isJsonWs) ++ core1 ++
                  r3.takeWhile isJsonWs ++ ',' :: ((skipWsL r3).tail.takeWhile isJsonWs),
                  ?_, ?_, ?_⟩
                · rw [← hA, List.reverse_cons]
                · rw [← hB, hshape]
                  have e2 : skipWsL r3 = ',' :: (skipWsL r3).tail := head?_shape hc1
                  have e4 : skipWsL (skipWsL r3).tail =
                      '}' :: (skipWsL (skipWsL r3).tail).tail := head?_shape hcb
                  calc '"' :: k ++ '"' :: r1
                      = '"' :: k ++ '"' :: (r1.takeWhile isJsonWs ++
                        (':' :: ((skipWsL r1).tail.takeWhile isJsonWs ++ (core1 ++
                        (r3.takeWhile isJsonWs ++ (',' :: ((skipWsL r3).tail.takeWhile isJsonWs ++
                        ('}' :: (skipWsL (skipWsL r3).tail).tail)))))))) := by
                        rw [← e4, ws_split, ← e2, ws_split, ← hs1, ws_split, ← ecol2, ws_split]
                    _ = ('"' :: k ++ '"' :: r1.takeWhile isJsonWs ++
                        ':' :: ((skipWsL r1).tail.takeWhile isJsonWs) ++ core1 ++
                        r3.takeWhile isJsonWs ++
                        ',' :: ((skipWsL r3).tail.takeWhile isJsonWs)) ++
                        '}' :: (skipWsL (skipWsL r3).tail).tail := by
                        simp only [List.cons_append, List.append_assoc]
                · exact GoodFields.lastComma k v1 _ _ core1 _ _ hkok (takeWhile_all r1)
                    (takeWhile_all _) hg1 (takeWhile_all r3) (takeWhile_all _)
              · -- comma then more members
                obtain ⟨fs2, inner2, hv2, hs2, hg2⟩ :=
                  ihF (skipWsL (skipWsL r3).tail) ((k, v1) :: acc) v r h
                refine ⟨(k, v1) :: fs2, '"' :: k ++ '"' :: r1.takeWhile isJsonWs ++
                  ':' :: ((skipWsL r1).tail.takeWhile isJsonWs) ++ core1 ++
                  r3.takeWhile isJsonWs ++ ',' :: ((skipWsL r3).tail.takeWhile isJsonWs) ++
                  inner2, ?_, ?_, ?_⟩
                · rw [hv2]
                  rw [List.reverse_cons, List.append_assoc]
                  rfl
                · rw [hshape]
                  have e2 : skipWsL r3 = ',' :: (skipWsL r3).tail := head?_shape hc1
                  calc '"' :: k ++ '"' :: r1
                      = '"' :: k ++ '"' :: (r1.takeWhile isJsonWs ++
                        (':' :: ((skipWsL r1).tail.takeWhile isJsonWs ++ (core1 ++
                        (r3.takeWhile isJsonWs ++ (',' :: ((skipWsL r3).tail.takeWhile isJsonWs ++
                        (inner2 ++ '}' :: r)))))))) := by
                        rw [← hs2, ws_split, ← e2, ws_split, ← hs1, ws_split, ← ecol2, ws_split]
                    _ = ('"' :: k ++ '"' :: r1.takeWhile isJsonWs ++
                        ':' :: ((skipWsL r1).tail.takeWhile isJsonWs) ++ core1 ++
                        r3.takeWhile isJsonWs ++
                        ',' :: ((skipWsL r3).tail.takeWhile isJsonWs) ++ inner2) ++ '}' :: r := by
                        simp only [List.cons_append, List.append_assoc]
                · exact GoodFields.cons rx k v1 fs2 _ _ core1 _ _ inner2 hkok
                    (takeWhile_all r1) (takeWhile_all _) hg1 (takeWhile_all r3)
                    (takeWhile_all _) hg2
              · -- close brace
                injection h with h
                injection h with hA hB
                refine ⟨[(k, v1)], '"' :: k ++ '"' :: r1.takeWhile isJsonWs ++
                  ':' :: ((skipWsL r1).tail.takeWhile isJsonWs) ++ core1 ++
                  r3.takeWhile isJsonWs, ?_, ?_, ?_⟩
                · rw [← hA, List.reverse_cons]
                · rw [← hB, hshape]
                  have e2 : skipWsL r3 = '}' :: (skipWsL r3).tail := head?_shape hc3
                  calc '"' :: k ++ '"' :: r1
                      = '"' :: k ++ '"' :: (r1.takeWhile isJsonWs ++
                        (':' :: ((skipWsL r1).tail.takeWhile isJsonWs ++ (core1 ++
                        (r3.takeWhile isJsonWs ++ ('}' :: (skipWsL r3).tail)))))) := by
                        rw [← e2, ws_split, ← hs1, ws_split, ← ecol2, ws_split]
                    _ = ('"' :: k ++ '"' :: r1.takeWhile isJsonWs ++
                        ':' :: ((skipWsL r1).tail.takeWhile isJsonWs) ++ core1 ++
                        r3.takeWhile isJsonWs) ++ '}' :: (skipWsL r3).tail := by
                        simp only [List.cons_append, List.append_assoc]
                · exact GoodFields.last rx k v1 _ _ core1 _ hkok (takeWhile_all r1)
                    (takeWhile_all _) hg1 (takeWhile_all r3)
          · rw [parseFields_succ_nocolon hq hk hcol acc] at h
            cases h
      · rw [parseFields_succ_notquote hq acc] at h
        cases h



theorem pyJsonParse_sound {rx : Bool} {s : List Char} {v : JVal}
    (h : pyJsonParse rx s = some v) : GoodDoc rx v s := by
  rw [pyJsonParse] at h
  rcases hp : parseVal rx (s.length + 1) (skipWsL s) with _ | ⟨v1, rest⟩
  · rw [hp] at h
    cases h
  · rw [hp] at h
    have h2 : (if skipWsL rest = [] then some v1 else none) = some v := h
    clear h
    split_ifs at h2 with hr
    · injection h2 with h2
      subst h2
      obtain ⟨core, hsp, hg⟩ := (parse_sound_aux (s.length + 1) rx).1 _ v1 rest hp
      refine ⟨s.takeWhile isJsonWs, core, rest, takeWhile_all s, ?_, hg, ?_⟩
      · rw [skipWsL] at hr
        exact all_of_dropWhile_eq_nil hr
      · calc s = s.takeWhile isJsonWs ++ skipWsL s := (ws_split s).symm
          _ = s.takeWhile isJsonWs ++ (core ++ rest) := by rw [hsp]
          _ = s.takeWhile isJsonWs ++ core ++ rest := by rw [List.append_assoc]

theorem parseRelaxed_sound {s : List Char} {v : JVal} (h : parseRelaxed s = some v) :
    GoodDoc true v s := by
  rw [parseRelaxed] at h
  exact pyJsonParse_sound h



/-! ### Rendering heads and sizes -/


theorem jsize_pos : ∀ (v : JVal), 1 ≤ jsize v := by
  intro v
  cases v <;> simp [jsize]

theorem digit_not_jsonWs {c : Char} (hd : c.isDigit = true) : isJsonWs c = false := by
  have n1 : c ≠ ' ' := char_ne_of_pred hd (by decide)
  have n2 : c ≠ '\t' := char_ne_of_pred hd (by decide)
  have n3 : c ≠ '\n' := char_ne_of_pred hd (by decide)
  have n4 : c ≠ '\r' := char_ne_of_pred hd (by decide)
  rw [isJsonWs]
  simp [n1, n2, n3, n4]

theorem delim_head {ws : List Char} (hws : wsOk ws = true) {x : Char}
    (hx : isDelim (some x) = true) (t : List Char) :
    isDelim ((ws ++ x :: t).head?) = true := by
  cases ws with
  | nil => exact hx
  | cons w ws2 =>
    rw [List.cons_append, List.head?_cons]
    rw [wsOk, List.all_cons, Bool.and_eq_true] at hws
    rw [isDelim]
    rw [hws.1]
    rfl

theorem numLit_neg_shape {cs lit v : List Char} (h : scanNum ('-' :: cs) = some (lit, v)) :
    ∃ d cs2, cs = d :: cs2 ∧ d.isDigit = true := by
  obtain ⟨ipr, f1, f2, e1, e2, hip, _, _, _, _⟩ := scanNum_eq h
  rw [scanIntPart] at hip
  rw [if_pos (by rw [List.head?_cons])] at hip
  rcases hq : scanIntPos (('-' :: cs : List Char)).tail with _ | qpr
  · rw [hq] at hip
    cases hip
  · rw [hq] at hip
    obtain ⟨d, ds, h1, h2⟩ := scanIntPos_head hq
    have hsp := scanIntPos_split hq
    refine ⟨d, ds ++ qpr.2, ?_, h2⟩
    show cs = d :: (ds ++ qpr.2)
    have : (('-' :: cs : List Char)).tail = cs := rfl
    rw [this] at hsp
    rw [hsp, h1]
    rfl

theorem digit_not_pyWs {c : Char} (hd : c.isDigit = true) : isPyWs c = false := by
  have n1 : c ≠ ' ' := char_ne_of_pred hd (by decide)
  have n2 : c ≠ '\t' := char_ne_of_pred hd (by decide)
  have n3 : c ≠ '\n' := char_ne_of_pred hd (by decide)
  have n4 : c ≠ '\r' := char_ne_of_pred hd (by decide)
  have n5 : c ≠ '\x0c' := char_ne_of_pred hd (by decide)
  have n6 : c ≠ '\x0b' := char_ne_of_pred hd (by decide)
  rw [isPyWs]
  simp [n1, n2, n3, n4, n5, n6]

theorem good_head {rx : Bool} {v : JVal} {core : List Char} (hg : Good rx v core) :
    ∃ c rest2, core = c :: rest2 ∧ isPyWs c = false ∧ isJsonWs c = false ∧
      c ≠ ',' ∧ c ≠ ']' ∧ c ≠ '}' := by
  cases hg with
  | nullG => exact ⟨'n', ("ull").toList, rfl, by decide, by decide, by decide, by decide, by decide⟩
  | trueG => exact ⟨'t', ("rue").toList, rfl, by decide, by decide, by decide, by decide, by decide⟩
  | falseG => exact ⟨'f', ("alse").toList, rfl, by decide, by decide, by decide, by decide, by decide⟩
  | numG _ lit hok =>
    obtain ⟨c, cs, h1, h2⟩ := scanNum_head (numLitOk_iff.mp hok)
    refine ⟨c, cs, h1, ?_, ?_, ?_, ?_, ?_⟩
    · rcases h2 with h2 | h2
      · subst h2
        decide
      · exact digit_not_pyWs h2
    · rcases h2 with h2 | h2
      · subst h2
        decide
      · exact digit_not_jsonWs h2
    · rcases h2 with h2 | h2
      · subst h2
        decide
      · exact char_ne_of_pred h2 (by decide)
    · rcases h2 with h2 | h2
      · subst h2
        decide
      · exact char_ne_of_pred h2 (by decide)
    · rcases h2 with h2 | h2
      · subst h2
        decide
      · exact char_ne_of_pred h2 (by decide)
  | nanG => exact ⟨'N', ("aN").toList, rfl, by decide, by decide, by decide, by decide, by decide⟩
  | infG => exact ⟨'I', ("nfinity").toList, rfl, by decide, by decide, by decide, by decide, by decide⟩
  | ninfG => exact ⟨'-', ("Infinity").toList, rfl, by decide, by decide, by decide, by decide, by decide⟩
  | strG _ body hok =>
    exact ⟨'"', body ++ ['"'], rfl, by decide, by decide, by decide, by decide, by decide⟩
  | arrEmpty _ ws hws =>
    exact ⟨'[', ws ++ [']'], rfl, by decide, by decide, by decide, by decide, by decide⟩
  | arrOf _ items ws0 inner hws hgi =>
    exact ⟨'[', ws0 ++ inner ++ [']'], rfl, by decide, by decide, by decide, by decide, by decide⟩
  | objEmpty _ ws hws =>
    exact ⟨'{', ws ++ ['}'], rfl, by decide, by decide, by decide, by decide, by decide⟩
  | objOf _ fields ws0 inner hws hgf =>
    exact ⟨'{', ws0 ++ inner ++ ['}'], rfl, by decide, by decide, by decide, by decide, by decide⟩

theorem goodItems_head {rx : Bool} {vs : List JVal} {inner : List Char}
    (hgi : GoodItems rx vs inner) :
    ∃ c rest2, inner = c :: rest2 ∧ isPyWs c = false ∧ isJsonWs c = false ∧
      c ≠ ',' ∧ c ≠ ']' ∧ c ≠ '}' := by
  cases hgi with
  | last _ v s ws hg hws =>
    obtain ⟨c, rest2, h1, h2a, h2, h3, h4, h5⟩ := good_head hg
    exact ⟨c, rest2 ++ ws, by rw [h1]; rfl, h2a, h2, h3, h4, h5⟩
  | lastComma v s ws1 ws2 hg hws1 hws2 =>
    obtain ⟨c, rest2, h1, h2a, h2, h3, h4, h5⟩ := good_head hg
    exact ⟨c, rest2 ++ ws1 ++ ',' :: ws2, by rw [h1]; simp [List.cons_append, List.append_assoc],
      h2a, h2, h3, h4, h5⟩
  | cons _ v vs s ws1 ws2 rest hg hws1 hws2 hrest =>
    obtain ⟨c, rest2, h1, h2a, h2, h3, h4, h5⟩ := good_head hg
    exact ⟨c, rest2 ++ ws1 ++ ',' :: ws2 ++ rest,
      by rw [h1]; simp [List.cons_append, List.append_assoc], h2a, h2, h3, h4, h5⟩

theorem goodFields_head {rx : Bool} {fs : List (List Char × JVal)} {inner : List Char}
    (hgf : GoodFields rx fs inner) :
    ∃ rest2, inner = '"' :: rest2 := by
  cases hgf with
  | last _ k v ws1 ws2 s ws3 h1 h2 h3 h4 h5 => exact ⟨_, rfl⟩
  | lastComma k v ws1 ws2 s ws3 ws4 h1 h2 h3 h4 h5 h6 => exact ⟨_, rfl⟩
  | cons _ k v fs2 ws1 ws2 s ws3 ws4 rest h1 h2 h3 h4 h5 h6 h7 => exact ⟨_, rfl⟩

theorem good_size : ∀ (n : Nat) (rx : Bool),
    (∀ v core, jsize v ≤ n → Good rx v core → jsize v ≤ core.length) ∧
    (∀ vs inner, jsizeL vs ≤ n → GoodItems rx vs inner → jsizeL vs ≤ inner.length + 1) ∧
    (∀ fs inner, jsizeF fs ≤ n → GoodFields rx fs inner → jsizeF fs ≤ inner.length + 1) := by
  intro n
  induction n with
  | zero =>
    intro rx
    refine ⟨?_, ?_, ?_⟩
    · intro v core hsz _
      exact absurd (le_trans (jsize_pos v) hsz) (by omega)
    · intro vs inner hsz hgi
      cases hgi <;> rw [jsizeL] at hsz <;> omega
    · intro fs inner hsz hgf
      cases hgf <;> rw [jsizeF] at hsz <;> omega
  | succ n ih =>
    intro rx
    obtain ⟨ihV, ihI, ihF⟩ := ih rx
    refine ⟨?_, ?_, ?_⟩
    · intro v core hsz hg
      cases hg with
      | nullG =>
        rw [show jsize JVal.null = 1 from by simp [jsize]]
        decide
      | trueG =>
        rw [show jsize (JVal.bool true) = 1 from by simp [jsize]]
        decide
      | falseG =>
        rw [show jsize (JVal.bool false) = 1 from by simp [jsize]]
        decide
      | numG =>
        rename_i hok
        obtain ⟨c, cs, h1, _⟩ := scanNum_head (numLitOk_iff.mp hok)
        simp [jsize, h1]
      | nanG =>
        rw [show jsize (JVal.num (("NaN").toList)) = 1 from by simp [jsize]]
        decide
      | infG =>
        rw [show jsize (JVal.num (("Infinity").toList)) = 1 from by simp [jsize]]
        decide
      | ninfG =>
        rw [show jsize (JVal.num (("-Infinity").toList)) = 1 from by simp [jsize]]
        decide
      | strG _ body hok =>
        rw [show jsize (JVal.str body) = 1 from by simp [jsize]]
        simp
      | arrEmpty _ ws hws =>
        rw [jsize, jsizeL]
        simp
      | arrOf _ items ws0 inner hws hgi =>
        rw [jsize] at hsz ⊢
        have hin := ihI items inner (by omega) hgi
        simp only [List.length_cons, List.length_append]
        omega
      | objEmpty _ ws hws =>
        rw [jsize, jsizeF]
        simp
      | objOf _ fields ws0 inner hws hgf =>
        rw [jsize] at hsz ⊢
        have hin := ihF fields inner (by omega) hgf
        simp only [List.length_cons, List.length_append]
        omega
    · intro vs inner hsz hgi
      cases hgi with
      | last _ v s ws hg hws =>
        rw [jsizeL, jsizeL] at hsz ⊢
        have hv := ihV v s (by have := jsize_pos v; omega) hg
        simp only [List.length_append]
        omega
      | lastComma v s ws1 ws2 hg hws1 hws2 =>
        rw [jsizeL, jsizeL] at hsz ⊢
        have hv := ihV v s (by have := jsize_pos v; omega) hg
        simp only [List.length_append, List.length_cons]
        omega
      | cons _ v vs2 s ws1 ws2 rest hg hws1 hws2 hrest =>
        rw [jsizeL] at hsz ⊢
        have hv := ihV v s (by have := jsize_pos v; omega) hg
        have hr := ihI vs2 rest (by have := jsize_pos v; omega) hrest
        simp only [List.length_append, List.length_cons]
        omega
    · intro fs inner hsz hgf
      cases hgf with
      | last _ k v ws1 ws2 s ws3 h1 h2 h3 hg h5 =>
        rw [jsizeF, jsizeF] at hsz ⊢
        have hv := ihV v s (by have := jsize_pos v; omega) hg
        simp only [List.length_append, List.length_cons]
        omega
      | lastComma k v ws1 ws2 s ws3 ws4 h1 h2 h3 hg h5 h6 =>
        rw [jsizeF, jsizeF] at hsz ⊢
        have hv := ihV v s (by have := jsize_pos v; omega) hg
        simp only [List.length_append, List.length_cons]
        omega
      | cons _ k v fs2 ws1 ws2 s ws3 ws4 rest h1 h2 h3 hg h5 h6 hrest =>
        rw [jsizeF] at hsz ⊢
        have hv := ihV v s (by have := jsize_pos v; omega) hg
        have hr := ihF fs2 rest (by have := jsize_pos v; omega) hrest
        simp only [List.length_append, List.length_cons]
        omega



/-! ### Parser completeness -/


theorem parse_complete_aux : ∀ (fuel : Nat),
    (∀ v core, Good false v core → jsize v ≤ fuel → ∀ t, isDelim t.head? = true →
      parseVal false fuel (core ++ t) = some (v, t)) ∧
    (∀ vs inner, GoodItems false vs inner → jsizeL vs ≤ fuel → ∀ acc t,
      parseItems false fuel (inner ++ ']' :: t) acc = some (.arr (acc.reverse ++ vs), t)) ∧
    (∀ fs inner, GoodFields false fs inner → jsizeF fs ≤ fuel → ∀ acc t,
      parseFields false fuel (inner ++ '}' :: t) acc = some (.obj (acc.reverse ++ fs), t)) := by
  intro fuel
  induction fuel with
  | zero =>
    refine ⟨?_, ?_, ?_⟩
    · intro v core _ hsz
      have := jsize_pos v
      omega
    · intro vs inner hgi hsz
      cases hgi <;> rw [jsizeL] at hsz <;> omega
    · intro fs inner hgf hsz
      cases hgf <;> rw [jsizeF] at hsz <;> omega
  | succ fuel ih =>
    obtain ⟨ihV, ihI, ihF⟩ := ih
    refine ⟨?_, ?_, ?_⟩
    · -- values
      intro v core hg
      cases hg with
      | nullG =>
        intro hsz t ht
        rw [show (("null").toList) ++ t = 'n' :: ((("ull").toList) ++ t) from rfl]
        rw [parseVal_succ_cons]
        rw [if_neg (by decide), if_neg (by decide), if_neg (by decide), if_neg (by decide),
          if_neg (by decide), if_pos rfl]
        rw [dropLit, if_pos (pyStartsWith_append_self _ _)]
        simp only [Option.map]
        rw [List.drop_left]
      | trueG =>
        intro hsz t ht
        rw [show (("true").toList) ++ t = 't' :: ((("rue").toList) ++ t) from rfl]
        rw [parseVal_succ_cons]
        rw [if_neg (by decide), if_neg (by decide), if_neg (by decide), if_pos rfl]
        rw [dropLit, if_pos (pyStartsWith_append_self _ _)]
        simp only [Option.map]
        rw [List.drop_left]
      | falseG =>
        intro hsz t ht
        rw [show (("false").toList) ++ t = 'f' :: ((("alse").toList) ++ t) from rfl]
        rw [parseVal_succ_cons]
        rw [if_neg (by decide), if_neg (by decide), if_neg (by decide), if_neg (by decide),
          if_pos rfl]
        rw [dropLit, if_pos (pyStartsWith_append_self _ _)]
        simp only [Option.map]
        rw [List.drop_left]
      | nanG =>
        intro hsz t ht
        rw [show (("NaN").toList) ++ t = 'N' :: ((("aN").toList) ++ t) from rfl]
        rw [parseVal_succ_cons]
        rw [if_neg (by decide), if_neg (by decide), if_neg (by decide), if_neg (by decide),
          if_neg (by decide), if_neg (by decide), if_pos rfl]
        rw [dropLit, if_pos (pyStartsWith_append_self _ _)]
        simp only [Option.map]
        rw [List.drop_left]
      | infG =>
        intro hsz t ht
        rw [show (("Infinity").toList) ++ t = 'I' :: ((("nfinity").toList) ++ t) from rfl]
        rw [parseVal_succ_cons]
        rw [if_neg (by decide), if_neg (by decide), if_neg (by decide), if_neg (by decide),
          if_neg (by decide), if_neg (by decide), if_neg (by decide), if_pos rfl]
        rw [dropLit, if_pos (pyStartsWith_append_self _ _)]
        simp only [Option.map]
        rw [List.drop_left]
      | ninfG =>
        intro hsz t ht
        rw [show (("-Infinity").toList) ++ t = '-' :: ((("Infinity").toList) ++ t) from rfl]
        rw [parseVal_succ_cons]
        rw [if_neg (by decide), if_neg (by decide), if_neg (by decide), if_neg (by decide),
          if_neg (by decide), if_neg (by decide), if_neg (by decide), if_neg (by decide),
          if_pos ⟨rfl, pyStartsWith_append_self _ _⟩]
        rw [show (8 : Nat) = ((("Infinity").toList)).length from rfl, List.drop_left]
      | numG =>
        rename_i hok
        intro hsz t ht
        obtain ⟨c, cs, hlit, hc2⟩ := scanNum_head (numLitOk_iff.mp hok)
        rw [hlit] at hok ⊢
        rw [show (c :: cs) ++ t = c :: (cs ++ t) from rfl]
        rw [parseVal_succ_cons]
        rcases hc2 with hc2 | hc2
        · subst hc2
          rw [if_neg (by decide), if_neg (by decide), if_neg (by decide), if_neg (by decide),
            if_neg (by decide), if_neg (by decide), if_neg (by decide), if_neg (by decide)]
          obtain ⟨d, cs2, hcs, hd⟩ := numLit_neg_shape (numLitOk_iff.mp hok)
          rw [if_neg (by
            rintro ⟨_, hpf⟩
            rw [hcs, List.cons_append] at hpf
            rw [show (("Infinity").toList) = 'I' :: ("nfinity").toList from rfl] at hpf
            rw [pyStartsWith_false_of_head _ _ (char_ne_of_pred hd (by decide))] at hpf
            cases hpf)]
          rw [show '-' :: (cs ++ t) = ('-' :: cs) ++ t from rfl]
          rw [numLit_complete hok t ht]
          rfl
        · rw [if_neg (char_ne_of_pred hc2 (by decide)),
            if_neg (char_ne_of_pred hc2 (by decide)),
            if_neg (char_ne_of_pred hc2 (by decide)),
            if_neg (char_ne_of_pred hc2 (by decide)),
            if_neg (char_ne_of_pred hc2 (by decide)),
            if_neg (char_ne_of_pred hc2 (by decide)),
            if_neg (char_ne_of_pred hc2 (by decide)),
            if_neg (char_ne_of_pred hc2 (by decide))]
          rw [if_neg (by
            rintro ⟨hcon, _⟩
            exact absurd hcon (char_ne_of_pred hc2 (by decide)))]
          rw [show c :: (cs ++ t) = (c :: cs) ++ t from rfl]
          rw [numLit_complete hok t ht]
          rfl
      | strG =>
        rename_i body hok
        intro hsz t ht
        rw [show ('"' :: body ++ ['"']) ++ t = '"' :: (body ++ '"' :: t) from by simp]
        rw [parseVal_succ_cons, if_pos rfl]
        rw [scanStr_complete hok t]
        rfl
      | arrEmpty =>
        rename_i ws hws
        intro hsz t ht
        rw [show ('[' :: ws ++ [']']) ++ t = '[' :: (ws ++ ']' :: t) from by simp]
        rw [parseVal_succ_cons]
        rw [if_neg (by decide), if_neg (by decide), if_pos rfl]
        have hskip : skipWsL (ws ++ ']' :: t) = ']' :: t := by
          rw [skipWsL, dropWhile_append_all hws, dropWhile_cons_neg (by decide)]
        rw [hskip, if_pos List.head?_cons]
        rfl
      | arrOf =>
        rename_i items ws0 inner hws hgi
        intro hsz t ht
        rw [show ('[' :: ws0 ++ inner ++ [']']) ++ t = '[' :: (ws0 ++ (inner ++ ']' :: t))
          from by simp]
        rw [parseVal_succ_cons]
        rw [if_neg (by decide), if_neg (by decide), if_pos rfl]
        obtain ⟨hc, hrest2, hin, _, hnw, hncm, hnbk, hnbc⟩ := goodItems_head hgi
        have hskip : skipWsL (ws0 ++ (inner ++ ']' :: t)) = inner ++ ']' :: t := by
          rw [skipWsL, dropWhile_append_all hws, hin, List.cons_append,
            dropWhile_cons_neg hnw, ← List.cons_append, ← hin]
        rw [hskip]
        rw [if_neg (by
          rw [hin, List.cons_append, List.head?_cons]
          intro hcon
          rw [Option.some_inj] at hcon
          exact hnbk hcon)]
        rw [jsize] at hsz
        exact ihI items inner hgi (by omega) [] t
      | objEmpty =>
        rename_i ws hws
        intro hsz t ht
        rw [show ('{' :: ws ++ ['}']) ++ t = '{' :: (ws ++ '}' :: t) from by simp]
        rw [parseVal_succ_cons]
        rw [if_neg (by decide), if_pos rfl]
        have hskip : skipWsL (ws ++ '}' :: t) = '}' :: t := by
          rw [skipWsL, dropWhile_append_all hws, dropWhile_cons_neg (by decide)]
        rw [hskip, if_pos List.head?_cons]
        rfl
      | objOf =>
        rename_i fields ws0 inner hws hgf
        intro hsz t ht
        rw [show ('{' :: ws0 ++ inner ++ ['}']) ++ t = '{' :: (ws0 ++ (inner ++ '}' :: t))
          from by simp]
        rw [parseVal_succ_cons]
        rw [if_neg (by decide), if_pos rfl]
        obtain ⟨rest2, hin⟩ := goodFields_head hgf
        have hskip : skipWsL (ws0 ++ (inner ++ '}' :: t)) = inner ++ '}' :: t := by
          rw [skipWsL, dropWhile_append_all hws, hin, List.cons_append,
            dropWhile_cons_neg (by decide), ← List.cons_append, ← hin]
        rw [hskip]
        rw [if_neg (by
          rw [hin, List.cons_append, List.head?_cons]
          intro hcon
          rw [Option.some_inj] at hcon
          cases hcon)]
        rw [jsize] at hsz
        exact ihF fields inner hgf (by omega) [] t
    · -- item loop
      intro vs inner hgi
      cases hgi with
      | last =>
        rename_i v s ws hws hg
        intro hsz acc t
        rw [jsizeL, jsizeL] at hsz
        rw [show (s ++ ws) ++ ']' :: t = s ++ (ws ++ ']' :: t) from by
          rw [List.append_assoc]]
        have hpv := ihV v s hg (by have := jsize_pos v; omega) (ws ++ ']' :: t)
          (delim_head hws (by decide) t)
        rw [parseItems_succ_some hpv acc]
        have hskip : skipWsL (ws ++ ']' :: t) = ']' :: t := by
          rw [skipWsL, dropWhile_append_all hws, dropWhile_cons_neg (by decide)]
        rw [hskip]
        rw [if_neg (by
          rw [List.head?_cons]
          intro hcon
          rw [Option.some_inj] at hcon
          cases hcon)]
        rw [if_pos List.head?_cons]
        rw [List.reverse_cons]
        rfl
      | cons =>
        rename_i v vs2 s ws1 ws2 rest hws1 hws2 hg hgrest
        intro hsz acc t
        rw [jsizeL] at hsz
        rw [show (s ++ ws1 ++ ',' :: ws2 ++ rest) ++ ']' :: t =
            s ++ (ws1 ++ ',' :: (ws2 ++ (rest ++ ']' :: t))) from by
          simp]
        have hpv := ihV v s hg (by have := jsize_pos v; omega)
          (ws1 ++ ',' :: (ws2 ++ (rest ++ ']' :: t)))
          (delim_head hws1 (show isDelim (some ',') = true from by decide) _)
        rw [parseItems_succ_some hpv acc]
        have hskip1 : skipWsL (ws1 ++ ',' :: (ws2 ++ (rest ++ ']' :: t))) =
            ',' :: (ws2 ++ (rest ++ ']' :: t)) := by
          rw [skipWsL, dropWhile_append_all hws1, dropWhile_cons_neg (by decide)]
        rw [hskip1]
        rw [if_pos List.head?_cons]
        rw [if_neg (by
          rintro ⟨hfalse, _⟩
          cases hfalse)]
        have hskip2 : skipWsL (ws2 ++ (rest ++ ']' :: t)) = rest ++ ']' :: t := by
          obtain ⟨hc, hrest2, hin, _, hnw, _, _, _⟩ := goodItems_head hgrest
          rw [skipWsL, dropWhile_append_all hws2, hin, List.cons_append,
            dropWhile_cons_neg hnw, ← List.cons_append, ← hin]
        rw [show ((',' :: (ws2 ++ (rest ++ ']' :: t)) : List Char)).tail =
          ws2 ++ (rest ++ ']' :: t) from rfl]
        rw [hskip2]
        rw [ihI vs2 rest hgrest (by have := jsize_pos v; omega) (v :: acc) t]
        rw [List.reverse_cons, List.append_assoc]
        rfl
    · -- member loop
      intro fs inner hgf
      cases hgf with
      | last =>
        rename_i k v ws1 ws2 s ws3 hbk hw1 hw2 hw3 hg
        intro hsz acc t
        rw [jsizeF, jsizeF] at hsz
        rw [show ('"' :: k ++ '"' :: ws1 ++ ':' :: ws2 ++ s ++ ws3) ++ '}' :: t =
            '"' :: (k ++ '"' :: (ws1 ++ ':' :: (ws2 ++ (s ++ (ws3 ++ '}' :: t))))) from by
          simp]
        have hq : (('"' :: (k ++ '"' :: (ws1 ++ ':' :: (ws2 ++ (s ++ (ws3 ++ '}' :: t)))))) :
            List Char).head? = some '"' := rfl
        have hk : scanStr (('"' :: (k ++ '"' :: (ws1 ++ ':' :: (ws2 ++ (s ++ (ws3 ++ '}' :: t)))))) :
            List Char).tail = some (k, ws1 ++ ':' :: (ws2 ++ (s ++ (ws3 ++ '}' :: t)))) := by
          rw [List.tail_cons]
          exact scanStr_complete hbk _
        have hc : (skipWsL (ws1 ++ ':' :: (ws2 ++ (s ++ (ws3 ++ '}' :: t))))).head? = some ':' := by
          rw [skipWsL, dropWhile_append_all hw1, dropWhile_cons_neg (by decide), List.head?_cons]
        have hskipc : skipWsL (ws1 ++ ':' :: (ws2 ++ (s ++ (ws3 ++ '}' :: t)))) =
            ':' :: (ws2 ++ (s ++ (ws3 ++ '}' :: t))) := by
          rw [skipWsL, dropWhile_append_all hw1, dropWhile_cons_neg (by decide)]
        have hskip2 : skipWsL (ws2 ++ (s ++ (ws3 ++ '}' :: t))) = s ++ (ws3 ++ '}' :: t) := by
          obtain ⟨hcx, hrest2, hin, _, hnw, _, _, _⟩ := good_head hg
          rw [skipWsL, dropWhile_append_all hw2, hin, List.cons_append,
            dropWhile_cons_neg hnw, ← List.cons_append, ← hin]
        have hpv : parseVal false fuel
            (skipWsL ((skipWsL (ws1 ++ ':' :: (ws2 ++ (s ++ (ws3 ++ '}' :: t))))).tail)) =
            some (v, ws3 ++ '}' :: t) := by
          rw [hskipc, List.tail_cons, hskip2]
          exact ihV v s hg (by have := jsize_pos v; omega) (ws3 ++ '}' :: t)
            (delim_head hw3 (by decide) t)
        rw [parseFields_succ_val hq hk hc hpv acc]
        have hskip3 : skipWsL (ws3 ++ '}' :: t) = '}' :: t := by
          rw [skipWsL, dropWhile_append_all hw3, dropWhile_cons_neg (by decide)]
        rw [hskip3]
        rw [if_neg (by
          rw [List.head?_cons]
          intro hcon
          rw [Option.some_inj] at hcon
          cases hcon)]
        rw [if_pos List.head?_cons]
        rw [List.reverse_cons]
        rfl
      | cons =>
        rename_i k v fs2 ws1 ws2 s ws3 ws4 rest hbk hw1 hw2 hw3 hw4 hg hrest
        intro hsz acc t
        rw [jsizeF] at hsz
        rw [show ('"' :: k ++ '"' :: ws1 ++ ':' :: ws2 ++ s ++ ws3 ++ ',' :: ws4 ++ rest) ++
            '}' :: t =
            '"' :: (k ++ '"' :: (ws1 ++ ':' :: (ws2 ++ (s ++ (ws3 ++ ',' ::
              (ws4 ++ (rest ++ '}' :: t))))))) from by
          simp]
        have hq : (('"' :: (k ++ '"' :: (ws1 ++ ':' :: (ws2 ++ (s ++ (ws3 ++ ',' ::
            (ws4 ++ (rest ++ '}' :: t)))))))) : List Char).head? = some '"' := rfl
        have hk : scanStr (('"' :: (k ++ '"' :: (ws1 ++ ':' :: (ws2 ++ (s ++ (ws3 ++ ',' ::
            (ws4 ++ (rest ++ '}' :: t)))))))) : List Char).tail =
            some (k, ws1 ++ ':' :: (ws2 ++ (s ++ (ws3 ++ ',' ::
              (ws4 ++ (rest ++ '}' :: t)))))) := by
          rw [List.tail_cons]
          exact scanStr_complete hbk _
        have hc : (skipWsL (ws1 ++ ':' :: (ws2 ++ (s ++ (ws3 ++ ',' ::
            (ws4 ++ (rest ++ '}' :: t))))))).head? = some ':' := by
          rw [skipWsL, dropWhile_append_all hw1, dropWhile_cons_neg (by decide), List.head?_cons]
        have hskipc : skipWsL (ws1 ++ ':' :: (ws2 ++ (s ++ (ws3 ++ ',' ::
            (ws4 ++ (rest ++ '}' :: t)))))) =
            ':' :: (ws2 ++ (s ++ (ws3 ++ ',' :: (ws4 ++ (rest ++ '}' :: t))))) := by
          rw [skipWsL, dropWhile_append_all hw1, dropWhile_cons_neg (by decide)]
        have hskip2 : skipWsL (ws2 ++ (s ++ (ws3 ++ ',' :: (ws4 ++ (rest ++ '}' :: t))))) =
            s ++ (ws3 ++ ',' :: (ws4 ++ (rest ++ '}' :: t))) := by
          obtain ⟨hcx, hrest2, hin, _, hnw, _, _, _⟩ := good_head hg
          rw [skipWsL, dropWhile_append_all hw2, hin, List.cons_append,
            dropWhile_cons_neg hnw, ← List.cons_append, ← hin]
        have hpv : parseVal false fuel
            (skipWsL ((skipWsL (ws1 ++ ':' :: (ws2 ++ (s ++ (ws3 ++ ',' ::
              (ws4 ++ (rest ++ '}' :: t))))))).tail)) =
            some (v, ws3 ++ ',' :: (ws4 ++ (rest ++ '}' :: t))) := by
          rw [hskipc, List.tail_cons, hskip2]
          exact ihV v s hg (by have := jsize_pos v; omega) _
            (delim_head hw3 (show isDelim (some ',') = true from by decide) _)
        rw [parseFields_succ_val hq hk hc hpv acc]
        have hskip3 : skipWsL (ws3 ++ ',' :: (ws4 ++ (rest ++ '}' :: t))) =
            ',' :: (ws4 ++ (rest ++ '}' :: t)) := by
          rw [skipWsL, dropWhile_append_all hw3, dropWhile_cons_neg (by decide)]
        rw [hskip3]
        rw [if_pos List.head?_cons]
        rw [if_neg (by
          rintro ⟨hfalse, _⟩
          cases hfalse)]
        have hskip4 : skipWsL (ws4 ++ (rest ++ '}' :: t)) = rest ++ '}' :: t := by
          obtain ⟨hrest2, hin⟩ := goodFields_head hrest
          rw [skipWsL, dropWhile_append_all hw4, hin, List.cons_append,
            dropWhile_cons_neg (by decide), ← List.cons_append, ← hin]
        rw [show ((',' :: (ws4 ++ (rest ++ '}' :: t)) : List Char)).tail =
          ws4 ++ (rest ++ '}' :: t) from rfl]
        rw [hskip4]
        rw [ihF fs2 rest hrest (by have := jsize_pos v; omega) ((k, v) :: acc) t]
        rw [List.reverse_cons, List.append_assoc]
        rfl



theorem wsOk_delim {ws : List Char} (h : wsOk ws = true) : isDelim ws.head? = true := by
  cases ws with
  | nil => rfl
  | cons w ws2 =>
    rw [wsOk, List.all_cons, Bool.and_eq_true] at h
    rw [List.head?_cons, isDelim, h.1]
    rfl

theorem goodDoc_complete {v : JVal} {s : List Char} (h : GoodDoc false v s) :
    pyJsonParse false s = some v := by
  obtain ⟨wsA, core, wsZ, hwa, hwz, hg, hs⟩ := h
  rw [pyJsonParse]
  obtain ⟨c, rest2, hin, _, hnw, _, _, _⟩ := good_head hg
  have hskip : skipWsL s = core ++ wsZ := by
    rw [hs, skipWsL, List.append_assoc, dropWhile_append_all hwa]
    rw [hin, List.cons_append, dropWhile_cons_neg hnw, ← List.cons_append, ← hin]
  have hsize : jsize v ≤ s.length + 1 := by
    have h1 := (good_size (jsize v) false).1 v core le_rfl hg
    have h2 : core.length ≤ s.length := by
      rw [hs, List.length_append, List.length_append]
      omega
    omega
  have hpv := (parse_complete_aux (s.length + 1)).1 v core hg hsize wsZ (wsOk_delim hwz)
  rw [hskip, hpv]
  show (if skipWsL wsZ = [] then some v else none) = some v
  rw [if_pos (by
    rw [skipWsL]
    exact dropWhile_eq_nil_of_all hwz)]



/-! ### Strip-commute: the relaxed dialect survives the comma strip -/


theorem wsStrip : ∀ {ws : List Char}, ws.all isJsonWs = true →
    ∀ X, stripCommas (ws ++ X) = ws ++ stripCommas X := by
  intro ws
  induction ws with
  | nil => intro _ X; rfl
  | cons w ws2 ih =>
    intro h X
    rw [List.all_cons, Bool.and_eq_true] at h
    have hw : w ≠ ',' := char_ne_of_pred h.1 (by decide)
    rw [List.cons_append, stripCommas_cons_nc _ hw, ih h.2 X]
    rfl

theorem noCW_str (b : List Char) : noCWBodies (.str b) = !hasCWPat b := rfl

theorem noCW_arr (xs : List JVal) :
    noCWBodies (.arr xs) = bodyAllL (fun b => !hasCWPat b) xs := rfl

theorem noCW_obj (fs : List (List Char × JVal)) :
    noCWBodies (.obj fs) = bodyAllF (fun b => !hasCWPat b) fs := rfl

theorem bodyAllL_cons (p : List Char → Bool) (x : JVal) (xs : List JVal) :
    bodyAllL p (x :: xs) = (bodyAll p x && bodyAllL p xs) := rfl

theorem bodyAllF_cons (p : List Char → Bool) (k : List Char) (v : JVal)
    (fs : List (List Char × JVal)) :
    bodyAllF p ((k, v) :: fs) = (p k && bodyAll p v && bodyAllF p fs) := rfl

theorem noCWBodies_eq_bodyAll (v : JVal) :
    noCWBodies v = bodyAll (fun b => !hasCWPat b) v := rfl



theorem strip_good_aux : ∀ (n : Nat),
    (∀ v core, Good true v core → jsize v ≤ n → noCWBodies v = true →
      Good false v (stripCommas core) ∧
      ∀ u, stripCommas (core ++ u) = stripCommas core ++ stripCommas u) ∧
    (∀ vs inner, GoodItems true vs inner → jsizeL vs ≤ n →
      bodyAllL (fun b => !hasCWPat b) vs = true →
      ∃ inner2, GoodItems false vs inner2 ∧
        ∀ u, stripCommas (inner ++ ']' :: u) = inner2 ++ ']' :: stripCommas u) ∧
    (∀ fs inner, GoodFields true fs inner → jsizeF fs ≤ n →
      bodyAllF (fun b => !hasCWPat b) fs = true →
      ∃ inner2, GoodFields false fs inner2 ∧
        ∀ u, stripCommas (inner ++ '}' :: u) = inner2 ++ '}' :: stripCommas u) := by
  intro n
  induction n with
  | zero =>
    refine ⟨?_, ?_, ?_⟩
    · intro v core _ hsz
      have := jsize_pos v
      omega
    · intro vs inner hgi hsz
      cases hgi <;> rw [jsizeL] at hsz <;> omega
    · intro fs inner hgf hsz
      cases hgf <;> rw [jsizeF] at hsz <;> omega
  | succ n ih =>
    obtain ⟨ihV, ihI, ihF⟩ := ih
    refine ⟨?_, ?_, ?_⟩
    · -- values
      intro v core hg
      cases hg with
      | nullG =>
        intro hsz hcw
        have hnc : ',' ∉ ("null").toList := by decide
        refine ⟨?_, fun u => stripCommas_append (noDangling_of_no_comma hnc) u⟩
        rw [stripCommas_no_comma hnc]
        exact Good.nullG false
      | trueG =>
        intro hsz hcw
        have hnc : ',' ∉ ("true").toList := by decide
        refine ⟨?_, fun u => stripCommas_append (noDangling_of_no_comma hnc) u⟩
        rw [stripCommas_no_comma hnc]
        exact Good.trueG false
      | falseG =>
        intro hsz hcw
        have hnc : ',' ∉ ("false").toList := by decide
        refine ⟨?_, fun u => stripCommas_append (noDangling_of_no_comma hnc) u⟩
        rw [stripCommas_no_comma hnc]
        exact Good.falseG false
      | nanG =>
        intro hsz hcw
        have hnc : ',' ∉ ("NaN").toList := by decide
        refine ⟨?_, fun u => stripCommas_append (noDangling_of_no_comma hnc) u⟩
        rw [stripCommas_no_comma hnc]
        exact Good.nanG false
      | infG =>
        intro hsz hcw
        have hnc : ',' ∉ ("Infinity").toList := by decide
        refine ⟨?_, fun u => stripCommas_append (noDangling_of_no_comma hnc) u⟩
        rw [stripCommas_no_comma hnc]
        exact Good.infG false
      | ninfG =>
        intro hsz hcw
        have hnc : ',' ∉ ("-Infinity").toList := by decide
        refine ⟨?_, fun u => stripCommas_append (noDangling_of_no_comma hnc) u⟩
        rw [stripCommas_no_comma hnc]
        exact Good.ninfG false
      | numG =>
        rename_i hok
        intro hsz hcw
        have hnc := numChar_no_comma (scanNum_chars (numLitOk_iff.mp hok))
        refine ⟨?_, fun u => stripCommas_append (noDangling_of_no_comma hnc) u⟩
        rw [stripCommas_no_comma hnc]
        exact Good.numG false _ hok
      | strG =>
        rename_i body hok
        intro hsz hcw
        have hcwb : hasCWPat body = false := by
          have : (!hasCWPat body) = true := hcw
          simpa using this
        have hstrip : stripCommas ('"' :: body ++ ['"']) = '"' :: body ++ ['"'] := by
          rw [show ('"' :: body ++ ['"'] : List Char) = '"' :: (body ++ '"' :: []) from rfl]
          rw [stripCommas_cons_nc _ (by decide)]
          rw [stripCommas_pass hcwb [] (by decide) (by decide) (by decide)]
          rw [stripCommas_cons_nc _ (by decide), stripCommas_nil]
        refine ⟨by rw [hstrip]; exact Good.strG false body hok, ?_⟩
        exact fun u =>
          stripCommas_append (noDangling_concat (by decide) (by decide) ('"' :: body)) u
      | arrEmpty =>
        rename_i ws hws
        intro hsz hcw
        have hstrip : stripCommas ('[' :: ws ++ [']']) = '[' :: ws ++ [']'] := by
          rw [show ('[' :: ws ++ [']'] : List Char) = '[' :: (ws ++ ']' :: []) from rfl]
          rw [stripCommas_cons_nc _ (by decide), wsStrip hws,
            stripCommas_cons_nc _ (by decide), stripCommas_nil]
        refine ⟨by rw [hstrip]; exact Good.arrEmpty false ws hws, ?_⟩
        exact fun u =>
          stripCommas_append (noDangling_concat (by decide) (by decide) ('[' :: ws)) u
      | arrOf =>
        rename_i items ws0 inner hws hgi
        intro hsz hcw
        have hcwl : bodyAllL (fun b => !hasCWPat b) items = true := hcw
        rw [jsize] at hsz
        obtain ⟨inner2, hgi2, hstripI⟩ := ihI items inner hgi (by omega) hcwl
        refine ⟨?_, ?_⟩
        · have hstrip : stripCommas ('[' :: ws0 ++ inner ++ [']']) =
              '[' :: ws0 ++ inner2 ++ [']'] := by
            rw [show ('[' :: ws0 ++ inner ++ [']'] : List Char) =
              '[' :: (ws0 ++ (inner ++ ']' :: [])) from by simp]
            rw [stripCommas_cons_nc _ (by decide), wsStrip hws, hstripI [], stripCommas_nil]
            simp
          rw [hstrip]
          exact Good.arrOf false items ws0 inner2 hws hgi2
        · exact fun u =>
            stripCommas_append
              (noDangling_concat (by decide) (by decide) ('[' :: (ws0 ++ inner))) u
      | objEmpty =>
        rename_i ws hws
        intro hsz hcw
        have hstrip : stripCommas ('{' :: ws ++ ['}']) = '{' :: ws ++ ['}'] := by
          rw [show ('{' :: ws ++ ['}'] : List Char) = '{' :: (ws ++ '}' :: []) from rfl]
          rw [stripCommas_cons_nc _ (by decide), wsStrip hws,
            stripCommas_cons_nc _ (by decide), stripCommas_nil]
        refine ⟨by rw [hstrip]; exact Good.objEmpty false ws hws, ?_⟩
        exact fun u =>
          stripCommas_append (noDangling_concat (by decide) (by decide) ('{' :: ws)) u
      | objOf =>
        rename_i fields ws0 inner hws hgf
        intro hsz hcw
        have hcwf : bodyAllF (fun b => !hasCWPat b) fields = true := hcw
        rw [jsize] at hsz
        obtain ⟨inner2, hgf2, hstripF⟩ := ihF fields inner hgf (by omega) hcwf
        refine ⟨?_, ?_⟩
        · have hstrip : stripCommas ('{' :: ws0 ++ inner ++ ['}']) =
              '{' :: ws0 ++ inner2 ++ ['}'] := by
            rw [show ('{' :: ws0 ++ inner ++ ['}'] : List Char) =
              '{' :: (ws0 ++ (inner ++ '}' :: [])) from by simp]
            rw [stripCommas_cons_nc _ (by decide), wsStrip hws, hstripF [], stripCommas_nil]
            simp
          rw [hstrip]
          exact Good.objOf false fields ws0 inner2 hws hgf2
        · exact fun u =>
            stripCommas_append
              (noDangling_concat (by decide) (by decide) ('{' :: (ws0 ++ inner))) u
    · -- items
      intro vs inner hgi
      cases hgi with
      | last =>
        rename_i v s ws hws hg
        intro hsz hcw
        rw [bodyAllL_cons, Bool.and_eq_true] at hcw
        rw [jsizeL, jsizeL] at hsz
        obtain ⟨hgs, hdist⟩ := ihV v s hg (by have := jsize_pos v; omega) hcw.1
        refine ⟨stripCommas s ++ ws, GoodItems.last false v _ ws hgs hws, ?_⟩
        intro u
        rw [show (s ++ ws) ++ ']' :: u = s ++ (ws ++ ']' :: u) from by rw [List.append_assoc]]
        rw [hdist (ws ++ ']' :: u)]
        rw [wsStrip hws, stripCommas_cons_nc _ (by decide)]
        simp
      | lastComma =>
        rename_i v s ws1 ws2 hg hws1 hws2
        intro hsz hcw
        rw [bodyAllL_cons, Bool.and_eq_true] at hcw
        rw [jsizeL, jsizeL] at hsz
        obtain ⟨hgs, hdist⟩ := ihV v s hg (by have := jsize_pos v; omega) hcw.1
        refine ⟨stripCommas s ++ ws1, GoodItems.last false v _ ws1 hgs hws1, ?_⟩
        intro u
        rw [show (s ++ ws1 ++ ',' :: ws2) ++ ']' :: u =
          s ++ (ws1 ++ ',' :: (ws2 ++ ']' :: u)) from by simp]
        rw [hdist _, wsStrip hws1]
        have hdw : (ws2 ++ ']' :: u).dropWhile isPyWs = ']' :: u := by
          rw [dropWhile_append_all (all_jsonWs_pyWs hws2), dropWhile_cons_neg (by decide)]
        rw [stripCommas_comma_hit_r _ (by rw [hdw]; rfl)]
        rw [hdw]
        rw [show ((']' :: u : List Char)).tail = u from rfl]
        simp
      | cons =>
        rename_i v vs2 s ws1 ws2 rest hws1 hws2 hg hgrest
        intro hsz hcw
        rw [bodyAllL_cons, Bool.and_eq_true] at hcw
        rw [jsizeL] at hsz
        obtain ⟨hgs, hdist⟩ := ihV v s hg (by have := jsize_pos v; omega) hcw.1
        obtain ⟨inner2, hgi2, hstripR⟩ :=
          ihI vs2 rest hgrest (by have := jsize_pos v; omega) hcw.2
        refine ⟨stripCommas s ++ ws1 ++ ',' :: ws2 ++ inner2,
          GoodItems.cons false v vs2 _ ws1 ws2 inner2 hgs hws1 hws2 hgi2, ?_⟩
        intro u
        rw [show (s ++ ws1 ++ ',' :: ws2 ++ rest) ++ ']' :: u =
          s ++ (ws1 ++ ',' :: (ws2 ++ (rest ++ ']' :: u))) from by simp]
        rw [hdist _, wsStrip hws1]
        obtain ⟨hc, hrest2, hin, hpw, hnw, hncm, hnbk, hnbc⟩ := goodItems_head hgrest
        have hdw : (ws2 ++ (rest ++ ']' :: u)).dropWhile isPyWs = rest ++ ']' :: u := by
          rw [dropWhile_append_all (all_jsonWs_pyWs hws2), hin, List.cons_append,
            dropWhile_cons_neg hpw, ← List.cons_append, ← hin]
        rw [stripCommas_comma_miss _ (by rw [hdw, hin]; simp [hnbk])
          (by rw [hdw, hin]; simp [hnbc])]
        rw [wsStrip hws2]
        rw [hstripR u]
        simp
    · -- fields
      intro fs inner hgf
      cases hgf with
      | last =>
        rename_i k v ws1 ws2 s ws3 hbk hw1 hw2 hw3 hg
        intro hsz hcw
        rw [bodyAllF_cons, Bool.and_eq_true, Bool.and_eq_true] at hcw
        have hcwk : hasCWPat k = false := by
          have := hcw.1.1
          simpa using this
        rw [jsizeF, jsizeF] at hsz
        obtain ⟨hgs, hdist⟩ := ihV v s hg (by have := jsize_pos v; omega) hcw.1.2
        refine ⟨'"' :: k ++ '"' :: ws1 ++ ':' :: ws2 ++ stripCommas s ++ ws3,
          GoodFields.last false k v ws1 ws2 _ ws3 hbk hw1 hw2 hgs hw3, ?_⟩
        intro u
        rw [show ('"' :: k ++ '"' :: ws1 ++ ':' :: ws2 ++ s ++ ws3) ++ '}' :: u =
          '"' :: (k ++ '"' :: (ws1 ++ ':' :: (ws2 ++ (s ++ (ws3 ++ '}' :: u))))) from by simp]
        rw [stripCommas_cons_nc _ (by decide)]
        rw [stripCommas_pass hcwk _ (by decide) (by decide) (by decide)]
        rw [stripCommas_cons_nc _ (by decide), wsStrip hw1,
          stripCommas_cons_nc _ (by decide), wsStrip hw2]
        rw [hdist _, wsStrip hw3, stripCommas_cons_nc _ (by decide)]
        simp
      | lastComma =>
        rename_i k v ws1 ws2 s ws3 ws4 hbk hw1 hw2 hg hw3 hw4
        intro hsz hcw
        rw [bodyAllF_cons, Bool.and_eq_true, Bool.and_eq_true] at hcw
        have hcwk : hasCWPat k = false := by
          have := hcw.1.1
          simpa using this
        rw [jsizeF, jsizeF] at hsz
        obtain ⟨hgs, hdist⟩ := ihV v s hg (by have := jsize_pos v; omega) hcw.1.2
        refine ⟨'"' :: k ++ '"' :: ws1 ++ ':' :: ws2 ++ stripCommas s ++ ws3,
          GoodFields.last false k v ws1 ws2 _ ws3 hbk hw1 hw2 hgs hw3, ?_⟩
        intro u
        rw [show ('"' :: k ++ '"' :: ws1 ++ ':' :: ws2 ++ s ++ ws3 ++ ',' :: ws4) ++ '}' :: u =
          '"' :: (k ++ '"' :: (ws1 ++ ':' :: (ws2 ++
            (s ++ (ws3 ++ ',' :: (ws4 ++ '}' :: u)))))) from by simp]
        rw [stripCommas_cons_nc _ (by decide)]
        rw [stripCommas_pass hcwk _ (by decide) (by decide) (by decide)]
        rw [stripCommas_cons_nc _ (by decide), wsStrip hw1,
          stripCommas_cons_nc _ (by decide), wsStrip hw2]
        rw [hdist _, wsStrip hw3]
        have hdw : (ws4 ++ '}' :: u).dropWhile isPyWs = '}' :: u := by
          rw [dropWhile_append_all (all_jsonWs_pyWs hw4), dropWhile_cons_neg (by decide)]
        rw [stripCommas_comma_hit_b _ (by rw [hdw]; simp) (by rw [hdw]; rfl)]
        rw [hdw]
        rw [show (('}' :: u : List Char)).tail = u from rfl]
        simp
      | cons =>
        rename_i k v fs2 ws1 ws2 s ws3 ws4 rest hbk hw1 hw2 hw3 hw4 hg hrest
        intro hsz hcw
        rw [bodyAllF_cons, Bool.and_eq_true, Bool.and_eq_true] at hcw
        have hcwk : hasCWPat k = false := by
          have := hcw.1.1
          simpa using this
        rw [jsizeF] at hsz
        obtain ⟨hgs, hdist⟩ := ihV v s hg (by have := jsize_pos v; omega) hcw.1.2
        obtain ⟨inner2, hgf2, hstripR⟩ :=
          ihF fs2 rest hrest (by have := jsize_pos v; omega) hcw.2
        refine ⟨'"' :: k ++ '"' :: ws1 ++ ':' :: ws2 ++ stripCommas s ++ ws3 ++
          ',' :: ws4 ++ inner2,
          GoodFields.cons false k v fs2 ws1 ws2 _ ws3 ws4 inner2 hbk hw1 hw2 hgs hw3 hw4
            hgf2, ?_⟩
        intro u
        rw [show ('"' :: k ++ '"' :: ws1 ++ ':' :: ws2 ++ s ++ ws3 ++ ',' :: ws4 ++ rest) ++
          '}' :: u =
          '"' :: (k ++ '"' :: (ws1 ++ ':' :: (ws2 ++
            (s ++ (ws3 ++ ',' :: (ws4 ++ (rest ++ '}' :: u))))))) from by simp]
        rw [stripCommas_cons_nc _ (by decide)]
        rw [stripCommas_pass hcwk _ (by decide) (by decide) (by decide)]
        rw [stripCommas_cons_nc _ (by decide), wsStrip hw1,
          stripCommas_cons_nc _ (by decide), wsStrip hw2]
        rw [hdist _, wsStrip hw3]
        obtain ⟨hrest2, hin⟩ := goodFields_head hrest
        have hdw : (ws4 ++ (rest ++ '}' :: u)).dropWhile isPyWs = rest ++ '}' :: u := by
          rw [dropWhile_append_all (all_jsonWs_pyWs hw4), hin, List.cons_append,
            dropWhile_cons_neg (by decide), ← List.cons_append, ← hin]
        rw [stripCommas_comma_miss _ (by rw [hdw, hin]; simp) (by rw [hdw, hin]; simp)]
        rw [wsStrip hw4]
        rw [hstripR u]
        simp



theorem wsOk_no_comma {ws : List Char} (h : wsOk ws = true) : ',' ∉ ws := by
  intro hm
  have h2 : isJsonWs ',' = true := List.all_eq_true.mp h ',' hm
  exact absurd h2 (by decide)

theorem strip_goodDoc {v : JVal} {s : List Char} (h : GoodDoc true v s)
    (hcw : noCWBodies v = true) : GoodDoc false v (stripCommas s) := by
  obtain ⟨wsA, core, wsZ, hwa, hwz, hg, hs⟩ := h
  obtain ⟨hgs, hdist⟩ := (strip_good_aux (jsize v)).1 v core hg le_rfl hcw
  refine ⟨wsA, stripCommas core, wsZ, hwa, hwz, hgs, ?_⟩
  rw [hs]
  rw [List.append_assoc, wsStrip hwa, hdist wsZ]
  rw [stripCommas_no_comma (wsOk_no_comma hwz)]
  rw [List.append_assoc]

theorem relaxed_tolerant {s : List Char} {v : JVal} (h : parseRelaxed s = some v)
    (hcw : noCWBodies v = true) : tolerantParse s = some v := by
  rw [tolerantParse]
  exact goodDoc_complete (strip_goodDoc (parseRelaxed_sound h) hcw)

/-! ## C2 — the tolerant reader versus the relaxed grammar -/

/-- C2 (amended): on every document that the relaxed parser (standard JSON
plus trailing commas before `]`/`}`) accepts, and whose string and number
bodies are free of the comma-whitespace-closing-bracket pattern, the
tolerant reader — `re.sub` comma stripping followed by a standard JSON
parse — succeeds and returns the same structured value.  The guard on the
bodies is necessary: the original claim's second half, that stripping
leaves string contents intact, is refuted by `c2_strip_reaches_strings`
below. -/
theorem tolerant_reader_agrees_with_relaxed {s : List Char} {v : JVal}
    (h : parseRelaxed s = some v) (hcw : noCWBodies v = true) :
    tolerantParse s = some v :=
  relaxed_tolerant h hcw

/-- Witness for C2 at the document `{"a": [1, 2,], "b": "x",}`. -/
theorem tolerant_reader_agrees_with_relaxed_witness :
    parseRelaxed c2WitDoc = some c2WitVal ∧ noCWBodies c2WitVal = true ∧
      tolerantParse c2WitDoc = some c2WitVal :=
  ⟨by rfl, by rfl, tolerant_reader_agrees_with_relaxed (by rfl) (by rfl)⟩

/-- Counterexample for C2 as stated: on the standard-JSON document
`{"a": ",]"}` (no trailing commas, so hand-stripping is the identity),
the tolerant reader returns `{"a": "]"}` — the `re.sub` pass rewrites the
string body, so the tolerant parse differs from the relaxed parse and the
strip does not leave string contents intact. -/
theorem c2_strip_reaches_strings :
    parseRelaxed c2CexDoc = some (.obj [((("a").toList), .str ((",]").toList))]) ∧
    tolerantParse c2CexDoc = some (.obj [((("a").toList), .str (("]").toList))]) ∧
    tolerantParse c2CexDoc ≠ parseRelaxed c2CexDoc := by
  refine ⟨by rfl, by rfl, ?_⟩
  intro hcontra
  rw [show parseRelaxed c2CexDoc
        = some (.obj [((("a").toList), .str ([',', ']'])) ]) from rfl,
      show tolerantParse c2CexDoc
        = some (.obj [((("a").toList), .str ([']'])) ]) from rfl] at hcontra
  simp at hcontra

/-! ## C10 — the renderer counts `add_room_instance` records as `UnknownObject` -/

set_option maxRecDepth 100000 in
/-- C10: the renderer's Counter key for a placed instance (line 540) is
`inst.get('objId', {}).get('name', 'UnknownObject')`, while every record
`add_room_instance` builds stores the object reference under the key
`objectId`; the first conjunct shows the key resolves to the literal
`UnknownObject` — successfully, never a failure — for every record shape
the function can emit (all argument values).  The remaining conjuncts run
the chain concretely: the call succeeds, and in the room file it writes
the inserted record — as the tolerant reader used by `get_room_info`
parses it back — is exactly `instVal`, to which the first conjunct
applies. -/
theorem add_room_instance_counted_as_unknown_object :
    (∀ instId obj rel overrides rot sx sy x y,
      instCountName (instVal instId obj rel overrides rot sx sy x y)
        = some (.str (("UnknownObject").toList)))
    ∧ c10Run.1 = .ok (("inst_0BADF00D").toList)
    ∧ c10InstRec = some (instVal (("inst_0BADF00D").toList) (("obj_enemy").toList)
        (objYyRel (("obj_enemy").toList)) [] (("0").toList) (("1").toList) (("1").toList)
        (("10").toList) (("20").toList)) :=
  ⟨fun _ _ _ _ _ _ _ _ _ => rfl, rfl, rfl⟩


/-! ## C1 — mutations versus tolerant re-parseability -/

theorem goodCast {rx : Bool} {v : JVal} {s s' : List Char} (h : Good rx v s) (he : s = s') :
    Good rx v s' := he ▸ h

theorem goodItemsCast {rx : Bool} {vs : List JVal} {s s' : List Char} (h : GoodItems rx vs s)
    (he : s = s') : GoodItems rx vs s' := he ▸ h

theorem goodFieldsCast {rx : Bool} {fs : List (List Char × JVal)} {s s' : List Char}
    (h : GoodFields rx fs s) (he : s = s') : GoodFields rx fs s' := he ▸ h

theorem strSafe_scanStr : ∀ {b : List Char}, strSafe b = true →
    scanStr (b ++ ['"']) = some (b, []) := by
  intro b
  induction b with
  | nil => intro _; exact scanStr_quote []
  | cons c bs ih =>
    intro h
    simp only [strSafe, List.all_cons, Bool.and_eq_true, decide_eq_true_eq] at h
    obtain ⟨⟨⟨h32, hq⟩, hb⟩, hrest⟩ := h
    have hsafe : strSafe bs = true := by
      simp only [strSafe]; exact hrest
    rw [List.cons_append, scanStr_ord (bs ++ ['"']) hq hb (by omega), ih hsafe]
    rfl

theorem strSafe_strBodyOk {b : List Char} (h : strSafe b = true) : strBodyOk b = true :=
  strBodyOk_iff.mpr (strSafe_scanStr h)

theorem hasCWPat_no_comma : ∀ {s : List Char}, ',' ∉ s → hasCWPat s = false := by
  intro s
  induction s with
  | nil => intro _; rfl
  | cons c cs ih =>
    intro h
    have hc : c ≠ ',' := fun he => h (he ▸ List.mem_cons_self c cs)
    simp only [hasCWPat, ih (fun hm => h (List.mem_cons_of_mem c hm)), Bool.or_false]
    simp [decide_eq_false hc]

theorem good_str {rx : Bool} {b : List Char} (hb : strBodyOk b = true) :
    Good rx (.str b) ('"' :: (b ++ ['"'])) :=
  Good.strG rx b hb

theorem good_obj_fields {fs : List (List Char × JVal)} {inner : List Char}
    (h : GoodFields true fs inner) : Good true (.obj fs) ('{' :: (inner ++ ['}'])) := by
  have := Good.objOf true fs [] inner rfl h
  exact goodCast this (by simp)

theorem good_arr_items (ws0 : List Char) {vs : List JVal} {inner : List Char}
    (hw : wsOk ws0 = true) (h : GoodItems true vs inner) :
    Good true (.arr vs) ('[' :: (ws0 ++ (inner ++ [']']))) := by
  have := Good.arrOf true vs ws0 inner hw h
  exact goodCast this (by simp)

theorem goodFields_one {k : List Char} {v : JVal} {s : List Char} (hk : strBodyOk k = true)
    (hv : Good true v s) : GoodFields true [(k, v)] ('"' :: (k ++ ('"' :: ':' :: (s ++ [','])))) := by
  have := GoodFields.lastComma k v [] [] s [] [] hk rfl rfl hv rfl rfl
  exact goodFieldsCast this (by simp)

theorem goodFields_last_ws (ws4 : List Char) {k : List Char} {v : JVal} {s : List Char}
    (hk : strBodyOk k = true) (hv : Good true v s) (hw : wsOk ws4 = true) :
    GoodFields true [(k, v)] ('"' :: (k ++ ('"' :: ':' :: (s ++ (',' :: ws4))))) := by
  have := GoodFields.lastComma k v [] [] s [] ws4 hk rfl rfl hv rfl hw
  exact goodFieldsCast this (by simp)

theorem goodFields_cons {k : List Char} {v : JVal} {s : List Char}
    {fs : List (List Char × JVal)} {rest : List Char} (hk : strBodyOk k = true)
    (hv : Good true v s) (hrest : GoodFields true fs rest) :
    GoodFields true ((k, v) :: fs) ('"' :: (k ++ ('"' :: ':' :: (s ++ (',' :: rest))))) := by
  have := GoodFields.cons true k v fs [] [] s [] [] rest hk rfl rfl hv rfl rfl hrest
  exact goodFieldsCast this (by simp)

theorem goodItems_last (ws2 : List Char) {v : JVal} {s : List Char} (hv : Good true v s)
    (hw : wsOk ws2 = true) : GoodItems true [v] (s ++ (',' :: ws2)) := by
  have := GoodItems.lastComma v s [] ws2 hv rfl hw
  exact goodItemsCast this (by simp)

theorem goodItems_cons (ws2 : List Char) {v : JVal} {s : List Char} {vs : List JVal}
    {rest : List Char} (hv : Good true v s) (hw : wsOk ws2 = true)
    (hrest : GoodItems true vs rest) :
    GoodItems true (v :: vs) (s ++ (',' :: (ws2 ++ rest))) := by
  have := GoodItems.cons true v vs s [] ws2 rest hv rfl hw hrest
  exact goodItemsCast this (by simp)

theorem good_objdoc (nm : List Char) (hnm : strSafe nm = true) :
    Good true (c1ObjVal nm) (c1ObjRewritten nm) := by
  have hb := strSafe_strBodyOk hnm
  have d3 : GoodFields true [((("name").toList), JVal.str nm)] _ :=
    goodFields_one (by decide) (good_str hb)
  have d2 : GoodFields true (((("%Name").toList), JVal.str nm) ::
      [((("name").toList), JVal.str nm)]) _ :=
    goodFields_cons (by decide) (good_str hb) d3
  have d1 : GoodFields true (((("$GMObject").toList), JVal.str (("v1").toList)) ::
      ((("%Name").toList), JVal.str nm) :: [((("name").toList), JVal.str nm)]) _ :=
    goodFields_cons (by decide) (good_str (by decide)) d2
  refine goodCast (good_obj_fields d1) ?_
  simp only [qTok, c1ObjRewritten, List.append_assoc, List.cons_append, List.nil_append]
  rfl

theorem strSafe_append {a b : List Char} :
    strSafe (a ++ b) = (strSafe a && strSafe b) := by
  simp [strSafe, List.all_append]

theorem strSafe_cons {c : Char} {b : List Char} :
    strSafe (c :: b) =
      ((decide (32 ≤ c.toNat) && decide (c ≠ '"') && decide (c ≠ '\\')) && strSafe b) := by
  simp [strSafe, List.all_cons]

theorem good_yypDoc (nm : List Char) (hnm : strSafe nm = true) :
    Good true (c1YypVal nm) (c1YypWritten nm) := by
  have hbnm := strSafe_strBodyOk hnm
  have hpb : strSafe ((("objects").toList) ++ '/' :: nm ++ '/' :: nm ++ ((".yy").toList)) = true := by
    simp only [strSafe_append, strSafe_cons, hnm]
    decide
  have hbPB := strSafe_strBodyOk hpb
  have dPathInner : GoodFields true
      (((("name").toList), JVal.str nm) ::
       [((("path").toList), JVal.str ((("objects").toList) ++ '/' :: nm ++ '/' :: nm ++ ((".yy").toList)))]) _ :=
    goodFields_cons (by decide) (good_str hbnm) (goodFields_one (by decide) (good_str hbPB))
  have dIdObj := good_obj_fields dPathInner
  have dEntryF : GoodFields true [((("id").toList),
      JVal.obj (((("name").toList), JVal.str nm) ::
       [((("path").toList), JVal.str ((("objects").toList) ++ '/' :: nm ++ '/' :: nm ++ ((".yy").toList)))]))] _ :=
    goodFields_one (by decide) dIdObj
  have dEntry := good_obj_fields dEntryF
  have dItems := goodItems_last (("\n  ").toList) dEntry (by decide)
  have dRes := good_arr_items (("\n    ").toList) (by decide) dItems
  have dTop : GoodFields true
      (((("$GMProject").toList), JVal.str (("v1").toList)) ::
       ((("resources").toList), JVal.arr [yypEntryVal nm (("objects").toList)]) ::
       [((("name").toList), JVal.str (("proj").toList))]) _ :=
    goodFields_cons (by decide) (good_str (by decide))
      (goodFields_cons (by decide) dRes (goodFields_one (by decide) (good_str (by decide))))
  refine goodCast (good_obj_fields dTop) ?_
  simp only [c1YypWritten, yypEntry, List.append_assoc, List.cons_append, List.nil_append]
  rfl

theorem good_propEntry (obj rel pn pv : List Char) (ho : strSafe obj = true)
    (hr : strSafe rel = true) (hn : strSafe pn = true) (hv : strSafe pv = true) :
    Good true (propEntryVal obj rel pn pv) (propEntry obj rel pn pv) := by
  have hbo := strSafe_strBodyOk ho
  have hbr := strSafe_strBodyOk hr
  have hbn := strSafe_strBodyOk hn
  have hbv := strSafe_strBodyOk hv
  have dObjId : GoodFields true
      (((("name").toList), JVal.str obj) :: [((("path").toList), JVal.str rel)]) _ :=
    goodFields_cons (by decide) (good_str hbo) (goodFields_one (by decide) (good_str hbr))
  have dPropId : GoodFields true
      (((("name").toList), JVal.str pn) :: [((("path").toList), JVal.str rel)]) _ :=
    goodFields_cons (by decide) (good_str hbn) (goodFields_one (by decide) (good_str hbr))
  have d8 : GoodFields true [((("value").toList), JVal.str pv)] _ :=
    goodFields_one (by decide) (good_str hbv)
  have d7 : GoodFields true (((("resourceVersion").toList), JVal.str (("2.0").toList)) ::
      [((("value").toList), JVal.str pv)]) _ :=
    goodFields_cons (by decide) (good_str (by decide)) d8
  have d6 : GoodFields true (((("resourceType").toList), JVal.str (("GMOverriddenProperty").toList)) ::
      ((("resourceVersion").toList), JVal.str (("2.0").toList)) ::
      [((("value").toList), JVal.str pv)]) _ :=
    goodFields_cons (by decide) (good_str (by decide)) d7
  have d5 : GoodFields true (((("propertyId").toList),
        JVal.obj (((("name").toList), JVal.str pn) :: [((("path").toList), JVal.str rel)])) ::
      ((("resourceType").toList), JVal.str (("GMOverriddenProperty").toList)) ::
      ((("resourceVersion").toList), JVal.str (("2.0").toList)) ::
      [((("value").toList), JVal.str pv)]) _ :=
    goodFields_cons (by decide) (good_obj_fields dPropId) d6
  have d4 : GoodFields true (((("objectId").toList),
        JVal.obj (((("name").toList), JVal.str obj) :: [((("path").toList), JVal.str rel)])) ::
      ((("propertyId").toList),
        JVal.obj (((("name").toList), JVal.str pn) :: [((("path").toList), JVal.str rel)])) ::
      ((("resourceType").toList), JVal.str (("GMOverriddenProperty").toList)) ::
      ((("resourceVersion").toList), JVal.str (("2.0").toList)) ::
      [((("value").toList), JVal.str pv)]) _ :=
    goodFields_cons (by decide) (good_obj_fields dObjId) d5
  have d3 : GoodFields true (((("name").toList), JVal.str []) :: _) _ :=
    goodFields_cons (by decide) (good_str (by decide)) d4
  have d2 : GoodFields true (((("%Name").toList), JVal.str []) :: _) _ :=
    goodFields_cons (by decide) (good_str (by decide)) d3
  have d1 : GoodFields true (((("$GMOverriddenProperty").toList), JVal.str (("v1").toList)) :: _) _ :=
    goodFields_cons (by decide) (good_str (by decide)) d2
  refine goodCast (good_obj_fields d1) ?_
  simp only [propEntry, List.append_assoc, List.cons_append, List.nil_append]
  rfl

theorem intercalate_single (sep a : List Char) : List.intercalate sep [a] = a := by
  simp [List.intercalate]

theorem intercalate_cons2 (sep a b : List Char) (t : List (List Char)) :
    List.intercalate sep (a :: b :: t) = a ++ (sep ++ List.intercalate sep (b :: t)) := by
  simp [List.intercalate, List.intersperse]

theorem good_props_items (obj rel : List Char) (ho : strSafe obj = true)
    (hr : strSafe rel = true) : ∀ (pr : List Char × List Char) (rest : List (List Char × List Char)),
    (pr :: rest).all ovSafe = true →
    GoodItems true ((pr :: rest).map (fun q => propEntryVal obj rel q.1 q.2))
      (List.intercalate ((",\n            ").toList)
         ((pr :: rest).map (fun q => propEntry obj rel q.1 q.2)) ++
       (',' :: (("\n          ").toList))) := by
  intro pr rest
  induction rest generalizing pr with
  | nil =>
    intro hall
    simp only [List.all_cons, List.all_nil, Bool.and_true, ovSafe, Bool.and_eq_true] at hall
    obtain ⟨⟨⟨hn, _⟩, hv⟩, _⟩ := hall
    have base := goodItems_last (("\n          ").toList)
      (good_propEntry obj rel pr.1 pr.2 ho hr hn hv) (by decide)
    refine goodItemsCast base ?_
    simp only [List.map_cons, List.map_nil]
    rw [intercalate_single]
  | cons q rest2 ih =>
    intro hall
    simp only [List.all_cons, Bool.and_eq_true] at hall
    obtain ⟨hpr, hq, hrest2⟩ := hall
    simp only [ovSafe, Bool.and_eq_true] at hpr
    obtain ⟨⟨⟨hn, _⟩, hv⟩, _⟩ := hpr
    have tailD := ih q (by simp only [List.all_cons, Bool.and_eq_true]; exact ⟨hq, hrest2⟩)
    have step := goodItems_cons (("\n            ").toList)
      (good_propEntry obj rel pr.1 pr.2 ho hr hn hv) (by decide) tailD
    refine goodItemsCast step ?_
    simp only [List.map_cons]
    rw [intercalate_cons2]
    simp only [List.append_assoc, List.cons_append, List.nil_append]
    rfl

theorem good_props (obj rel : List Char) (overrides : List (List Char × List Char))
    (ho : strSafe obj = true) (hr : strSafe rel = true)
    (hov : overrides.all ovSafe = true) :
    Good true (propsVal obj rel overrides) (propsJson obj rel overrides) := by
  cases overrides with
  | nil =>
    have := Good.arrEmpty true [] rfl
    exact goodCast this rfl
  | cons pr rest =>
    have items := good_props_items obj rel ho hr pr rest hov
    have arr := good_arr_items ('\n' :: (("            ").toList)) (by decide) items
    refine goodCast arr ?_
    simp only [propsJson, if_neg (List.cons_ne_nil pr rest), List.append_assoc,
      List.cons_append, List.nil_append]
    rfl

set_option maxRecDepth 200000 in
theorem good_instLine (instId obj rel : List Char) (overrides : List (List Char × List Char))
    (rot sx sy x y : List Char) (hid : strSafe instId = true) (ho : strSafe obj = true)
    (hr : strSafe rel = true) (hov : overrides.all ovSafe = true)
    (hrot : numLitOk rot = true) (hsx : numLitOk sx = true) (hsy : numLitOk sy = true)
    (hx : numLitOk x = true) (hy : numLitOk y = true) :
    Good true (instVal instId obj rel overrides rot sx sy x y)
      (instanceLine instId obj rel (propsJson obj rel overrides) rot sx sy x y) := by
  have hbid := strSafe_strBodyOk hid
  have hbo := strSafe_strBodyOk ho
  have hbr := strSafe_strBodyOk hr
  have dObjId : GoodFields true
      (((("name").toList), JVal.str obj) :: [((("path").toList), JVal.str rel)]) _ :=
    goodFields_cons (by decide) (good_str hbo) (goodFields_one (by decide) (good_str hbr))
  have d22 : GoodFields true [((("y").toList), JVal.num y)] _ :=
    goodFields_one (by decide) (Good.numG true y hy)
  have d21 : GoodFields true (((("x").toList), JVal.num x) :: _) _ :=
    goodFields_cons (by decide) (Good.numG true x hx) d22
  have d20 : GoodFields true (((("scaleY").toList), JVal.num sy) :: _) _ :=
    goodFields_cons (by decide) (Good.numG true sy hsy) d21
  have d19 : GoodFields true (((("scaleX").toList), JVal.num sx) :: _) _ :=
    goodFields_cons (by decide) (Good.numG true sx hsx) d20
  have d18 : GoodFields true (((("rotation").toList), JVal.num rot) :: _) _ :=
    goodFields_cons (by decide) (Good.numG true rot hrot) d19
  have d17 : GoodFields true (((("resourceVersion").toList), JVal.str (("2.0").toList)) :: _) _ :=
    goodFields_cons (by decide) (good_str (by decide)) d18
  have d16 : GoodFields true (((("resourceType").toList), JVal.str (("GMRInstance").toList)) :: _) _ :=
    goodFields_cons (by decide) (good_str (by decide)) d17
  have d15 : GoodFields true (((("properties").toList), propsVal obj rel overrides) :: _) _ :=
    goodFields_cons (by decide) (good_props obj rel overrides ho hr hov) d16
  have d14 : GoodFields true (((("objectId").toList),
      JVal.obj (((("name").toList), JVal.str obj) :: [((("path").toList), JVal.str rel)])) :: _) _ :=
    goodFields_cons (by decide) (good_obj_fields dObjId) d15
  have d13 : GoodFields true (((("name").toList), JVal.str instId) :: _) _ :=
    goodFields_cons (by decide) (good_str hbid) d14
  have d12 : GoodFields true (((("isDnd").toList), JVal.bool false) :: _) _ :=
    goodFields_cons (by decide) (Good.falseG true) d13
  have d11 : GoodFields true (((("inheritItemSettings").toList), JVal.bool false) :: _) _ :=
    goodFields_cons (by decide) (Good.falseG true) d12
  have d10 : GoodFields true (((("inheritedItemId").toList), JVal.null) :: _) _ :=
    goodFields_cons (by decide) (Good.nullG true) d11
  have d9 : GoodFields true (((("inheritCode").toList), JVal.bool false) :: _) _ :=
    goodFields_cons (by decide) (Good.falseG true) d10
  have d8 : GoodFields true (((("imageSpeed").toList), JVal.num (("1.0").toList)) :: _) _ :=
    goodFields_cons (by decide) (Good.numG true (("1.0").toList) (by decide)) d9
  have d7 : GoodFields true (((("imageIndex").toList), JVal.num (("0").toList)) :: _) _ :=
    goodFields_cons (by decide) (Good.numG true (("0").toList) (by decide)) d8
  have d6 : GoodFields true (((("ignore").toList), JVal.bool false) :: _) _ :=
    goodFields_cons (by decide) (Good.falseG true) d7
  have d5 : GoodFields true (((("hasCreationCode").toList), JVal.bool false) :: _) _ :=
    goodFields_cons (by decide) (Good.falseG true) d6
  have d4 : GoodFields true (((("frozen").toList), JVal.bool false) :: _) _ :=
    goodFields_cons (by decide) (Good.falseG true) d5
  have d3 : GoodFields true (((("colour").toList), JVal.num (("4294967295").toList)) :: _) _ :=
    goodFields_cons (by decide) (Good.numG true (("4294967295").toList) (by decide)) d4
  have d2 : GoodFields true (((("%Name").toList), JVal.str instId) :: _) _ :=
    goodFields_cons (by decide) (good_str hbid) d3
  have d1 : GoodFields true (((("$GMRInstance").toList), JVal.str (("v4").toList)) :: _) _ :=
    goodFields_cons (by decide) (good_str (by decide)) d2
  refine goodCast (good_obj_fields d1) ?_
  simp only [instanceLine, List.append_assoc, List.cons_append, List.nil_append]
  rfl

set_option maxRecDepth 400000 in
theorem good_room (overrides : List (List Char × List Char))
    (hov : overrides.all ovSafe = true) :
    Good true (c1RoomVal overrides) (c1RoomWritten overrides) := by
  have inst := good_instLine (("inst_0BADF00D").toList) (("obj_enemy").toList)
    (objYyRel (("obj_enemy").toList)) overrides
    (("0").toList) (("1").toList) (("1").toList) (("10").toList) (("20").toList)
    (by decide) (by decide) (by decide) hov (by decide) (by decide) (by decide) (by decide) (by decide)
  have dIcoF : GoodFields true
      (((("name").toList), JVal.str (("inst_0BADF00D").toList)) ::
       [((("path").toList), JVal.str (("rooms/Room1/Room1.yy").toList))]) _ :=
    goodFields_cons (by decide) (good_str (by decide))
      (goodFields_one (by decide) (good_str (by decide)))
  have dIcoObj := good_obj_fields dIcoF
  have dIcoItems := goodItems_last (("\n  ").toList) dIcoObj (by decide)
  have dIcoArr := good_arr_items (("\n    ").toList) (by decide) dIcoItems
  have dInstItems := goodItems_last (("\n      ").toList) inst (by decide)
  have dInstArr := good_arr_items (("\n        ").toList) (by decide) dInstItems
  have dL5 : GoodFields true
      [((("resourceType").toList), JVal.str (("GMRInstanceLayer").toList))] _ :=
    goodFields_one (by decide) (good_str (by decide))
  have dL4 : GoodFields true (((("name").toList), JVal.str (("Instances").toList)) :: _) _ :=
    goodFields_cons (by decide) (good_str (by decide)) dL5
  have dL3 : GoodFields true (((("layers").toList), JVal.arr []) :: _) _ :=
    goodFields_cons (by decide) (Good.arrEmpty true [] rfl) dL4
  have dL2 : GoodFields true (((("instances").toList),
      JVal.arr [instVal (("inst_0BADF00D").toList) (("obj_enemy").toList)
        (objYyRel (("obj_enemy").toList)) overrides
        (("0").toList) (("1").toList) (("1").toList) (("10").toList) (("20").toList)]) :: _) _ :=
    goodFields_cons (by decide) dInstArr dL3
  have dL1 : GoodFields true (((("%Name").toList), JVal.str (("Instances").toList)) :: _) _ :=
    goodFields_cons (by decide) (good_str (by decide)) dL2
  have dLayerObj := good_obj_fields dL1
  have dLayersItems := goodItems_last (("\n  ").toList) dLayerObj (by decide)
  have dLayersArr := good_arr_items (("\n    ").toList) (by decide) dLayersItems
  have dT5 : GoodFields true [((("name").toList), JVal.str (("Room1").toList))] _ :=
    goodFields_last_ws ['\n'] (by decide) (good_str (by decide)) (by decide)
  have dT4 : GoodFields true (((("layers").toList), JVal.arr
      [JVal.obj (((("%Name").toList), JVal.str (("Instances").toList)) ::
        ((("instances").toList), JVal.arr [instVal (("inst_0BADF00D").toList) (("obj_enemy").toList)
          (objYyRel (("obj_enemy").toList)) overrides
          (("0").toList) (("1").toList) (("1").toList) (("10").toList) (("20").toList)]) ::
        ((("layers").toList), JVal.arr []) ::
        ((("name").toList), JVal.str (("Instances").toList)) ::
        [((("resourceType").toList), JVal.str (("GMRInstanceLayer").toList))])]) :: _) _ :=
    goodFields_cons (by decide) dLayersArr dT5
  have dT3 : GoodFields true (((("instanceCreationOrder").toList), JVal.arr
      [JVal.obj (((("name").toList), JVal.str (("inst_0BADF00D").toList)) ::
       [((("path").toList), JVal.str (("rooms/Room1/Room1.yy").toList))])]) :: _) _ :=
    goodFields_cons (by decide) dIcoArr dT4
  have dT2 : GoodFields true (((("%Name").toList), JVal.str (("Room1").toList)) :: _) _ :=
    goodFields_cons (by decide) (good_str (by decide)) dT3
  have dT1 : GoodFields true (((("$GMRoom").toList), JVal.str (("v1").toList)) :: _) _ :=
    goodFields_cons (by decide) (good_str (by decide)) dT2
  refine goodCast (good_obj_fields dT1) ?_
  simp only [c1RoomWritten, List.append_assoc, List.cons_append, List.nil_append]
  rfl

theorem ovSafe_parts {pr : List Char × List Char} (h : ovSafe pr = true) :
    strSafe pr.1 = true ∧ hasCWPat pr.1 = false ∧ strSafe pr.2 = true ∧ hasCWPat pr.2 = false := by
  simp only [ovSafe, Bool.and_eq_true, Bool.not_eq_true'] at h
  exact ⟨h.1.1.1, h.1.1.2, h.1.2, h.2⟩

theorem noCW_entry (obj rel pn pv : List Char) (ho : hasCWPat obj = false)
    (hr : hasCWPat rel = false) (hn : hasCWPat pn = false) (hv : hasCWPat pv = false) :
    bodyAll (fun b => !hasCWPat b) (propEntryVal obj rel pn pv) = true := by
  simp only [propEntryVal, bodyAll, bodyAllF, bodyAllL, ho, hr, hn, hv]
  decide

theorem noCW_entries (obj rel : List Char) (ho : hasCWPat obj = false)
    (hr : hasCWPat rel = false) :
    ∀ ov : List (List Char × List Char), ov.all ovSafe = true →
    bodyAllL (fun b => !hasCWPat b) (ov.map (fun q => propEntryVal obj rel q.1 q.2)) = true := by
  intro ov
  induction ov with
  | nil => intro _; rfl
  | cons pr rest ih =>
    intro hall
    simp only [List.all_cons, Bool.and_eq_true] at hall
    obtain ⟨hpr, hrest⟩ := hall
    obtain ⟨_, hn, _, hv⟩ := ovSafe_parts hpr
    simp only [List.map_cons, bodyAllL, noCW_entry obj rel pr.1 pr.2 ho hr hn hv,
      ih hrest, Bool.and_self]

theorem noCW_instVal (instId obj rel : List Char) (overrides : List (List Char × List Char))
    (rot sx sy x y : List Char) (hiid : hasCWPat instId = false) (ho : hasCWPat obj = false)
    (hr : hasCWPat rel = false) (hov : overrides.all ovSafe = true) :
    bodyAll (fun b => !hasCWPat b) (instVal instId obj rel overrides rot sx sy x y) = true := by
  simp only [instVal, propsVal, bodyAll, bodyAllF, bodyAllL, hiid, ho, hr,
    noCW_entries obj rel ho hr overrides hov]
  decide

theorem noCW_room (overrides : List (List Char × List Char))
    (hov : overrides.all ovSafe = true) : noCWBodies (c1RoomVal overrides) = true := by
  have hinst := noCW_instVal (("inst_0BADF00D").toList) (("obj_enemy").toList)
    (objYyRel (("obj_enemy").toList)) overrides
    (("0").toList) (("1").toList) (("1").toList) (("10").toList) (("20").toList)
    (by decide) (by decide) (by decide) hov
  simp only [noCWBodies, c1RoomVal, bodyAll, bodyAllF, bodyAllL]
  simp only [bodyAll] at hinst
  rw [hinst]
  decide

theorem noCW_yypVal (nm : List Char) (hnm : hasCWPat nm = false) (hcm : ',' ∉ nm) :
    noCWBodies (c1YypVal nm) = true := by
  have hpath : hasCWPat ((("objects").toList) ++ '/' :: nm ++ '/' :: nm ++ ((".yy").toList)) = false := by
    refine hasCWPat_no_comma ?_
    simp only [List.mem_append, List.mem_cons]
    rintro ((⟨h | h⟩ | h) | h)
    · revert h; decide
    · exact absurd (by assumption) (by simp [hcm])
    · exact absurd (by assumption) (by simp [hcm])
    · revert h; decide
  simp only [noCWBodies, c1YypVal, yypEntryVal, bodyAll, bodyAllF, bodyAllL, hnm, hpath]
  decide

theorem noCW_objVal (nm : List Char) (hnm : hasCWPat nm = false) :
    noCWBodies (c1ObjVal nm) = true := by
  simp only [noCWBodies, c1ObjVal, bodyAll, bodyAllF, bodyAllL, hnm]
  decide

theorem goodDoc_of_core {v : JVal} {s : List Char} (h : Good true v s) : GoodDoc true v s :=
  ⟨[], s, [], rfl, rfl, h, by simp⟩

theorem tolerant_of_good {v : JVal} {s : List Char} (h : GoodDoc true v s)
    (hcw : noCWBodies v = true) : tolerantParse s = some v := by
  rw [tolerantParse]
  exact goodDoc_complete (strip_goodDoc h hcw)

theorem pyStartsWith_mem : ∀ {pat u : List Char}, pyStartsWith pat u = true →
    ∀ {c : Char}, c ∈ pat → c ∈ u := by
  intro pat
  induction pat with
  | nil => intro u _ c hc; cases hc
  | cons p ps ih =>
    intro u h c hc
    cases u with
    | nil => cases h
    | cons b bs =>
      simp only [pyStartsWith, Bool.and_eq_true, decide_eq_true_eq] at h
      rcases List.mem_cons.mp hc with he | hm
      · exact he ▸ h.1 ▸ List.mem_cons_self b bs
      · exact List.mem_cons_of_mem b (ih h.2 hm)

theorem pyReplace_id_of_mem {pat rep s : List Char} {ch : Char} (hch : ch ∈ pat)
    (hs : ch ∉ s) : pyReplace pat rep s = s := by
  refine pyReplace_id pat rep s ?_
  intro i _
  cases hps : pyStartsWith pat (List.drop i s) with
  | false => rfl
  | true => exact absurd (List.drop_subset i s (pyStartsWith_mem hps hch)) hs

theorem slash_not_in_rewritten (nm : List Char) (hsl : '/' ∉ nm) :
    '/' ∉ c1ObjRewritten nm := by
  have h1 : ('/' : Char) ∉ (("\x7b\"$GMObject\":\"v1\",\"%Name\":").toList) := by decide
  have h2 : ('/' : Char) ∉ ((",\"name\":").toList) := by decide
  have h3 : ('/' : Char) ∉ ((",\x7d").toList) := by decide
  have h4 : ('/' : Char) ≠ '"' := by decide
  simp [c1ObjRewritten, qTok, List.mem_append, List.mem_cons, h1, h2, h3, h4, hsl]

set_option maxRecDepth 100000 in
theorem p3_transform (nm : List Char) (hsl : '/' ∉ nm) :
    dupTransformYy (("obj_src").toList) nm [] c1ObjDoc = c1ObjRewritten nm := by
  have h1 : pyReplace (qTok (("obj_src").toList)) (qTok nm) c1ObjDoc = c1ObjRewritten nm := rfl
  show applyOverrides [] (dupRewriteNames (("obj_src").toList) nm c1ObjDoc) = _
  rw [show applyOverrides [] (dupRewriteNames (("obj_src").toList) nm c1ObjDoc)
      = dupRewriteNames (("obj_src").toList) nm c1ObjDoc from rfl]
  rw [dupRewriteNames, h1]
  exact pyReplace_id_of_mem (by decide) (slash_not_in_rewritten nm hsl)

set_option maxRecDepth 400000 in
/-- C1 (amended): the mutation operations keep the written document
readable by the tolerant reader only under interpolation-safety side
conditions that the code does not enforce.  With quote-, backslash-,
control- and comma-free interpolated strings: (1) `_register_resource_in_yyp`
on the minimal manifest writes a document the tolerant reader parses to the
expected manifest value, for every asset name; (2) `add_room_instance` on
the minimal room writes a document the tolerant reader parses to the
expected room value, for every list of property overrides whose names and
values are also strip-pattern-free; (3) `duplicate_object`'s metadata
rewrite maps the minimal object document to a document the tolerant reader
parses to the renamed object value, for every new name additionally free
of `/`.  Without such conditions the claim fails:
`c1_quote_override_breaks_reparse` below shows a single override value
containing a raw quote makes the written room file unparseable. -/
theorem mutations_reparse_only_with_safe_interpolants :
    (∀ nm : List Char, strSafe nm = true → ',' ∉ nm →
      register_resource_in_yyp (("/p").toList) nm (("objects").toList)
        [(("game.yyp").toList)] c1YypDoc
        = (true, [FsAct.write (("/p/game.yyp").toList) (c1YypWritten nm)])
      ∧ tolerantParse (c1YypWritten nm) = some (c1YypVal nm))
  ∧ (∀ overrides : List (List Char × List Char), overrides.all ovSafe = true →
      add_room_instance (("/p").toList) (("Room1").toList) (("obj_enemy").toList)
        (("10").toList) (("20").toList) (("1").toList) (("1").toList) (("0").toList)
        (("Instances").toList) overrides (("inst_0BADF00D").toList) true true c1CexRoomDoc
        = (.ok (("inst_0BADF00D").toList),
           [FsAct.write (("/p/rooms/Room1/Room1.yy").toList) (c1RoomWritten overrides)])
      ∧ tolerantParse (c1RoomWritten overrides) = some (c1RoomVal overrides))
  ∧ (∀ nm : List Char, strSafe nm = true → ',' ∉ nm → '/' ∉ nm →
      dupTransformYy (("obj_src").toList) nm [] c1ObjDoc = c1ObjRewritten nm
      ∧ tolerantParse (c1ObjRewritten nm) = some (c1ObjVal nm)) := by
  refine ⟨?_, ?_, ?_⟩
  · intro nm hnm hcm
    exact ⟨rfl, tolerant_of_good (goodDoc_of_core (good_yypDoc nm hnm))
      (noCW_yypVal nm (hasCWPat_no_comma hcm) hcm)⟩
  · intro ov hov
    exact ⟨rfl, tolerant_of_good (goodDoc_of_core (good_room ov hov)) (noCW_room ov hov)⟩
  · intro nm hnm hcm hsl
    exact ⟨p3_transform nm hsl, tolerant_of_good (goodDoc_of_core (good_objdoc nm hnm))
      (noCW_objVal nm (hasCWPat_no_comma hcm))⟩

set_option maxRecDepth 400000 in
/-- Witness for C1 at asset name `obj_new` and override list
`[("speed", "5")]`. -/
theorem mutations_reparse_witness :
    (register_resource_in_yyp (("/p").toList) (("obj_new").toList) (("objects").toList)
        [(("game.yyp").toList)] c1YypDoc
        = (true, [FsAct.write (("/p/game.yyp").toList) (c1YypWritten (("obj_new").toList))])
      ∧ tolerantParse (c1YypWritten (("obj_new").toList)) = some (c1YypVal (("obj_new").toList)))
  ∧ (add_room_instance (("/p").toList) (("Room1").toList) (("obj_enemy").toList)
        (("10").toList) (("20").toList) (("1").toList) (("1").toList) (("0").toList)
        (("Instances").toList) [((("speed").toList), ("5").toList)]
        (("inst_0BADF00D").toList) true true c1CexRoomDoc
        = (.ok (("inst_0BADF00D").toList),
           [FsAct.write (("/p/rooms/Room1/Room1.yy").toList)
             (c1RoomWritten [((("speed").toList), ("5").toList)])])
      ∧ tolerantParse (c1RoomWritten [((("speed").toList), ("5").toList)])
        = some (c1RoomVal [((("speed").toList), ("5").toList)]))
  ∧ (dupTransformYy (("obj_src").toList) (("obj_new").toList) [] c1ObjDoc
        = c1ObjRewritten (("obj_new").toList)
      ∧ tolerantParse (c1ObjRewritten (("obj_new").toList))
        = some (c1ObjVal (("obj_new").toList))) :=
  ⟨mutations_reparse_only_with_safe_interpolants.1 (("obj_new").toList) (by decide) (by decide),
   mutations_reparse_only_with_safe_interpolants.2.1
     [((("speed").toList), ("5").toList)] (by decide),
   mutations_reparse_only_with_safe_interpolants.2.2 (("obj_new").toList)
     (by decide) (by decide) (by decide)⟩

set_option maxRecDepth 400000 in
/-- Counterexample for C1 as stated: the minimal room parses before the
call, the call with the single override `p = x"` succeeds and writes the
spliced file, but the tolerant reader rejects the written document — the
raw quote in the interpolated value breaks the string literal. -/
theorem c1_quote_override_breaks_reparse :
    (tolerantParse c1CexRoomDoc).isSome = true
  ∧ add_room_instance (("/p").toList) (("Room1").toList) (("obj_enemy").toList)
      (("10").toList) (("20").toList) (("1").toList) (("1").toList) (("0").toList)
      (("Instances").toList) c1CexOv (("inst_0BADF00D").toList) true true c1CexRoomDoc
      = (.ok (("inst_0BADF00D").toList),
         [FsAct.write (("/p/rooms/Room1/Room1.yy").toList) (c1RoomWritten c1CexOv)])
  ∧ tolerantParse (c1RoomWritten c1CexOv) = none :=
  ⟨rfl, rfl, rfl⟩

end GMS2
